import Mathlib

/-!
# nopscript: the evaluator of `src/eval.c`

A shallow embedding of the tree-walking evaluator (scope stack, statement
executor, expression evaluator, builtins) and the properties of it that the
specification states.

Conventions of the embedding.

* A `stmt_t*` is the head of a linked list (`stmt->next`), so it is a
  `List (stmt_t D)`; `NULL` is `[]`.
* The source location `where` of a node only feeds the diagnostics and is left
  out.
* Every C function that can loop or recurse takes a fuel argument; one unit
  is spent per call and per loop iteration.  `res.out_of_fuel` says that the
  fuel did not suffice and nothing else.
* A fatal diagnostic, `exit` and undefined behaviour end the run: `res.halt`
  carries the reason and the environment at that moment.
-/

namespace Nopscript

/-! ## Numbers -/

/-- The operations on the C type `double` that the evaluator uses.  The
evaluator is written once for every interpretation of them, the IEEE one
included; nothing is assumed about the operations. -/
class double_ops (D : Type) where
  /-- Conversion of a non-negative integer constant or `size_t` to double. -/
  of_nat : Nat → D
  /-- The C operator `+`. -/
  add : D → D → D
  /-- The C operator `-`. -/
  sub : D → D → D
  /-- The C operator `*`. -/
  mul : D → D → D
  /-- The C operator `/`. -/
  div : D → D → D
  /-- The library function `pow`. -/
  pow : D → D → D
  /-- Unary minus. -/
  neg : D → D
  /-- The C operator `==`. -/
  eq : D → D → Bool
  /-- The C operator `>`. -/
  gt : D → D → Bool
  /-- The C operator `>=`. -/
  ge : D → D → Bool
  /-- The C operator `<`. -/
  lt : D → D → Bool
  /-- The C operator `<=`. -/
  le : D → D → Bool
  /-- The cast `(int)`. -/
  to_int : D → Int
  /-- The text `double_to_str` writes for a number. -/
  to_str : D → String
  /-- The number `sscanf(buf, "%lf", ...)` reads, if it reads one. -/
  scan_lf : List Char → Option D

/-- The integers as numbers: the doubles hold them exactly (below 2^53) and
add, subtract, multiply and compare them as the integers do.  Used for the
concrete runs only. -/
instance int_double_ops : double_ops Int where
  of_nat n := (n : Int)
  add a b := a + b
  sub a b := a - b
  mul a b := a * b
  div a b := a / b
  pow a b := a ^ b.toNat
  neg a := - a
  eq a b := decide (a = b)
  gt a b := decide (a > b)
  ge a b := decide (a ≥ b)
  lt a b := decide (a < b)
  le a b := decide (a ≤ b)
  to_int a := a
  to_str a := toString a
  scan_lf s := (String.mk s).trim.toInt?

/-! ## Values and syntax trees -/

/-- The tag of a value (`value.type`). -/
inductive value_type_t
  | VALUE_TYPE_NIL
  | VALUE_TYPE_BOOL
  | VALUE_TYPE_NUM
  | VALUE_TYPE_STR
  | VALUE_TYPE_FUN
  deriving DecidableEq, Repr

open value_type_t

/-- A value (`value_t`): the tag together with the member of the union `as`
that the tag selects.  A string is its bytes up to the terminating NUL, one
`Char` per byte.  A function value is the address of the `expr_fun_t` node. -/
inductive value_t (D : Type)
  | nil
  | bool (bool_ : Bool)
  | num (num : D)
  | str (str : String)
  | fun_ (fun_ : Nat)
  deriving DecidableEq, Repr

/-- The field `value.type`. -/
def value_t.type {D : Type} : value_t D → value_type_t
  | .nil => VALUE_TYPE_NIL
  | .bool _ => VALUE_TYPE_BOOL
  | .num _ => VALUE_TYPE_NUM
  | .str _ => VALUE_TYPE_STR
  | .fun_ _ => VALUE_TYPE_FUN

/-- The binary operators (`expr->as.bin_op.type`). -/
inductive bin_op_type_t
  | BIN_OP_EQUALS
  | BIN_OP_NOT_EQUALS
  | BIN_OP_GREATER
  | BIN_OP_GREATER_EQU
  | BIN_OP_LESS
  | BIN_OP_LESS_EQU
  | BIN_OP_AND
  | BIN_OP_OR
  | BIN_OP_ASSIGN
  | BIN_OP_INC
  | BIN_OP_DEC
  | BIN_OP_XINC
  | BIN_OP_XDEC
  | BIN_OP_ADD
  | BIN_OP_SUB
  | BIN_OP_MUL
  | BIN_OP_DIV
  | BIN_OP_POW
  deriving DecidableEq, Repr

open bin_op_type_t

/-- The unary operators (`expr->as.un_op.type`). -/
inductive un_op_type_t
  | UN_OP_POS
  | UN_OP_NEG
  | UN_OP_NOT
  deriving DecidableEq, Repr

open un_op_type_t

mutual
/-- An expression node (`expr_t`), one constructor per `EXPR_TYPE_*`.  The
function literal is given by the address of its `expr_fun_t` member, the only
thing of it the evaluator uses. -/
inductive expr_t (D : Type)
  | call (name : String) (args : List (expr_t D))
  | id (name : String)
  | do_ (body : List (stmt_t D))
  | fun_ (addr : Nat)
  | val (val : value_t D)
  | bin_op (type : bin_op_type_t) (left : expr_t D) (right : expr_t D)
  | un_op (type : un_op_type_t) (expr : expr_t D)
/-- A statement node (`stmt_t`) without its `next` link, one constructor per
`STMT_TYPE_*`. -/
inductive stmt_t (D : Type)
  | expr (expr : expr_t D)
  | let_ (let_ : stmt_let_t D)
  | if_ (if_ : stmt_if_t D)
  | while_ (cond : expr_t D) (body : List (stmt_t D))
  | for_ (init : List (stmt_t D)) (cond : expr_t D) (step : List (stmt_t D))
      (body : List (stmt_t D))
  | return_ (expr : expr_t D)
  | defer (stmt : List (stmt_t D))
/-- The member `stmt->as.let`: `val` and `next` may be `NULL`. -/
inductive stmt_let_t (D : Type)
  | mk (name : String) (val : Option (expr_t D)) (next : Option (stmt_let_t D))
/-- The member `stmt->as.if_`: `next` (the `else if`) and `else_` may be
`NULL`. -/
inductive stmt_if_t (D : Type)
  | mk (cond : expr_t D) (body : List (stmt_t D)) (next : Option (stmt_if_t D))
      (else_ : List (stmt_t D))
end

/-! ## The environment -/

/-- A variable slot (`var_t`).  `name = none` is `NULL`; `val = none` is a
value that was never written (fresh `malloc` memory). -/
structure var_t (D : Type) where
  name : Option String
  val : Option (value_t D)

/-- A frame (`scope_t`).  `vars` and `defer` are the slots of the two buffers
that have been written so far, in index order: they survive the end of the
scope, only the counts are reset when the frame is used again.  Allocation is
taken to succeed, so the capacities play no role and are left out. -/
structure scope_t (D : Type) where
  vars : List (var_t D)
  vars_count : Nat
  defer : List (List (stmt_t D))
  defer_count : Nat

/-- The environment (`env_t`), the two standard streams and one history
variable.  `scopes` is the array `e->scopes` (its length is `MAX_NEST`);
`scope` is the number of live frames, that is, `e->scope` points at
`scopes[scope - 1]`, and `scope = 0` stands for `NULL` and for
`e->scopes - 1`, which `env_scope_begin` treats alike.  `returned` is not a
member of the C structure: it counts the return statements executed so far,
so that a property can say that none was executed; nothing reads it. -/
structure env_t (D : Type) where
  scopes : List (scope_t D)
  scope : Nat
  returning : Bool
  return_ : value_t D
  returns : Nat
  stdout : String
  stdin : List Char
  returned : Nat

/-- Modelled from the spec: the halting diagnostic reporters `error`,
`wrong_type`, `undefined`, `wrong_arg_count` and the macro `UNREACHABLE` are
declared outside `src/`; each reports and terminates the process, never
returning to the evaluator.  `exit` is the C library call.
`undefined_behaviour` marks a step whose effect C does not define (a read or
write outside an array, a read of memory never written), `unspecified` one
for which C allows more than one order of evaluation with different effects. -/
inductive fatal_t
  | error (msg : String)
  | wrong_type (type : value_type_t) (in_ : String)
  | wrong_arg_count (got : Nat) (expected : Nat)
  | undefined (name : String)
  | unreachable (msg : String)
  | exit (status : Int)
  | undefined_behaviour (what : String)
  | unspecified (what : String)
  deriving DecidableEq, Repr

/-- The status `EXIT_FAILURE`. -/
def EXIT_FAILURE : Int := 1

/-- The outcome of a call: it returned `a` leaving the environment `e`, the
process ended, or the fuel ran out. -/
inductive res (D : Type) (α : Type)
  | ok (a : α) (e : env_t D)
  | halt (f : fatal_t) (e : env_t D)
  | out_of_fuel

/-- The outcome of a call that computed `x` on values and left the
environment `e` alone: the value, or the fatal diagnostic. -/
def res.of_except {D : Type} {α : Type} (x : Except fatal_t α) (e : env_t D) : res D α :=
  match x with
  | .ok a => .ok a e
  | .error f => .halt f e

/-- Sequencing: when the call returned, go on with its value and environment;
when it ended the process or ran out of fuel, so does the whole. -/
def res.bind {D : Type} {α β : Type} (r : res D α) (k : α → env_t D → res D β) : res D β :=
  match r with
  | .ok a e => k a e
  | .halt f e => .halt f e
  | .out_of_fuel => .out_of_fuel

/-- The environment a call returned with. -/
def res.env? {D : Type} {α : Type} : res D α → Option (env_t D)
  | .ok _ e => some e
  | _ => none

/-- The value a call returned. -/
def res.val? {D : Type} {α : Type} : res D α → Option α
  | .ok a _ => some a
  | _ => none

/-- The fatal diagnostic or exit status a call ended the process with. -/
def res.fatal? {D : Type} {α : Type} : res D α → Option fatal_t
  | .halt f _ => some f
  | _ => none

/-- The frame `*e->scope`. -/
def env_t.top {D : Type} (e : env_t D) : Option (scope_t D) :=
  if e.scope = 0 then none else e.scopes[e.scope - 1]?

/-- Store a frame through `e->scope`. -/
def env_t.set_top {D : Type} (e : env_t D) (s : scope_t D) : env_t D :=
  { e with scopes := e.scopes.set (e.scope - 1) s }

/-- The assignment `buf[i] = x` on a buffer of which the slots below
`buf.length` have been written. -/
def buf_write {α : Type} (buf : List α) (i : Nat) (x : α) : List α :=
  if i < buf.length then buf.set i x else buf ++ [x]

/-- `env_scope_begin`: move `e->scope` one frame up (to `scopes[0]` from
`NULL`) and reset both counts of that frame.  The source has no bound check
(`TODO: Possible buffer overflow`): past the array the write is undefined. -/
def env_scope_begin {D : Type} (e : env_t D) : res D Unit :=
  match e.scopes[e.scope]? with
  | none => .halt (.undefined_behaviour "env_scope_begin: e->scope past e->scopes") e
  | some s =>
    .ok () { e with
      scopes := e.scopes.set e.scope { s with vars_count := 0, defer_count := 0 },
      scope := e.scope + 1 }

/-- The test of `env_get_var` on one slot: the name is not `NULL` and `strcmp`
finds it equal to `name`. -/
def var_t.has_name {D : Type} (v : var_t D) (name : String) : Bool :=
  match v.name with
  | none => false
  | some n => decide (n = name)

/-- The inner loop of `env_get_var` over one frame: the index of the first
slot below `vars_count` whose name is not `NULL` and equals `name`. -/
def scope_find_var {D : Type} (s : scope_t D) (name : String) : Option Nat :=
  (s.vars.take s.vars_count).findIdx? fun v => v.has_name name

/-- The outer loop of `env_get_var`, from frame `k - 1` down to frame 0. -/
def env_get_var_from {D : Type} (scopes : List (scope_t D)) (name : String) :
    Nat → Option (Nat × Nat)
  | 0 => none
  | k + 1 =>
    match scopes[k]? with
    | none => none
    | some s =>
      match scope_find_var s name with
      | some i => some (k, i)
      | none => env_get_var_from scopes name k

/-- `env_get_var`: the variable of that name found first, scanning from
`e->scope` down to `e->scopes`; the result is the pointer `&scopes[k].vars[i]`
as the pair `(k, i)`, or `none` for `NULL`. -/
def env_get_var {D : Type} (e : env_t D) (name : String) : Option (Nat × Nat) :=
  env_get_var_from e.scopes name e.scope

/-- Dereference a variable pointer. -/
def env_t.var_at {D : Type} (e : env_t D) (p : Nat × Nat) : Option (var_t D) :=
  match e.scopes[p.1]? with
  | none => none
  | some s => s.vars[p.2]?

/-- The store `var->val = v` through a variable pointer. -/
def env_t.set_var_val {D : Type} (e : env_t D) (p : Nat × Nat) (v : value_t D) : env_t D :=
  match e.scopes[p.1]? with
  | none => e
  | some s =>
    match s.vars[p.2]? with
    | none => e
    | some x =>
      { e with scopes := e.scopes.set p.1 { s with vars := s.vars.set p.2 { x with val := some v } } }

/-- The environment after the `memset(e, 0, sizeof(*e))` of `env_init`, with
nothing written to `stdout` and `stdin` still to be read.  The constant
`MAX_NEST` of `eval.h` is a parameter.  The zeroed `return_` is taken to be
Nil; it is not read before `eval_with_return` assigns it. -/
def env_zero {D : Type} ( MAX_NEST : Nat) (stdin : List Char) : env_t D :=
  { scopes := List.replicate MAX_NEST { vars := [], vars_count := 0, defer := [], defer_count := 0 },
    scope := 0, returning := false, return_ := .nil, returns := 0,
    stdout := "", stdin := stdin, returned := 0 }

/-- `env_init`: `memset` to zero, then the first `env_scope_begin`. -/
def env_init {D : Type} ( MAX_NEST : Nat) (stdin : List Char) : res D Unit :=
  env_scope_begin (env_zero MAX_NEST stdin)

/-! ## Rendering and standard streams -/

/-- `putchar` and `printf` on `stdout`. -/
def env_t.print {D : Type} (e : env_t D) (s : String) : env_t D :=
  { e with stdout := e.stdout ++ s }

/-- The text `fprint_value` writes; a function value reaches the `default`
case, `UNREACHABLE`. -/
def fprint_value {D : Type} [double_ops D] (value : value_t D) : Except fatal_t String :=
  match value with
  | .nil => .ok "(nil)"
  | .str s => .ok s
  | .bool b => .ok (if b then "true" else "false")
  | .num n => .ok (double_ops.to_str n)
  | .fun_ _ => .error (.unreachable "Unknown value type")

/-- `fgets(buf, size, stdin)` on a zeroed buffer: at most `size - 1` bytes, up
to and including the first newline; the pair is the buffer and the rest of
the stream. -/
def fgets : Nat → List Char → List Char × List Char
  | 0, rest => ([], rest)
  | 1, rest => ([], rest)
  | _ + 2, [] => ([], [])
  | n + 2, c :: rest =>
    if c = '\n' then ([c], rest)
    else ((c :: (fgets (n + 1) rest).1), (fgets (n + 1) rest).2)

/-- The newline stripping of `builtin_readstr`: the last byte is dropped when
it is a newline. -/
def strip_newline (buf : List Char) : List Char :=
  match buf.getLast? with
  | some '\n' => buf.dropLast
  | _ => buf

/-! ## Operators on evaluated operands

Each `eval_expr_bin_op_*` of the source first evaluates its operands and then
computes on the two values.  The second half is the function of the same name
here; the first half is in `eval_expr_bin_op` below. -/

/-- `eval_expr_bin_op_equals` after the operands are evaluated.  The `default`
case of the switch is not reachable: the five tags are all handled. -/
def eval_expr_bin_op_equals {D : Type} [double_ops D] (left right : value_t D) : value_t D :=
  if right.type ≠ left.type then .bool false
  else
    match left, right with
    | .num a, .num b => .bool (double_ops.eq a b)
    | .bool a, .bool b => .bool (a == b)
    | .str a, .str b => .bool (decide (a = b))
    | .nil, _ => .bool true
    | .fun_ a, .fun_ b => .bool (decide (a = b))
    | _, _ => .bool false

/-- `eval_expr_bin_op_not_equals`: the member `as.bool_` of the result of
`eval_expr_bin_op_equals` is negated. -/
def eval_expr_bin_op_not_equals {D : Type} [double_ops D] (left right : value_t D) : value_t D :=
  match eval_expr_bin_op_equals left right with
  | .bool b => .bool (!b)
  | v => v

/-- The common shape of `eval_expr_bin_op_greater`, `_greater_equ`, `_less`
and `_less_equ` after the operands are evaluated: `op` is the operator's text
and `cmp` the C comparison. -/
def eval_expr_bin_op_compare {D : Type} (op : String) (cmp : D → D → Bool)
    (left right : value_t D) : Except fatal_t (value_t D) :=
  if right.type ≠ left.type then
    .error (.wrong_type left.type
      ("right side of '" ++ op ++ "' operation, expected same as left side"))
  else
    match left, right with
    | .num a, .num b => .ok (.bool (cmp a b))
    | _, _ => .error (.wrong_type left.type ("left side of '" ++ op ++ "' operation"))

/-- `eval_expr_bin_op_greater` after the operands are evaluated. -/
def eval_expr_bin_op_greater {D : Type} [double_ops D] (left right : value_t D) :
    Except fatal_t (value_t D) :=
  eval_expr_bin_op_compare ">" double_ops.gt left right

/-- `eval_expr_bin_op_greater_equ` after the operands are evaluated. -/
def eval_expr_bin_op_greater_equ {D : Type} [double_ops D] (left right : value_t D) :
    Except fatal_t (value_t D) :=
  eval_expr_bin_op_compare ">=" double_ops.ge left right

/-- `eval_expr_bin_op_less` after the operands are evaluated. -/
def eval_expr_bin_op_less {D : Type} [double_ops D] (left right : value_t D) :
    Except fatal_t (value_t D) :=
  eval_expr_bin_op_compare "<" double_ops.lt left right

/-- `eval_expr_bin_op_less_equ` after the operands are evaluated. -/
def eval_expr_bin_op_less_equ {D : Type} [double_ops D] (left right : value_t D) :
    Except fatal_t (value_t D) :=
  eval_expr_bin_op_compare "<=" double_ops.le left right

/-- `eval_expr_bin_op_add` after the operands are evaluated. -/
def eval_expr_bin_op_add {D : Type} [double_ops D] (left right : value_t D) :
    Except fatal_t (value_t D) :=
  if right.type ≠ left.type then
    .error (.wrong_type right.type "right side of '+' operation, expected same as left side")
  else
    match left, right with
    | .str a, .str b => .ok (.str (a ++ b))
    | .num a, .num b => .ok (.num (double_ops.add a b))
    | _, _ => .error (.wrong_type left.type "left side of '+' operation")

/-- The common shape of `eval_expr_bin_op_sub`, `_mul` and `_pow` after the
operands are evaluated. -/
def eval_expr_bin_op_arith {D : Type} (op : String) (f : D → D → D)
    (left right : value_t D) : Except fatal_t (value_t D) :=
  match left with
  | .num a =>
    match right with
    | .num b => .ok (.num (f a b))
    | _ => .error (.wrong_type right.type
        ("right side of '" ++ op ++ "' operation, expected same as left side"))
  | _ => .error (.wrong_type left.type ("left side of '" ++ op ++ "' operation"))

/-- `eval_expr_bin_op_sub` after the operands are evaluated. -/
def eval_expr_bin_op_sub {D : Type} [double_ops D] (left right : value_t D) :
    Except fatal_t (value_t D) :=
  eval_expr_bin_op_arith "-" double_ops.sub left right

/-- `eval_expr_bin_op_mul` after the operands are evaluated. -/
def eval_expr_bin_op_mul {D : Type} [double_ops D] (left right : value_t D) :
    Except fatal_t (value_t D) :=
  eval_expr_bin_op_arith "*" double_ops.mul left right

/-- `eval_expr_bin_op_div` after the operands are evaluated. -/
def eval_expr_bin_op_div {D : Type} [double_ops D] (left right : value_t D) :
    Except fatal_t (value_t D) :=
  match left with
  | .num a =>
    match right with
    | .num b =>
      if double_ops.eq b (double_ops.of_nat 0) = true then .error (.error "division by zero")
      else .ok (.num (double_ops.div a b))
    | _ => .error (.wrong_type right.type
        "right side of '/' operation, expected same as left side")
  | _ => .error (.wrong_type left.type "left side of '/' operation")

/-- `eval_expr_bin_op_pow` after the operands are evaluated. -/
def eval_expr_bin_op_pow {D : Type} [double_ops D] (left right : value_t D) :
    Except fatal_t (value_t D) :=
  eval_expr_bin_op_arith "^" double_ops.pow left right

/-- The common shape of `eval_expr_bin_op_and` and `_or` after the operands
are evaluated. -/
def eval_expr_bin_op_logic {D : Type} (op : String) (f : Bool → Bool → Bool)
    (left right : value_t D) : Except fatal_t (value_t D) :=
  match left with
  | .bool a =>
    match right with
    | .bool b => .ok (.bool (f a b))
    | _ => .error (.wrong_type right.type
        ("right side of '" ++ op ++ "' operation, expected same as left side"))
  | _ => .error (.wrong_type left.type ("left side of '" ++ op ++ "' operation"))

/-- `eval_expr_bin_op_and` after the operands are evaluated. -/
def eval_expr_bin_op_and {D : Type} (left right : value_t D) : Except fatal_t (value_t D) :=
  eval_expr_bin_op_logic "and" (fun a b => a && b) left right

/-- `eval_expr_bin_op_or` after the operands are evaluated. -/
def eval_expr_bin_op_or {D : Type} (left right : value_t D) : Except fatal_t (value_t D) :=
  eval_expr_bin_op_logic "or" (fun a b => a || b) left right

/-- The operators that `eval_expr_bin_op` dispatches to a function evaluating
both operands, applied to the two values. -/
def bin_op_values {D : Type} [double_ops D] (type : bin_op_type_t) (left right : value_t D) :
    Except fatal_t (value_t D) :=
  match type with
  | BIN_OP_EQUALS => .ok (eval_expr_bin_op_equals left right)
  | BIN_OP_NOT_EQUALS => .ok (eval_expr_bin_op_not_equals left right)
  | BIN_OP_GREATER => eval_expr_bin_op_greater left right
  | BIN_OP_GREATER_EQU => eval_expr_bin_op_greater_equ left right
  | BIN_OP_LESS => eval_expr_bin_op_less left right
  | BIN_OP_LESS_EQU => eval_expr_bin_op_less_equ left right
  | BIN_OP_AND => eval_expr_bin_op_and left right
  | BIN_OP_OR => eval_expr_bin_op_or left right
  | BIN_OP_ADD => eval_expr_bin_op_add left right
  | BIN_OP_SUB => eval_expr_bin_op_sub left right
  | BIN_OP_MUL => eval_expr_bin_op_mul left right
  | BIN_OP_DIV => eval_expr_bin_op_div left right
  | BIN_OP_POW => eval_expr_bin_op_pow left right
  | _ => .error (.unreachable "Unknown binary operation type")

/-- Whether the operator is one of `=`, `++`, `--`, `**`, `//`, whose
functions take the left operand as a variable name and evaluate the right
operand only. -/
def bin_op_type_t.assigns : bin_op_type_t → Bool
  | BIN_OP_ASSIGN => true
  | BIN_OP_INC => true
  | BIN_OP_DEC => true
  | BIN_OP_XINC => true
  | BIN_OP_XDEC => true
  | _ => false

/-- The text of an assigning operator in the diagnostics. -/
def bin_op_type_t.text : bin_op_type_t → String
  | BIN_OP_ASSIGN => "="
  | BIN_OP_INC => "++"
  | BIN_OP_DEC => "--"
  | BIN_OP_XINC => "**"
  | _ => "//"

/-- `eval_expr_bin_op_assign` from the lookup on, `val` being the value of
the right operand. -/
def eval_expr_bin_op_assign {D : Type} (e : env_t D) (name : String) (val : value_t D) :
    res D (value_t D) :=
  match env_get_var e name with
  | none => .halt (.undefined name) e
  | some p =>
    match e.var_at p with
    | none => .halt (.undefined_behaviour "read of a variable slot never written") e
    | some var =>
      match var.val with
      | none => .halt (.undefined_behaviour "read of a variable value never written") e
      | some old =>
        if val.type ≠ old.type then .halt (.wrong_type val.type "assignment") e
        else .ok val (e.set_var_val p val)

/-- The common shape of `eval_expr_bin_op_inc`, `_dec` and `_xinc` from the
lookup on: `var->val.as.num` is updated with `f` and the value of the right
operand is returned. -/
def eval_expr_bin_op_update {D : Type} (op : String) (f : D → D → D)
    (e : env_t D) (name : String) (val : value_t D) : res D (value_t D) :=
  match env_get_var e name with
  | none => .halt (.undefined name) e
  | some p =>
    match e.var_at p with
    | none => .halt (.undefined_behaviour "read of a variable slot never written") e
    | some var =>
      match var.val with
      | none => .halt (.undefined_behaviour "read of a variable value never written") e
      | some old =>
        if val.type ≠ old.type then
          .halt (.wrong_type val.type ("'" ++ op ++ "' assignment")) e
        else
          match old, val with
          | .num a, .num b => .ok val (e.set_var_val p (.num (f a b)))
          | _, _ => .halt (.wrong_type val.type ("left side of '" ++ op ++ "' assignment")) e

/-- `eval_expr_bin_op_inc` from the lookup on. -/
def eval_expr_bin_op_inc {D : Type} [double_ops D] (e : env_t D) (name : String)
    (val : value_t D) : res D (value_t D) :=
  eval_expr_bin_op_update "++" double_ops.add e name val

/-- `eval_expr_bin_op_dec` from the lookup on. -/
def eval_expr_bin_op_dec {D : Type} [double_ops D] (e : env_t D) (name : String)
    (val : value_t D) : res D (value_t D) :=
  eval_expr_bin_op_update "--" double_ops.sub e name val

/-- `eval_expr_bin_op_xinc` from the lookup on. -/
def eval_expr_bin_op_xinc {D : Type} [double_ops D] (e : env_t D) (name : String)
    (val : value_t D) : res D (value_t D) :=
  eval_expr_bin_op_update "**" double_ops.mul e name val

/-- `eval_expr_bin_op_xdec` from the lookup on. -/
def eval_expr_bin_op_xdec {D : Type} [double_ops D] (e : env_t D) (name : String)
    (val : value_t D) : res D (value_t D) :=
  match env_get_var e name with
  | none => .halt (.undefined name) e
  | some p =>
    match e.var_at p with
    | none => .halt (.undefined_behaviour "read of a variable slot never written") e
    | some var =>
      match var.val with
      | none => .halt (.undefined_behaviour "read of a variable value never written") e
      | some old =>
        if val.type ≠ old.type then .halt (.wrong_type val.type "'//' assignment") e
        else
          match old, val with
          | .num a, .num b =>
            if double_ops.eq b (double_ops.of_nat 0) = true then
              .halt (.error "division by zero") e
            else .ok val (e.set_var_val p (.num (double_ops.div a b)))
          | _, _ => .halt (.wrong_type val.type "left side of '//' assignment") e

/-- The assigning operators from the lookup on. -/
def bin_op_assigning {D : Type} [double_ops D] (type : bin_op_type_t) (e : env_t D)
    (name : String) (val : value_t D) : res D (value_t D) :=
  match type with
  | BIN_OP_ASSIGN => eval_expr_bin_op_assign e name val
  | BIN_OP_INC => eval_expr_bin_op_inc e name val
  | BIN_OP_DEC => eval_expr_bin_op_dec e name val
  | BIN_OP_XINC => eval_expr_bin_op_xinc e name val
  | _ => eval_expr_bin_op_xdec e name val

/-- `eval_expr_un_op_pos`, `_neg` and `_not` after the operand is evaluated. -/
def un_op_value {D : Type} [double_ops D] (type : un_op_type_t) (val : value_t D) :
    Except fatal_t (value_t D) :=
  match type with
  | UN_OP_POS =>
    match val with
    | .num _ => .ok val
    | _ => .error (.wrong_type val.type "'+' unary operation")
  | UN_OP_NEG =>
    match val with
    | .num a => .ok (.num (double_ops.neg a))
    | _ => .error (.wrong_type val.type "'-' unary operation")
  | UN_OP_NOT =>
    match val with
    | .bool b => .ok (.bool (!b))
    | _ => .error (.wrong_type val.type "'not' operation")

/-- `eval_expr_id`. -/
def eval_expr_id {D : Type} (e : env_t D) (name : String) : res D (value_t D) :=
  match env_get_var e name with
  | none => .halt (.undefined name) e
  | some p =>
    match e.var_at p with
    | none => .halt (.undefined_behaviour "read of a variable slot never written") e
    | some var =>
      match var.val with
      | none => .halt (.undefined_behaviour "read of a variable value never written") e
      | some v => .ok v e

/-- `eval_stmt_defer`: the statement is stored at `defer[defer_count]` of the
frame `*e->scope` and the count goes up by one. -/
def eval_stmt_defer {D : Type} (e : env_t D) (stmt : List (stmt_t D)) : res D Unit :=
  match e.top with
  | none => .halt (.undefined_behaviour "e->scope outside e->scopes") e
  | some s =>
    .ok () (e.set_top { s with
      defer := buf_write s.defer s.defer_count stmt,
      defer_count := s.defer_count + 1 })

/-- The redeclaration loop of `eval_stmt_let` over the slots below
`vars_count`, `i` being the index of the first one: `none` when a slot has
the name (the `redeclared` error), otherwise the final `idx`, where `none`
stands for `(size_t)-1`. -/
def let_scan {D : Type} (name : String) : List (var_t D) → Nat → Option Nat → Option (Option Nat)
  | [], _, idx => some idx
  | v :: vs, i, idx =>
    match v.name with
    | none => let_scan name vs (i + 1) (if idx = none then some i else idx)
    | some n => if n = name then none else let_scan name vs (i + 1) idx

/-- The store `vars[idx].name = name`: the value of the slot stays what it
was, or was never written when the slot is new. -/
def scope_set_name {D : Type} (s : scope_t D) (idx : Nat) (name : String) : List (var_t D) :=
  buf_write s.vars idx { name := some name, val := (s.vars[idx]?).bind fun v => v.val }

/-- The first stores of `eval_stmt_let` after its loop: `idx` is the free slot
found (`idx?`) or else `vars_count ++`, and the slot gets the name. -/
def let_claim {D : Type} (e : env_t D) (s : scope_t D) (idx? : Option Nat) (name : String) :
    env_t D :=
  e.set_top { s with
    vars := scope_set_name s (idx?.getD s.vars_count) name,
    vars_count := if idx? = none then s.vars_count + 1 else s.vars_count }

/-- The store `vars[idx].val = val`. -/
def scope_set_val {D : Type} (s : scope_t D) (idx : Nat) (val : value_t D) : List (var_t D) :=
  match s.vars[idx]? with
  | none => s.vars
  | some v => s.vars.set idx { v with val := some val }

/-! ## The evaluator -/

mutual

/-- `eval_expr`: the switch on `expr->type`. -/
def eval_expr {D : Type} [double_ops D] : Nat → env_t D → expr_t D → res D (value_t D)
  | 0, _, _ => .out_of_fuel
  | n + 1, e, .call name args => eval_expr_call n e name args
  | _ + 1, e, .id name => eval_expr_id e name
  | n + 1, e, .do_ body => eval_expr_do n e body
  | _ + 1, e, .fun_ addr => .ok (.fun_ addr) e
  | _ + 1, e, .val val => .ok val e
  | n + 1, e, .bin_op type left right => eval_expr_bin_op n e type left right
  | n + 1, e, .un_op type expr => eval_expr_un_op n e type expr

/-- `eval_expr_bin_op` together with the first half of the function it
dispatches to.  The assigning operators require the left operand to be an
identifier and evaluate the right operand; the others evaluate the left
operand, then the right one. -/
def eval_expr_bin_op {D : Type} [double_ops D] :
    Nat → env_t D → bin_op_type_t → expr_t D → expr_t D → res D (value_t D)
  | 0, _, _, _, _ => .out_of_fuel
  | n + 1, e, type, left, right =>
    if type.assigns = true then
      match left with
      | .id name =>
        (eval_expr n e right).bind fun val e1 =>
        bin_op_assigning type e1 name val
      | _ => .halt (.error ("left side of '" ++ type.text ++ "' expected variable")) e
    else
      (eval_expr n e left).bind fun l e1 =>
      (eval_expr n e1 right).bind fun r e2 =>
      res.of_except (bin_op_values type l r) e2

/-- `eval_expr_un_op` together with the first half of `eval_expr_un_op_pos`,
`_neg` and `_not`. -/
def eval_expr_un_op {D : Type} [double_ops D] :
    Nat → env_t D → un_op_type_t → expr_t D → res D (value_t D)
  | 0, _, _, _ => .out_of_fuel
  | n + 1, e, type, expr =>
    (eval_expr n e expr).bind fun val e1 =>
    res.of_except (un_op_value type val) e1

/-- The argument loop of `builtin_print`, which `builtin_readnum` and
`builtin_readstr` repeat: from argument `i` on, a space before every argument
but the first, then the argument is evaluated and written to `stdout`. -/
def builtin_print {D : Type} [double_ops D] :
    Nat → env_t D → List (expr_t D) → Nat → res D (value_t D)
  | 0, _, _, _ => .out_of_fuel
  | _ + 1, e, [], _ => .ok .nil e
  | n + 1, e, arg :: args, i =>
    (eval_expr n (if i > 0 then e.print " " else e) arg).bind fun v e1 =>
    (res.of_except (fprint_value v) e1).bind fun s e2 =>
    builtin_print n (e2.print s) args (i + 1)

/-- `builtin_panic` from its argument loop on: every argument is evaluated and
written to `stderr` (which is not recorded), then `exit(EXIT_FAILURE)`. -/
def builtin_panic {D : Type} [double_ops D] : Nat → env_t D → List (expr_t D) → res D (value_t D)
  | 0, _, _ => .out_of_fuel
  | _ + 1, e, [] => .halt (.exit EXIT_FAILURE) e
  | n + 1, e, arg :: args =>
    (eval_expr n e arg).bind fun v e1 =>
    (res.of_except (fprint_value v) e1).bind fun _ e2 =>
    builtin_panic n e2 args

/-- `eval_expr_call`: the table `builtins` is searched for the name, in its
order, and the builtin found is run (`builtin_println`, `builtin_len`,
`builtin_readnum`, `builtin_readstr` and `builtin_exit` are written out
here). -/
def eval_expr_call {D : Type} [double_ops D] :
    Nat → env_t D → String → List (expr_t D) → res D (value_t D)
  | 0, _, _, _ => .out_of_fuel
  | n + 1, e, name, args =>
    if name = "println" then
      (builtin_print n e args 0).bind fun _ e1 =>
      .ok .nil (e1.print "\n")
    else if name = "print" then builtin_print n e args 0
    else if name = "len" then
      match args with
      | [arg] =>
        (eval_expr n e arg).bind fun val e1 =>
        match val with
        | .str s => .ok (.num (double_ops.of_nat s.length)) e1
        | _ => .halt (.wrong_type val.type "'len' function") e1
      | _ => .halt (.wrong_arg_count args.length 1) e
    else if name = "readnum" then
      (builtin_print n e args 0).bind fun _ e1 =>
      .ok (.num ((double_ops.scan_lf (fgets 1024 e1.stdin).1).getD (double_ops.of_nat 0)))
        { e1.print " " with stdin := (fgets 1024 e1.stdin).2 }
    else if name = "readstr" then
      (builtin_print n e args 0).bind fun _ e1 =>
      .ok (.str (String.mk (strip_newline (fgets 1024 e1.stdin).1)))
        { e1.print " " with stdin := (fgets 1024 e1.stdin).2 }
    else if name = "panic" then builtin_panic n e args
    else if name = "exit" then
      match args with
      | [arg] =>
        (eval_expr n e arg).bind fun val e1 =>
        match val with
        | .num d => .halt (.exit (double_ops.to_int d)) e1
        | _ => .halt (.wrong_type val.type "'exit' function") e1
      | _ => .halt (.wrong_arg_count args.length 1) e
    else .halt (.error ("Unknown function '" ++ name ++ "'")) e

/-- `eval_with_return`. -/
def eval_with_return {D : Type} [double_ops D] :
    Nat → env_t D → List (stmt_t D) → res D (value_t D)
  | 0, _, _ => .out_of_fuel
  | n + 1, e, stmt =>
    (eval n { e with returns := e.returns + 1, return_ := .nil } stmt).bind fun _ e1 =>
    .ok e1.return_
      { e1 with returning := if e1.returning = true then false else e1.returning,
                returns := e1.returns - 1 }

/-- `eval_expr_do`. -/
def eval_expr_do {D : Type} [double_ops D] : Nat → env_t D → List (stmt_t D) → res D (value_t D)
  | 0, _, _ => .out_of_fuel
  | n + 1, e, body =>
    (env_scope_begin e).bind fun _ e1 =>
    (eval_with_return n e1 body).bind fun value e2 =>
    (env_scope_end n e2).bind fun _ e3 =>
    .ok value e3

/-- `env_scope_end`: `i` starts at the `defer_count` of the frame `*e->scope`;
the loop is `env_scope_end_loop`. -/
def env_scope_end {D : Type} [double_ops D] : Nat → env_t D → res D Unit
  | 0, _ => .out_of_fuel
  | n + 1, e =>
    match e.top with
    | none => .halt (.undefined_behaviour "e->scope outside e->scopes") e
    | some s => env_scope_end_loop n e s.defer_count

/-- The loop `for (i = ...; i --> 0;) eval(e, e->scope->defer[i])` of
`env_scope_end`, started with `i`, and the final `-- e->scope`.  The slot
`defer[i]` is read from the frame `e->scope` points at in that iteration. -/
def env_scope_end_loop {D : Type} [double_ops D] : Nat → env_t D → Nat → res D Unit
  | 0, _, _ => .out_of_fuel
  | _ + 1, e, 0 => .ok () { e with scope := e.scope - 1 }
  | n + 1, e, i + 1 =>
    match e.top with
    | none => .halt (.undefined_behaviour "e->scope outside e->scopes") e
    | some s =>
      match s.defer[i]? with
      | none => .halt (.undefined_behaviour "read of a defer slot never written") e
      | some stmt =>
        (eval n e stmt).bind fun _ e1 =>
        env_scope_end_loop n e1 i

/-- `eval_stmt_let`.  The slot `idx` gets its name, and the count goes up,
before the initializer is evaluated; the value is stored after it.  C leaves
open whether the address of the slot is taken before or after the call of
`eval_expr`: the two differ only if the initializer moved `e->scope`, and the
model stops there. -/
def eval_stmt_let {D : Type} [double_ops D] : Nat → env_t D → stmt_let_t D → res D Unit
  | 0, _, _ => .out_of_fuel
  | n + 1, e, .mk name val next =>
    match e.top with
    | none => .halt (.undefined_behaviour "e->scope outside e->scopes") e
    | some s =>
      match let_scan name (s.vars.take s.vars_count) 0 none with
      | none => .halt (.error ("Variable '" ++ name ++ "' redeclared")) e
      | some idx? =>
        (match val with
         | none => res.ok value_t.nil (let_claim e s idx? name)
         | some x => eval_expr n (let_claim e s idx? name) x).bind fun v e2 =>
        if e2.scope ≠ e.scope then
          .halt (.unspecified "initializer moved e->scope: the store to the slot is unsequenced") e2
        else
          match e2.top with
          | none => .halt (.undefined_behaviour "e->scope outside e->scopes") e2
          | some s2 =>
            match next with
            | none => .ok () (e2.set_top { s2 with vars := scope_set_val s2 (idx?.getD s.vars_count) v })
            | some l =>
              eval_stmt_let n
                (e2.set_top { s2 with vars := scope_set_val s2 (idx?.getD s.vars_count) v }) l

/-- `eval_stmt_if`. -/
def eval_stmt_if {D : Type} [double_ops D] : Nat → env_t D → stmt_if_t D → res D Unit
  | 0, _, _ => .out_of_fuel
  | n + 1, e, .mk cond body next else_ =>
    (env_scope_begin e).bind fun _ e1 =>
    (eval_expr n e1 cond).bind fun c e2 =>
    match c with
    | .bool b =>
      (if b = true then eval n e2 body
       else
         match next with
         | some i => eval_stmt_if n e2 i
         | none => eval n e2 else_).bind fun _ e3 =>
      env_scope_end n e3
    | _ => .halt (.wrong_type c.type "if statement condition") e2

/-- `eval_stmt_while`: the loop is `eval_stmt_while_loop`. -/
def eval_stmt_while {D : Type} [double_ops D] :
    Nat → env_t D → expr_t D → List (stmt_t D) → res D Unit
  | 0, _, _, _ => .out_of_fuel
  | n + 1, e, cond, body =>
    (env_scope_begin e).bind fun _ e1 =>
    (eval_stmt_while_loop n e1 cond body).bind fun _ e2 =>
    env_scope_end n e2

/-- The loop `while (true) { ... }` of `eval_stmt_while`. -/
def eval_stmt_while_loop {D : Type} [double_ops D] :
    Nat → env_t D → expr_t D → List (stmt_t D) → res D Unit
  | 0, _, _, _ => .out_of_fuel
  | n + 1, e, cond, body =>
    (eval_expr n e cond).bind fun c e1 =>
    match c with
    | .bool b =>
      if b = true then
        (eval n e1 body).bind fun _ e2 =>
        if e2.returning = true then .ok () e2
        else eval_stmt_while_loop n e2 cond body
      else .ok () e1
    | _ => .halt (.wrong_type c.type "while statement condition") e1

/-- `eval_stmt_for`: the loop is `eval_stmt_for_loop`. -/
def eval_stmt_for {D : Type} [double_ops D] :
    Nat → env_t D → List (stmt_t D) → expr_t D → List (stmt_t D) → List (stmt_t D) → res D Unit
  | 0, _, _, _, _, _ => .out_of_fuel
  | n + 1, e, init, cond, step, body =>
    (env_scope_begin e).bind fun _ e1 =>
    (eval n e1 init).bind fun _ e2 =>
    if e2.returning = true then .halt (.error "Unexpected return in for loop") e2
    else
      (eval_stmt_for_loop n e2 cond step body).bind fun _ e3 =>
      env_scope_end n e3

/-- The loop `while (true) { ... }` of `eval_stmt_for`.  The `break` after the
body leaves the loop before the `env_scope_end` of the iteration. -/
def eval_stmt_for_loop {D : Type} [double_ops D] :
    Nat → env_t D → expr_t D → List (stmt_t D) → List (stmt_t D) → res D Unit
  | 0, _, _, _, _ => .out_of_fuel
  | n + 1, e, cond, step, body =>
    (eval_expr n e cond).bind fun c e1 =>
    match c with
    | .bool b =>
      if b = true then
        (env_scope_begin e1).bind fun _ e2 =>
        (eval n e2 body).bind fun _ e3 =>
        if e3.returning = true then .ok () e3
        else
          (eval n e3 step).bind fun _ e4 =>
          if e4.returning = true then .halt (.error "Unexpected return in for loop") e4
          else
            (env_scope_end n e4).bind fun _ e5 =>
            eval_stmt_for_loop n e5 cond step body
      else .ok () e1
    | _ => .halt (.wrong_type c.type "for statement condition") e1

/-- `eval_stmt_return`. -/
def eval_stmt_return {D : Type} [double_ops D] : Nat → env_t D → expr_t D → res D Unit
  | 0, _, _ => .out_of_fuel
  | n + 1, e, expr =>
    if e.returns = 0 then .halt (.error "Unexpected return") e
    else
      (eval_expr n e expr).bind fun v e1 =>
      .ok () { e1 with return_ := v, returning := true, returned := e1.returned + 1 }

/-- `eval`: the loop over the list of statements; after `eval_stmt_return` it
returns, after any other statement it goes on with `stmt->next`. -/
def eval {D : Type} [double_ops D] : Nat → env_t D → List (stmt_t D) → res D Unit
  | 0, _, _ => .out_of_fuel
  | _ + 1, e, [] => .ok () e
  | n + 1, e, stmt :: next =>
    match stmt with
    | .return_ expr => eval_stmt_return n e expr
    | .expr expr => (eval_expr n e expr).bind fun _ e1 => eval n e1 next
    | .let_ l => (eval_stmt_let n e l).bind fun _ e1 => eval n e1 next
    | .if_ i => (eval_stmt_if n e i).bind fun _ e1 => eval n e1 next
    | .while_ cond body => (eval_stmt_while n e cond body).bind fun _ e1 => eval n e1 next
    | .for_ init cond step body =>
      (eval_stmt_for n e init cond step body).bind fun _ e1 => eval n e1 next
    | .defer s => (eval_stmt_defer e s).bind fun _ e1 => eval n e1 next

end

/-- `env_deinit`: `env_scope_end`; the `free` of the buffers after it leaves
nothing to observe. -/
def env_deinit {D : Type} [double_ops D] (fuel : Nat) (e : env_t D) : res D Unit :=
  env_scope_end fuel e

/-- The three exported functions in the order their caller uses them:
`env_init`, `eval` on the program, `env_deinit`. -/
def run_program {D : Type} [double_ops D] ( MAX_NEST : Nat) (fuel : Nat) (stdin : List Char)
    (program : List (stmt_t D)) : res D Unit :=
  (env_init MAX_NEST stdin).bind fun _ e =>
  (eval fuel e program).bind fun _ e1 =>
  env_deinit fuel e1

/-! ## Reasoning about outcomes: definitions -/

/-- The property `Q` holds of the value and environment a call returns, if it
returns. -/
def res.sat {D : Type} {α : Type} (r : res D α) (Q : α → env_t D → Prop) : Prop :=
  ∀ a e, r = .ok a e → Q a e

/-- The outcome `r'` is `r`, unless `r` is only that the fuel ran out. -/
def res.le {D : Type} {α : Type} (r r' : res D α) : Prop :=
  r = .out_of_fuel ∨ r = r'

/-- The relation `Q` holds between the environment each function of the
evaluator is called in and the one it returns with, for fuel `n`; for
`env_scope_end`, which moves `e->scope` down, the relation is `Q'`. -/
structure evaluator_sat {D : Type} [double_ops D] (n : Nat)
    (Q Q' : env_t D → env_t D → Prop) : Prop where
  expr : ∀ e x, (eval_expr n e x).sat fun _ e' => Q e e'
  bin_op : ∀ e t l r, (eval_expr_bin_op n e t l r).sat fun _ e' => Q e e'
  un_op : ∀ e t x, (eval_expr_un_op n e t x).sat fun _ e' => Q e e'
  print : ∀ e a i, (builtin_print n e a i).sat fun _ e' => Q e e'
  panic : ∀ e a, (builtin_panic n e a).sat fun _ e' => Q e e'
  call : ∀ e f a, (eval_expr_call n e f a).sat fun _ e' => Q e e'
  with_return : ∀ e s, (eval_with_return n e s).sat fun _ e' => Q e e'
  do_ : ∀ e s, (eval_expr_do n e s).sat fun _ e' => Q e e'
  scope_end : ∀ e, (env_scope_end n e).sat fun _ e' => Q' e e'
  scope_end_loop : ∀ e i, (env_scope_end_loop n e i).sat fun _ e' => Q' e e'
  let_ : ∀ e l, (eval_stmt_let n e l).sat fun _ e' => Q e e'
  if_ : ∀ e i, (eval_stmt_if n e i).sat fun _ e' => Q e e'
  while_ : ∀ e c b, (eval_stmt_while n e c b).sat fun _ e' => Q e e'
  while_loop : ∀ e c b, (eval_stmt_while_loop n e c b).sat fun _ e' => Q e e'
  for_ : ∀ e i c s b, (eval_stmt_for n e i c s b).sat fun _ e' => Q e e'
  for_loop : ∀ e c s b, (eval_stmt_for_loop n e c s b).sat fun _ e' => Q e e'
  return_ : ∀ e x, (eval_stmt_return n e x).sat fun _ e' => Q e e'
  stmts : ∀ e s, (eval n e s).sat fun _ e' => Q e e'

/-- The steps on the environment that the evaluator is made of keep `Q`; the
step down of `e->scope` at the end of a scope gives `Q'`, and a scope that
was begun, used and ended gives `Q` again, as does the scope of a for
iteration that is begun and left with `returning` set. -/
structure step_closed {D : Type} [double_ops D] (Q Q' : env_t D → env_t D → Prop) :
    Prop where
  refl : ∀ e, Q e e
  trans : ∀ e1 e2 e3, Q e1 e2 → Q e2 e3 → Q e1 e3
  print : ∀ e s, Q e (e.print s)
  read : ∀ e rest, Q e { e with stdin := rest }
  for_break : ∀ e e1 e2, env_scope_begin e = .ok () e1 → Q e1 e2 → e2.returning = true →
    Q e e2
  scope_pop : ∀ e, Q' e { e with scope := e.scope - 1 }
  pop_trans : ∀ e1 e2 e3, Q e1 e2 → Q' e2 e3 → Q' e1 e3
  block : ∀ e e1 e2 e3, env_scope_begin e = .ok () e1 → Q e1 e2 → Q' e2 e3 → Q e e3
  defer : ∀ e s e', eval_stmt_defer e s = .ok () e' → Q e e'
  assigning : ∀ t e name val v e', bin_op_assigning t e name val = .ok v e' → Q e e'
  let_claim : ∀ e s idx name, e.top = some s →
    let_scan name (s.vars.take s.vars_count) 0 none = some idx → Q e (let_claim e s idx name)
  let_store : ∀ e s idx v, e.top = some s →
    Q e (e.set_top { s with vars := scope_set_val s idx v })
  set_return : ∀ e e1 v, e.returns ≠ 0 → Q e e1 →
    Q e { e1 with return_ := v, returning := true, returned := e1.returned + 1 }
  with_return : ∀ e e1, Q { e with returns := e.returns + 1, return_ := .nil } e1 →
    Q e { e1 with returning := if e1.returning = true then false else e1.returning,
                  returns := e1.returns - 1 }

/-- Every function of the evaluator gives with fuel `n + 1` the outcome it
gives with fuel `n`, unless that is that the fuel ran out. -/
structure evaluator_mono (D : Type) [double_ops D] (n : Nat) : Prop where
  expr : ∀ (e : env_t D) x, (eval_expr n e x).le (eval_expr (n + 1) e x)
  bin_op : ∀ (e : env_t D) t l r,
    (eval_expr_bin_op n e t l r).le (eval_expr_bin_op (n + 1) e t l r)
  un_op : ∀ (e : env_t D) t x, (eval_expr_un_op n e t x).le (eval_expr_un_op (n + 1) e t x)
  print : ∀ (e : env_t D) a i, (builtin_print n e a i).le (builtin_print (n + 1) e a i)
  panic : ∀ (e : env_t D) a, (builtin_panic n e a).le (builtin_panic (n + 1) e a)
  call : ∀ (e : env_t D) f a, (eval_expr_call n e f a).le (eval_expr_call (n + 1) e f a)
  with_return : ∀ (e : env_t D) s, (eval_with_return n e s).le (eval_with_return (n + 1) e s)
  do_ : ∀ (e : env_t D) s, (eval_expr_do n e s).le (eval_expr_do (n + 1) e s)
  scope_end : ∀ (e : env_t D), (env_scope_end n e).le (env_scope_end (n + 1) e)
  scope_end_loop : ∀ (e : env_t D) i,
    (env_scope_end_loop n e i).le (env_scope_end_loop (n + 1) e i)
  let_ : ∀ (e : env_t D) l, (eval_stmt_let n e l).le (eval_stmt_let (n + 1) e l)
  if_ : ∀ (e : env_t D) i, (eval_stmt_if n e i).le (eval_stmt_if (n + 1) e i)
  while_ : ∀ (e : env_t D) c b, (eval_stmt_while n e c b).le (eval_stmt_while (n + 1) e c b)
  while_loop : ∀ (e : env_t D) c b,
    (eval_stmt_while_loop n e c b).le (eval_stmt_while_loop (n + 1) e c b)
  for_ : ∀ (e : env_t D) i c s b,
    (eval_stmt_for n e i c s b).le (eval_stmt_for (n + 1) e i c s b)
  for_loop : ∀ (e : env_t D) c s b,
    (eval_stmt_for_loop n e c s b).le (eval_stmt_for_loop (n + 1) e c s b)
  return_ : ∀ (e : env_t D) x, (eval_stmt_return n e x).le (eval_stmt_return (n + 1) e x)
  stmts : ∀ (e : env_t D) s, (eval n e s).le (eval (n + 1) e s)

/-! ## Concrete programs -/

/-- The call `println(arg)` as a statement. -/
def println_stmt (arg : expr_t Int) : stmt_t Int := .expr (.call "println" [arg])

/-- The statement `for (; true; ) { return 1 }`. -/
def for_return : stmt_t Int :=
  .for_ [] (.val (.bool true)) [] [.return_ (.val (.num 1))]

/-- The program
`defer println("top")  do { defer println("A")  for (; true; ) { return 1 } }`. -/
def defer_program : List (stmt_t Int) :=
  [ .defer [println_stmt (.val (.str "top"))],
    .expr (.do_ [ .defer [println_stmt (.val (.str "A"))], for_return ]) ]

/-- The same program with the loop replaced by `while true { return 1 }`. -/
def defer_program_while : List (stmt_t Int) :=
  [ .defer [println_stmt (.val (.str "top"))],
    .expr (.do_ [ .defer [println_stmt (.val (.str "A"))],
      .while_ (.val (.bool true)) [.return_ (.val (.num 1))] ]) ]

/-- The expression `do { if true { return 1 }  println("x")  return 2 }`. -/
def return_in_if : expr_t Int :=
  .do_ [ .if_ (.mk (.val (.bool true)) [.return_ (.val (.num 1))] none []),
         println_stmt (.val (.str "x")),
         .return_ (.val (.num 2)) ]

/-- An environment in which a return is pending with the value 1, as when a
deferred statement runs while an if block inside a do-block is left. -/
def pending_env : env_t Int :=
  { (env_zero 8 [] : env_t Int) with scope := 3, returns := 1, returning := true, return_ := .num 1 }

/-- The program `println(do { if true { defer do { }  return 1 } })`. -/
def deferred_do_program : List (stmt_t Int) :=
  [ println_stmt (.do_ [ .if_ (.mk (.val (.bool true))
      [ .defer [.expr (.do_ [])], .return_ (.val (.num 1)) ] none []) ]) ]

/-- The frame of `env_x` that is live: it holds the variable `x` with the
value 6. -/
def frame_x : scope_t Int :=
  { vars := [{ name := some "x", val := some (.num 6) }], vars_count := 1,
    defer := [], defer_count := 0 }

/-- An environment with room for two frames.  The first is live and is
`frame_x`; the second is not live and still holds what its last use left, a
variable `x` with the value 5. -/
def env_x : env_t Int :=
  { scopes := [frame_x,
      { vars := [{ name := some "x", val := some (.num 5) }], vars_count := 1,
        defer := [], defer_count := 0 }],
    scope := 1, returning := false, return_ := .nil, returns := 0, stdout := "", stdin := [],
    returned := 0 }

/-- The environment `env_scope_begin` makes of `env_x`. -/
def env_x_inner : env_t Int :=
  { env_x with
    scopes := [frame_x,
      { vars := [{ name := some "x", val := some (.num 5) }], vars_count := 0,
        defer := [], defer_count := 0 }],
    scope := 2 }

/-- The environments differ in the frames at most: `e->scope`, the return
state, the streams and the count of executed returns are the same. -/
def same_control {D : Type} (e e' : env_t D) : Prop :=
  e'.scope = e.scope ∧ e'.returning = e.returning ∧ e'.return_ = e.return_ ∧
  e'.returns = e.returns ∧ e'.stdout = e.stdout ∧ e'.stdin = e.stdin ∧
  e'.returned = e.returned

/-- The frame `eval_stmt_let` leaves on top when it declares `name` with the
value `w` in the frame `s`, `idx?` being the result of its loop. -/
def let_frame {D : Type} (s : scope_t D) (idx? : Option Nat) (name : String) (w : value_t D) :
    scope_t D :=
  { s with
    vars := scope_set_val
      { s with vars := scope_set_name s (idx?.getD s.vars_count) name,
               vars_count := if idx? = none then s.vars_count + 1 else s.vars_count }
      (idx?.getD s.vars_count) w,
    vars_count := if idx? = none then s.vars_count + 1 else s.vars_count }

mutual
/-- No return statement occurs in the expression, at any depth. -/
inductive expr_t.no_return {D : Type} : expr_t D → Prop
  | call (name : String) (args : List (expr_t D)) :
      (∀ a, a ∈ args → expr_t.no_return a) → expr_t.no_return (.call name args)
  | id (name : String) : expr_t.no_return (.id name)
  | do_ (body : List (stmt_t D)) :
      (∀ s, s ∈ body → stmt_t.no_return s) → expr_t.no_return (.do_ body)
  | fun_ (addr : Nat) : expr_t.no_return (.fun_ addr)
  | val (val : value_t D) : expr_t.no_return (.val val)
  | bin_op (type : bin_op_type_t) (left right : expr_t D) :
      expr_t.no_return left → expr_t.no_return right →
      expr_t.no_return (.bin_op type left right)
  | un_op (type : un_op_type_t) (expr : expr_t D) :
      expr_t.no_return expr → expr_t.no_return (.un_op type expr)
/-- No return statement occurs in the statement, at any depth: it is not a
return and none occurs in its expressions and blocks. -/
inductive stmt_t.no_return {D : Type} : stmt_t D → Prop
  | expr (expr : expr_t D) : expr_t.no_return expr → stmt_t.no_return (.expr expr)
  | let_ (l : stmt_let_t D) : stmt_let_t.no_return l → stmt_t.no_return (.let_ l)
  | if_ (i : stmt_if_t D) : stmt_if_t.no_return i → stmt_t.no_return (.if_ i)
  | while_ (cond : expr_t D) (body : List (stmt_t D)) :
      expr_t.no_return cond → (∀ s, s ∈ body → stmt_t.no_return s) →
      stmt_t.no_return (.while_ cond body)
  | for_ (init : List (stmt_t D)) (cond : expr_t D) (step body : List (stmt_t D)) :
      (∀ s, s ∈ init → stmt_t.no_return s) → expr_t.no_return cond →
      (∀ s, s ∈ step → stmt_t.no_return s) → (∀ s, s ∈ body → stmt_t.no_return s) →
      stmt_t.no_return (.for_ init cond step body)
  | defer (stmt : List (stmt_t D)) :
      (∀ s, s ∈ stmt → stmt_t.no_return s) → stmt_t.no_return (.defer stmt)
/-- No return statement occurs in the chain of declarations. -/
inductive stmt_let_t.no_return {D : Type} : stmt_let_t D → Prop
  | mk (name : String) (val : Option (expr_t D)) (next : Option (stmt_let_t D)) :
      (∀ x, val = some x → expr_t.no_return x) →
      (∀ l, next = some l → stmt_let_t.no_return l) →
      stmt_let_t.no_return (.mk name val next)
/-- No return statement occurs in the if chain. -/
inductive stmt_if_t.no_return {D : Type} : stmt_if_t D → Prop
  | mk (cond : expr_t D) (body : List (stmt_t D)) (next : Option (stmt_if_t D))
      (else_ : List (stmt_t D)) :
      expr_t.no_return cond → (∀ s, s ∈ body → stmt_t.no_return s) →
      (∀ i, next = some i → stmt_if_t.no_return i) →
      (∀ s, s ∈ else_ → stmt_t.no_return s) →
      stmt_if_t.no_return (.mk cond body next else_)
end

/-- No return statement occurs in the list of statements. -/
def stmts_no_return {D : Type} (l : List (stmt_t D)) : Prop :=
  ∀ s, s ∈ l → stmt_t.no_return s

/-- The defers registered in the live frames from index `base` on contain no
return statement. -/
def defers_no_return {D : Type} (base : Nat) (e : env_t D) : Prop :=
  ∀ k s i d, base ≤ k → k < e.scope → e.scopes[k]? = some s →
    i < s.defer_count → s.defer[i]? = some d → stmts_no_return d

/-- In the frames below index `bound` no defer count went down from `e` to
`e'`. -/
def defer_counts_grow {D : Type} (bound : Nat) (e e' : env_t D) : Prop :=
  ∀ k s, k < bound → e.scopes[k]? = some s →
    ∃ s', e'.scopes[k]? = some s' ∧ s.defer_count ≤ s'.defer_count

/-- The relation between the environment before and after a call that
executed no return statement, `moved` being what was added to `e'->scope` to
give `e->scope`. -/
structure no_return_kept {D : Type} (base : Nat) (moved : Nat) (e e' : env_t D) : Prop where
  scope : e'.scope + moved = e.scope
  defers : defers_no_return base e'
  ret : e'.return_ = e.return_ ∨ e'.return_ = .nil
  returning : e'.returning = true → e.returning = true
  counts : defer_counts_grow e'.scope e e'

/-- In every frame the defers and their count are the same in `e'` as in
`e`. -/
def frames_same_defers {D : Type} (e e' : env_t D) : Prop :=
  ∀ k : Nat, (e'.scopes[k]?).map (fun (s : scope_t D) => (s.defer, s.defer_count))
    = (e.scopes[k]?).map (fun (s : scope_t D) => (s.defer, s.defer_count))

/-- What each function of the evaluator does, for fuel `n`, when no return
statement occurs in what it executes and in the defers of the live frames from
index `base` on: `e->scope` is where it was (one frame down after
`env_scope_end`), the pending return value is what it was or Nil, and the
flag `returning` was not set. -/
structure evaluator_no_return {D : Type} [double_ops D] (n : Nat) (base : Nat) : Prop where
  expr : ∀ (e : env_t D) x, expr_t.no_return x → base ≤ e.scope → defers_no_return base e →
    (eval_expr n e x).sat fun _ e' => no_return_kept base 0 e e'
  bin_op : ∀ (e : env_t D) t l r, expr_t.no_return l → expr_t.no_return r → base ≤ e.scope →
    defers_no_return base e →
    (eval_expr_bin_op n e t l r).sat fun _ e' => no_return_kept base 0 e e'
  un_op : ∀ (e : env_t D) t x, expr_t.no_return x → base ≤ e.scope → defers_no_return base e →
    (eval_expr_un_op n e t x).sat fun _ e' => no_return_kept base 0 e e'
  print : ∀ (e : env_t D) a i, (∀ x, x ∈ a → expr_t.no_return x) → base ≤ e.scope →
    defers_no_return base e →
    (builtin_print n e a i).sat fun _ e' => no_return_kept base 0 e e'
  call : ∀ (e : env_t D) f a, (∀ x, x ∈ a → expr_t.no_return x) → base ≤ e.scope →
    defers_no_return base e →
    (eval_expr_call n e f a).sat fun _ e' => no_return_kept base 0 e e'
  with_return : ∀ (e : env_t D) s, stmts_no_return s → base ≤ e.scope →
    defers_no_return base e →
    (eval_with_return n e s).sat fun v e' => no_return_kept base 0 e e' ∧ v = .nil
  do_ : ∀ (e : env_t D) s, stmts_no_return s → base ≤ e.scope → defers_no_return base e →
    (eval_expr_do n e s).sat fun v e' => no_return_kept base 0 e e' ∧ v = .nil
  scope_end : ∀ (e : env_t D), base < e.scope → defers_no_return base e →
    (env_scope_end n e).sat fun _ e' => no_return_kept base 1 e e'
  scope_end_loop : ∀ (e : env_t D) i s, base < e.scope → defers_no_return base e →
    e.top = some s → i ≤ s.defer_count →
    (env_scope_end_loop n e i).sat fun _ e' => no_return_kept base 1 e e'
  let_ : ∀ (e : env_t D) l, stmt_let_t.no_return l → base ≤ e.scope → defers_no_return base e →
    (eval_stmt_let n e l).sat fun _ e' => no_return_kept base 0 e e'
  if_ : ∀ (e : env_t D) i, stmt_if_t.no_return i → base ≤ e.scope → defers_no_return base e →
    (eval_stmt_if n e i).sat fun _ e' => no_return_kept base 0 e e'
  while_ : ∀ (e : env_t D) c b, expr_t.no_return c → stmts_no_return b → base ≤ e.scope →
    defers_no_return base e →
    (eval_stmt_while n e c b).sat fun _ e' => no_return_kept base 0 e e'
  while_loop : ∀ (e : env_t D) c b, expr_t.no_return c → stmts_no_return b → base ≤ e.scope →
    defers_no_return base e →
    (eval_stmt_while_loop n e c b).sat fun _ e' => no_return_kept base 0 e e'
  for_ : ∀ (e : env_t D) i c s b, stmts_no_return i → expr_t.no_return c → stmts_no_return s →
    stmts_no_return b → base ≤ e.scope → defers_no_return base e →
    (eval_stmt_for n e i c s b).sat fun _ e' => no_return_kept base 0 e e'
  for_loop : ∀ (e : env_t D) c s b, expr_t.no_return c → stmts_no_return s →
    stmts_no_return b → base ≤ e.scope → defers_no_return base e → e.returning = false →
    (eval_stmt_for_loop n e c s b).sat fun _ e' => no_return_kept base 0 e e'
  stmts : ∀ (e : env_t D) s, stmts_no_return s → base ≤ e.scope → defers_no_return base e →
    (eval n e s).sat fun _ e' => no_return_kept base 0 e e'

/-- The statement `let x = 1`. -/
def let_x_1 : stmt_t Int := .let_ (.mk "x" (some (.val (.num 1))) none)

/-- The expression `x + 1`. -/
def x_plus_1 : expr_t Int := .bin_op BIN_OP_ADD (.id "x") (.val (.num 1))

/-- The body of `do { let x = 1 return x + 1 }`. -/
def do_example_body : List (stmt_t Int) := [let_x_1, .return_ x_plus_1]

/-- The environment in which the body of a do-block at the top of a program is
executed: two live frames, nothing declared, one return-capturing boundary. -/
def env_in_do : env_t Int :=
  { (env_zero 8 [] : env_t Int) with scope := 2, returns := 1 }

/-- The environment `env_in_do` after `let x = 1`. -/
def env_in_do_x : env_t Int :=
  { env_in_do with
    scopes := (env_zero 8 [] : env_t Int).scopes.set 1
      { vars := [{ name := some "x", val := some (.num 1) }], vars_count := 1,
        defer := [], defer_count := 0 } }

/-- Between `e` and `e'` the count of executed return statements did not go
down, and if it is the same, the pending return value is what it was or Nil
and the flag `returning` was not set. -/
structure returned_kept {D : Type} (e e' : env_t D) : Prop where
  mono : e.returned ≤ e'.returned
  ret : e'.returned = e.returned → e'.return_ = e.return_ ∨ e'.return_ = .nil
  returning : e'.returned = e.returned → e'.returning = true → e.returning = true

/-- The frame holds a live variable of that name: a slot below `vars_count`
has the name. -/
def scope_t.holds {D : Type} (s : scope_t D) (x : String) : Prop :=
  ∃ k v, k < s.vars_count ∧ s.vars[k]? = some v ∧ v.name = some x

/-- The name `x` is shadowed in frame `j`: that frame holds a live `x`, and
the scan of the frames below it finds the variable `p`, which is `outer`;
`e->scope` is inside `e->scopes`. -/
structure shadowed {D : Type} (j : Nat) (x : String) (p : Nat × Nat) (outer : var_t D)
    (e : env_t D) : Prop where
  inner : ∃ s, e.scopes[j]? = some s ∧ s.holds x
  below : env_get_var_from e.scopes x j = some p
  kept : e.var_at p = some outer
  bound : e.scope ≤ e.scopes.length

/-- From an environment in which frame `j` is live and shadows `x`, the step
to `e'` keeps the shadowing and moves `e->scope` down by `down` frames at
most. -/
def shadow_kept {D : Type} (j : Nat) (x : String) (p : Nat × Nat) (outer : var_t D)
    (down : Nat) (e e' : env_t D) : Prop :=
  j < e.scope → shadowed j x p outer e → shadowed j x p outer e' ∧ e.scope ≤ e'.scope + down

/-- The statement `let x = n`. -/
def let_x (n : Int) : stmt_t Int := .let_ (.mk "x" (some (.val (.num n))) none)

/-- The program
`let x = 1  do { let x = 2  for (; true; ) { return 1 } }  println(x)`. -/
def shadow_program : List (stmt_t Int) :=
  [ let_x 1, .expr (.do_ [let_x 2, for_return]), println_stmt (.id "x") ]

/-- The same program with the loop replaced by `while true { return 1 }`. -/
def shadow_program_while : List (stmt_t Int) :=
  [ let_x 1, .expr (.do_ [let_x 2, .while_ (.val (.bool true)) [.return_ (.val (.num 1))]]),
    println_stmt (.id "x") ]

/-- The program
`do { let x = 2  for (; true; ) { return 1 } }  let x = 3  println(x)`. -/
def redeclare_program : List (stmt_t Int) :=
  [ .expr (.do_ [let_x 2, for_return]), let_x 3, println_stmt (.id "x") ]

/-- The same program with the loop replaced by `while true { return 1 }`. -/
def redeclare_program_while : List (stmt_t Int) :=
  [ .expr (.do_ [let_x 2, .while_ (.val (.bool true)) [.return_ (.val (.num 1))]]), let_x 3,
    println_stmt (.id "x") ]

/-- An environment with one live frame that holds the variable `b` with the
value `false`. -/
def env_b : env_t Int :=
  { scopes := [{ vars := [{ name := some "b", val := some (.bool false) }], vars_count := 1,
                 defer := [], defer_count := 0 }],
    scope := 1, returning := false, return_ := .nil, returns := 0, stdout := "", stdin := [],
    returned := 0 }

/-- The statement `while true { return 1 }`. -/
def while_return : stmt_t Int := .while_ (.val (.bool true)) [.return_ (.val (.num 1))]

/-- The program
`defer println("top")  do { defer println("A")  exit(2)  println("B") }`. -/
def exit_program : List (stmt_t Int) :=
  [ .defer [println_stmt (.val (.str "top"))],
    .expr (.do_ [ .defer [println_stmt (.val (.str "A"))],
      .expr (.call "exit" [.val (.num 2)]), println_stmt (.val (.str "B")) ]) ]

/-- The same program without the call of `exit`. -/
def no_exit_program : List (stmt_t Int) :=
  [ .defer [println_stmt (.val (.str "top"))],
    .expr (.do_ [ .defer [println_stmt (.val (.str "A"))],
      println_stmt (.val (.str "B")) ]) ]

/-- The program `do { do { } }`. -/
def nest_program : List (stmt_t Int) := [.expr (.do_ [.expr (.do_ [])])]

/-- The environment a call ended the process in. -/
def res.halt_env? {D : Type} {α : Type} : res D α → Option (env_t D)
  | .halt _ e => some e
  | _ => none

/-- The program `let a = 1, b = a  println(b)`. -/
def chain_program : List (stmt_t Int) :=
  [ .let_ (.mk "a" (some (.val (.num 1))) (some (.mk "b" (some (.id "a")) none))),
    println_stmt (.id "b") ]

/-- The program `let b = a, a = 1`. -/
def chain_program_later : List (stmt_t Int) :=
  [ .let_ (.mk "b" (some (.id "a")) (some (.mk "a" (some (.val (.num 1))) none))) ]

/-- Between `e` and `e'` the count of executed return statements did not go
down; and when it is the same, and no return was in flight in `e`, then
`e->scope` is `down` frames below where it was and no return is in flight
in `e'`. -/
structure balanced {D : Type} (down : Nat) (e e' : env_t D) : Prop where
  mono : e.returned ≤ e'.returned
  kept : down ≤ e.scope → e.returning = false → e'.returned = e.returned →
    e'.scope + down = e.scope ∧ e'.returning = false

/-- From an environment in which frame `j` is live, the step to `e'` leaves
the scan of every frame below `j` for every name what it was and moves
`e->scope` down by `down` frames at most. -/
def names_below {D : Type} (j : Nat) (down : Nat) (e e' : env_t D) : Prop :=
  j < e.scope →
    (∀ k, k < j → ∀ name, (e'.scopes[k]?).map (fun s => scope_find_var s name)
      = (e.scopes[k]?).map (fun s => scope_find_var s name)) ∧
    e.scope ≤ e'.scope + down

/-- The statement `for (let i = a; i < n; i ++ 1) { body }`. -/
def for_upto (a n : Int) (body : List (stmt_t Int)) : stmt_t Int :=
  .for_ [.let_ (.mk "i" (some (.val (.num a))) none)]
    (.bin_op BIN_OP_LESS (.id "i") (.val (.num n)))
    [.expr (.bin_op BIN_OP_INC (.id "i") (.val (.num 1)))] body

/-- The program `for (let i = 0; i < 3; i ++ 1) { println(i) }  println(i)`. -/
def for_program : List (stmt_t Int) :=
  [ for_upto 0 3 [println_stmt (.id "i")], println_stmt (.id "i") ]

/-- The program
`for (let i = 0; i < 3; i ++ 1) { let y = i  println(y) }  println("end")`. -/
def for_let_program : List (stmt_t Int) :=
  [ for_upto 0 3 [.let_ (.mk "y" (some (.id "i")) none), println_stmt (.id "y")],
    println_stmt (.val (.str "end")) ]

/-- The statement `let n = 0`. -/
def let_n_0 : stmt_t Int := .let_ (.mk "n" (some (.val (.num 0))) none)

/-- The statement `n ++ 1`. -/
def n_inc : stmt_t Int := .expr (.bin_op BIN_OP_INC (.id "n") (.val (.num 1)))

/-- The expression `n < 2`. -/
def n_lt_2 : expr_t Int := .bin_op BIN_OP_LESS (.id "n") (.val (.num 2))

/-- The program `let n = 0  while n < 2 { let x = 1  n ++ 1 }`. -/
def while_let_program : List (stmt_t Int) :=
  [ let_n_0, .while_ n_lt_2 [let_x 1, n_inc] ]

/-- The program
`let n = 0  while n < 2 { let x = 1  n ++ 1  do { for (; true; ) { return 1 } } }  println("done")`. -/
def while_let_leak_program : List (stmt_t Int) :=
  [ let_n_0, .while_ n_lt_2 [let_x 1, n_inc, .expr (.do_ [for_return])],
    println_stmt (.val (.str "done")) ]

/-- The same program with the for statement replaced by `while true { return 1 }`. -/
def while_let_sibling_program : List (stmt_t Int) :=
  [ let_n_0, .while_ n_lt_2 [let_x 1, n_inc, .expr (.do_ [while_return])],
    println_stmt (.val (.str "done")) ]

/-- The program
`let n = 0  while n < 2 { defer println("A")  defer println("B")  n ++ 1  println(n) }  println("done")`. -/
def while_defer_program : List (stmt_t Int) :=
  [ let_n_0,
    .while_ n_lt_2 [ .defer [println_stmt (.val (.str "A"))], .defer [println_stmt (.val (.str "B"))],
      n_inc, println_stmt (.id "n") ],
    println_stmt (.val (.str "done")) ]

/-- In every frame of the array the slots below `vars_count` have been
written. -/
def frames_wf {D : Type} (e : env_t D) : Prop :=
  ∀ (k : Nat) (s : scope_t D), e.scopes[k]? = some s → s.vars_count ≤ s.vars.length

/-- Frame `j` of the array holds a live variable of that name. -/
def frame_holds {D : Type} (j : Nat) (x : String) (e : env_t D) : Prop :=
  ∃ s, e.scopes[j]? = some s ∧ s.holds x

/-- From an environment in which frame `j` is live and holds `x`, the step to
`e'` leaves `x` live in frame `j` and moves `e->scope` down by `down` frames at
most. -/
def holds_kept {D : Type} (j : Nat) (x : String) (down : Nat) (e e' : env_t D) : Prop :=
  j < e.scope → frame_holds j x e → frame_holds j x e' ∧ e.scope ≤ e'.scope + down

/-- The program
`do { if true { defer for (let i = 0; i < 3; i ++ 1) { println(i) }  return 1 } }`. -/
def deferred_for_program : List (stmt_t Int) :=
  [ .expr (.do_ [ .if_ (.mk (.val (.bool true))
      [ .defer [for_upto 0 3 [println_stmt (.id "i")]], .return_ (.val (.num 1)) ] none []) ]) ]

/-- The program
`do { defer for (let i = 0; i < 3; i ++ 1) { println(i) }  return 1 }`. -/
def deferred_for_in_do_program : List (stmt_t Int) :=
  [ .expr (.do_ [ .defer [for_upto 0 3 [println_stmt (.id "i")]], .return_ (.val (.num 1)) ]) ]

/-- The program `do { if true { defer for (; false; ) { }  return 1 } }`. -/
def deferred_empty_for_program : List (stmt_t Int) :=
  [ .expr (.do_ [ .if_ (.mk (.val (.bool true))
      [ .defer [.for_ [] (.val (.bool false)) [] []], .return_ (.val (.num 1)) ] none []) ]) ]

/-- The program
`do { if true { defer if true { println("d") }  return 1 } }`. -/
def deferred_if_program : List (stmt_t Int) :=
  [ .expr (.do_ [ .if_ (.mk (.val (.bool true))
      [ .defer [.if_ (.mk (.val (.bool true)) [println_stmt (.val (.str "d"))] none [])],
        .return_ (.val (.num 1)) ] none []) ]) ]

/-- The program
`do { defer println("A")  defer defer println("S")  defer println("B") }  println("end")`. -/
def defer_defer_program : List (stmt_t Int) :=
  [ .expr (.do_ [ .defer [println_stmt (.val (.str "A"))],
      .defer [.defer [println_stmt (.val (.str "S"))]],
      .defer [println_stmt (.val (.str "B"))] ]),
    println_stmt (.val (.str "end")) ]

/-- The program
`do { do { defer println("X") }  defer println("A")  defer do { for (; true; ) { return 1 } } }  println("end")`. -/
def defer_leak_program : List (stmt_t Int) :=
  [ .expr (.do_ [ .expr (.do_ [.defer [println_stmt (.val (.str "X"))]]),
      .defer [println_stmt (.val (.str "A"))],
      .defer [.expr (.do_ [for_return])] ]),
    println_stmt (.val (.str "end")) ]

/-- The same program with the for statement replaced by `while true { return 1 }`. -/
def defer_leak_sibling_program : List (stmt_t Int) :=
  [ .expr (.do_ [ .expr (.do_ [.defer [println_stmt (.val (.str "X"))]]),
      .defer [println_stmt (.val (.str "A"))],
      .defer [.expr (.do_ [while_return])] ]),
    println_stmt (.val (.str "end")) ]

/-- The invariant of the return state: a return is in flight only while a
return-capturing boundary is active. -/
def returning_inside {D : Type} (e : env_t D) : Prop :=
  e.returning = true → e.returns ≠ 0

/-- Do-blocks nested `d` deep around an empty one: `do { do { ... do { } } }`
with `d + 1` times `do`. -/
def nest {D : Type} : Nat → expr_t D
  | 0 => .do_ []
  | d + 1 => .do_ [.expr (nest d)]

/-- From an environment in which frame `j` is live and holds its defers in
written slots, the step to `e'` leaves the defers the frame held where they
were: it may only register more of them above, in written slots; and it moves
`e->scope` down by `down` frames at most. -/
def defers_kept {D : Type} (j : Nat) (down : Nat) (e e' : env_t D) : Prop :=
  j < e.scope → ∀ s, e.scopes[j]? = some s → s.defer_count ≤ s.defer.length →
    (∃ s', e'.scopes[j]? = some s' ∧ s.defer_count ≤ s'.defer_count ∧
      s'.defer_count ≤ s'.defer.length ∧
      ∀ i, i < s.defer_count → s'.defer[i]? = s.defer[i]?) ∧
    e.scope ≤ e'.scope + down

/-- The statements `env_scope_end` is to execute, in their order, each with
the fuel the loop of the source model has for it, and the final
`-- e->scope`. -/
def run_defers {D : Type} [double_ops D] : Nat → env_t D → List (List (stmt_t D)) → res D Unit
  | 0, _, _ => .out_of_fuel
  | _ + 1, e, [] => .ok () { e with scope := e.scope - 1 }
  | n + 1, e, stmt :: rest =>
    (eval n e stmt).bind fun _ e1 =>
    run_defers n e1 rest

/-- An environment with one live frame in which `defer println("A")` and then
`defer println("B")` were executed. -/
def env_two_defers : env_t Int :=
  { scopes := [{ vars := [], vars_count := 0,
                 defer := [[println_stmt (.val (.str "A"))], [println_stmt (.val (.str "B"))]],
                 defer_count := 2 }],
    scope := 1, returning := false, return_ := .nil, returns := 0, stdout := "", stdin := [],
    returned := 0 }

/-- The environment `eval_with_return` leaves of `pending_env` when the body
is empty. -/
def pending_env_reset : env_t Int :=
  { pending_env with returning := false, return_ := .nil }

/-- The program
`do { while true { defer for (let i = 0; i < 3; i ++ 1) { println(i) }  return 1 } }`. -/
def deferred_for_in_while_program : List (stmt_t Int) :=
  [ .expr (.do_ [ .while_ (.val (.bool true))
      [ .defer [for_upto 0 3 [println_stmt (.id "i")]], .return_ (.val (.num 1)) ] ]) ]

/-- The program `for (let i = 0; i < 3; i ++ 1) { println(i) }`. -/
def for_only_program : List (stmt_t Int) :=
  [ for_upto 0 3 [println_stmt (.id "i")] ]

/-- The environment `env_init` makes, with room for 8 frames. -/
def env_started : env_t Int :=
  { (env_zero 8 [] : env_t Int) with scope := 1 }

/-- The statement `for (let i = 0; i < 3; i ++ 1) { let y = i  println(y) }`
evaluated in the environment of `env_init`. -/
def for_let_run : res Int Unit :=
  eval_stmt_for 30 env_started [.let_ (.mk "i" (some (.val (.num 0))) none)]
    (.bin_op BIN_OP_LESS (.id "i") (.val (.num 3)))
    [.expr (.bin_op BIN_OP_INC (.id "i") (.val (.num 1)))]
    [.let_ (.mk "y" (some (.id "i")) none), println_stmt (.id "y")]

/-! # Theorems -/

/-! ## Reasoning about outcomes -/

@[simp] theorem res.bind_ok {D : Type} {α β : Type} (a : α) (e : env_t D)
    (k : α → env_t D → res D β) : (res.ok a e).bind k = k a e := rfl

@[simp] theorem res.bind_halt {D : Type} {α β : Type} (f : fatal_t) (e : env_t D)
    (k : α → env_t D → res D β) : (res.halt f e).bind k = .halt f e := rfl

@[simp] theorem res.bind_out_of_fuel {D : Type} {α β : Type}
    (k : α → env_t D → res D β) : (res.out_of_fuel : res D α).bind k = .out_of_fuel := rfl

@[simp] theorem res.sat_ok {D : Type} {α : Type} (a : α) (e : env_t D)
    (Q : α → env_t D → Prop) : (res.ok a e).sat Q ↔ Q a e := by
  constructor
  · intro h; exact h a e rfl
  · intro h b e' hb; cases hb; exact h

@[simp] theorem res.sat_halt {D : Type} {α : Type} (f : fatal_t) (e : env_t D)
    (Q : α → env_t D → Prop) : (res.halt f e : res D α).sat Q := by
  intro a e' h; cases h

@[simp] theorem res.sat_out_of_fuel {D : Type} {α : Type}
    (Q : α → env_t D → Prop) : (res.out_of_fuel : res D α).sat Q := by
  intro a e' h; cases h

@[simp] theorem res.sat_bind {D : Type} {α β : Type} (r : res D α)
    (k : α → env_t D → res D β) (Q : β → env_t D → Prop) :
    (r.bind k).sat Q ↔ r.sat fun a e => (k a e).sat Q := by
  cases r <;> simp [res.sat]

theorem res.sat_mono {D : Type} {α : Type} {r : res D α} {Q Q' : α → env_t D → Prop}
    (h : r.sat Q) (hq : ∀ a e, Q a e → Q' a e) : r.sat Q' :=
  fun a e hr => hq a e (h a e hr)

@[simp] theorem res.sat_of_except {D : Type} {α : Type} (x : Except fatal_t α) (e : env_t D)
    (Q : α → env_t D → Prop) :
    (res.of_except x e).sat Q ↔ ∀ a, x = .ok a → Q a e := by
  cases x <;> simp [res.of_except]

theorem res.le_refl {D : Type} {α : Type} (r : res D α) : r.le r := Or.inr rfl

theorem res.out_of_fuel_le {D : Type} {α : Type} (r : res D α) : (res.out_of_fuel).le r :=
  Or.inl rfl

theorem res.bind_le {D : Type} {α β : Type} {r r' : res D α} {k k' : α → env_t D → res D β}
    (h : r.le r') (hk : ∀ a e, (k a e).le (k' a e)) : (r.bind k).le (r'.bind k') := by
  rcases h with h | h
  · subst h; exact Or.inl rfl
  · subst h
    cases r with
    | ok a e => exact hk a e
    | halt f e => exact Or.inr rfl
    | out_of_fuel => exact Or.inl rfl

/-! ## Relations that every call of the evaluator keeps -/

theorem evaluator_sat_zero {D : Type} [double_ops D] (Q Q' : env_t D → env_t D → Prop) :
    evaluator_sat 0 Q Q' := by
  constructor <;> intros <;>
    simp [eval_expr, eval_expr_bin_op, eval_expr_un_op, builtin_print, builtin_panic,
      eval_expr_call, eval_with_return, eval_expr_do, env_scope_end, env_scope_end_loop,
      eval_stmt_let, eval_stmt_if, eval_stmt_while, eval_stmt_while_loop, eval_stmt_for,
      eval_stmt_for_loop, eval_stmt_return, eval]

theorem eval_expr_id_sat {D : Type} (e : env_t D) (name : String) :
    (eval_expr_id e name).sat fun _ e' => e' = e := by
  unfold eval_expr_id
  repeat' split
  all_goals simp

theorem evaluator_sat_succ {D : Type} [double_ops D] (Q Q' : env_t D → env_t D → Prop)
    (hQ : step_closed Q Q') (n : Nat) (ih : evaluator_sat n Q Q') :
    evaluator_sat (n + 1) Q Q' := by
  have tr := hQ.trans
  constructor
  · -- eval_expr
    intro e x
    cases x with
    | call name args => simpa only [eval_expr] using ih.call e name args
    | id name =>
      simp only [eval_expr]
      exact res.sat_mono (eval_expr_id_sat e name) fun _ e' h => h ▸ hQ.refl e
    | do_ body => simpa only [eval_expr] using ih.do_ e body
    | fun_ addr => simpa only [eval_expr, res.sat_ok] using hQ.refl e
    | val v => simpa only [eval_expr, res.sat_ok] using hQ.refl e
    | bin_op t l r => simpa only [eval_expr] using ih.bin_op e t l r
    | un_op t x => simpa only [eval_expr] using ih.un_op e t x
  · -- eval_expr_bin_op
    intro e t l r
    simp only [eval_expr_bin_op]
    split
    · split
      · simp only [res.sat_bind]
        refine res.sat_mono (ih.expr e _) fun v e1 h1 => ?_
        intro v' e' h
        exact tr _ _ _ h1 (hQ.assigning _ _ _ _ _ _ h)
      · simp
    · simp only [res.sat_bind, res.sat_of_except]
      refine res.sat_mono (ih.expr e _) fun v e1 h1 => ?_
      refine res.sat_mono (ih.expr e1 _) fun v e2 h2 => ?_
      intro _ _
      exact tr _ _ _ h1 h2
  · -- eval_expr_un_op
    intro e t x
    simp only [eval_expr_un_op, res.sat_bind, res.sat_of_except]
    refine res.sat_mono (ih.expr e _) fun v e1 h1 => ?_
    intro _ _
    exact h1
  · -- builtin_print
    intro e a i
    cases a with
    | nil => simpa only [builtin_print, res.sat_ok] using hQ.refl e
    | cons arg args =>
      simp only [builtin_print, res.sat_bind, res.sat_of_except]
      refine res.sat_mono (ih.expr _ _) fun v e1 h1 => ?_
      intro s _
      refine res.sat_mono (ih.print _ _ _) fun _ e2 h2 => ?_
      refine tr _ _ _ ?_ (tr _ _ _ h1 (tr _ _ _ (hQ.print _ _) h2))
      split
      · exact hQ.print _ _
      · exact hQ.refl _
  · -- builtin_panic
    intro e a
    cases a with
    | nil => simp only [builtin_panic, res.sat_halt]
    | cons arg args =>
      simp only [builtin_panic, res.sat_bind, res.sat_of_except]
      refine res.sat_mono (ih.expr _ _) fun v e1 h1 => ?_
      intro s _
      refine res.sat_mono (ih.panic _ _) fun _ e2 h2 => ?_
      exact tr _ _ _ h1 h2
  · -- eval_expr_call
    intro e f a
    simp only [eval_expr_call]
    split_ifs
    · simp only [res.sat_bind, res.sat_ok]
      exact res.sat_mono (ih.print _ _ _) fun _ e1 h1 => tr _ _ _ h1 (hQ.print _ _)
    · exact ih.print _ _ _
    · split
      · simp only [res.sat_bind]
        refine res.sat_mono (ih.expr _ _) fun v e1 h1 => ?_
        split <;> simp [h1]
      · simp
    · simp only [res.sat_bind, res.sat_ok]
      exact res.sat_mono (ih.print _ _ _) fun _ e1 h1 =>
        tr _ _ _ h1 (tr _ _ _ (hQ.print _ _) (hQ.read _ _))
    · simp only [res.sat_bind, res.sat_ok]
      exact res.sat_mono (ih.print _ _ _) fun _ e1 h1 =>
        tr _ _ _ h1 (tr _ _ _ (hQ.print _ _) (hQ.read _ _))
    · exact ih.panic _ _
    · split
      · simp only [res.sat_bind]
        refine res.sat_mono (ih.expr _ _) fun v e1 h1 => ?_
        split <;> simp
      · simp
    · simp
  · -- eval_with_return
    intro e s
    simp only [eval_with_return, res.sat_bind, res.sat_ok]
    exact res.sat_mono (ih.stmts _ _) fun _ e1 h1 => hQ.with_return _ _ h1
  · -- eval_expr_do
    intro e s
    simp only [eval_expr_do, res.sat_bind, res.sat_ok]
    intro _ e1 h1
    refine res.sat_mono (ih.with_return _ _) fun v e2 h2 => ?_
    refine res.sat_mono (ih.scope_end _) fun _ e3 h3 => ?_
    exact hQ.block _ _ _ _ h1 h2 h3
  · -- env_scope_end
    intro e
    simp only [env_scope_end]
    split
    · simp
    · exact ih.scope_end_loop _ _
  · -- env_scope_end_loop
    intro e i
    cases i with
    | zero => simpa only [env_scope_end_loop, res.sat_ok] using hQ.scope_pop e
    | succ i =>
      simp only [env_scope_end_loop]
      split
      · simp
      · split
        · simp
        · simp only [res.sat_bind]
          refine res.sat_mono (ih.stmts _ _) fun _ e1 h1 => ?_
          exact res.sat_mono (ih.scope_end_loop _ _) fun _ e2 h2 => hQ.pop_trans _ _ _ h1 h2
  · -- eval_stmt_let
    intro e l
    cases l with
    | mk name val next =>
      simp only [eval_stmt_let]
      split
      · simp
      · rename_i s hs
        split
        · simp
        · rename_i idx hidx
          have hc : Q e (let_claim e s idx name) := hQ.let_claim e s idx name hs hidx
          simp only [res.sat_bind]
          have hinit : (match val with
              | none => res.ok value_t.nil (let_claim e s idx name)
              | some x => eval_expr n (let_claim e s idx name) x).sat
              fun _ e2 => Q e e2 := by
            split
            · simpa only [res.sat_ok] using hc
            · exact res.sat_mono (ih.expr _ _) fun _ e2 h2 => tr _ _ _ hc h2
          refine res.sat_mono hinit fun v e2 h2 => ?_
          split
          · simp
          · split
            · simp
            · rename_i s2 hs2
              have hw := hQ.let_store e2 s2 (idx.getD s.vars_count) v hs2
              split
              · simpa only [res.sat_ok] using tr _ _ _ h2 hw
              · exact res.sat_mono (ih.let_ _ _) fun _ e3 h3 => tr _ _ _ (tr _ _ _ h2 hw) h3
  · -- eval_stmt_if
    intro e i
    cases i with
    | mk cond body next else_ =>
      simp only [eval_stmt_if, res.sat_bind]
      intro _ e1 hb
      refine res.sat_mono (ih.expr _ _) fun c e2 h2 => ?_
      split
      · rename_i b
        simp only [res.sat_bind]
        have hbr : (if b = true then eval n e2 body
            else match next with
              | some i => eval_stmt_if n e2 i
              | none => eval n e2 else_).sat fun _ e3 => Q e2 e3 := by
          split
          · exact ih.stmts _ _
          · split
            · exact ih.if_ _ _
            · exact ih.stmts _ _
        refine res.sat_mono hbr fun _ e3 h3 => ?_
        exact res.sat_mono (ih.scope_end _) fun _ e4 h4 =>
          hQ.block _ _ _ _ hb (tr _ _ _ h2 h3) h4
      · simp
  · -- eval_stmt_while
    intro e c b
    simp only [eval_stmt_while, res.sat_bind]
    intro _ e1 hb
    refine res.sat_mono (ih.while_loop _ _ _) fun _ e2 h2 => ?_
    exact res.sat_mono (ih.scope_end _) fun _ e3 h3 => hQ.block _ _ _ _ hb h2 h3
  · -- eval_stmt_while_loop
    intro e c b
    simp only [eval_stmt_while_loop, res.sat_bind]
    refine res.sat_mono (ih.expr _ _) fun v e1 h1 => ?_
    split
    · split
      · simp only [res.sat_bind]
        refine res.sat_mono (ih.stmts _ _) fun _ e2 h2 => ?_
        split
        · simpa only [res.sat_ok] using tr _ _ _ h1 h2
        · exact res.sat_mono (ih.while_loop _ _ _) fun _ e3 h3 => tr _ _ _ h1 (tr _ _ _ h2 h3)
      · simpa only [res.sat_ok] using h1
    · simp
  · -- eval_stmt_for
    intro e i c s b
    simp only [eval_stmt_for, res.sat_bind]
    intro _ e1 hb
    refine res.sat_mono (ih.stmts _ _) fun _ e2 h2 => ?_
    split
    · simp
    · simp only [res.sat_bind]
      refine res.sat_mono (ih.for_loop _ _ _ _) fun _ e3 h3 => ?_
      exact res.sat_mono (ih.scope_end _) fun _ e4 h4 =>
        hQ.block _ _ _ _ hb (tr _ _ _ h2 h3) h4
  · -- eval_stmt_for_loop
    intro e c s b
    simp only [eval_stmt_for_loop, res.sat_bind]
    refine res.sat_mono (ih.expr _ _) fun v e1 h1 => ?_
    split
    · split
      · simp only [res.sat_bind]
        intro _ e2 hb
        refine res.sat_mono (ih.stmts _ _) fun _ e3 h3 => ?_
        split
        · rename_i hret
          simpa only [res.sat_ok] using tr _ _ _ h1 (hQ.for_break _ _ _ hb h3 hret)
        · simp only [res.sat_bind]
          refine res.sat_mono (ih.stmts _ _) fun _ e4 h4 => ?_
          split
          · simp
          · simp only [res.sat_bind]
            refine res.sat_mono (ih.scope_end _) fun _ e5 h5 => ?_
            exact res.sat_mono (ih.for_loop _ _ _ _) fun _ e6 h6 =>
              tr _ _ _ h1 (tr _ _ _ (hQ.block _ _ _ _ hb (tr _ _ _ h3 h4) h5) h6)
      · simpa only [res.sat_ok] using h1
    · simp
  · -- eval_stmt_return
    intro e x
    simp only [eval_stmt_return]
    split
    · simp
    · rename_i hr
      simp only [res.sat_bind, res.sat_ok]
      exact res.sat_mono (ih.expr _ _) fun v e1 h1 => hQ.set_return _ _ _ hr h1
  · -- eval
    intro e s
    cases s with
    | nil => simpa only [eval, res.sat_ok] using hQ.refl e
    | cons stmt next =>
      simp only [eval]
      split
      · exact ih.return_ _ _
      · simp only [res.sat_bind]
        exact res.sat_mono (ih.expr _ _) fun _ e1 h1 =>
          res.sat_mono (ih.stmts _ _) fun _ e2 h2 => tr _ _ _ h1 h2
      · simp only [res.sat_bind]
        exact res.sat_mono (ih.let_ _ _) fun _ e1 h1 =>
          res.sat_mono (ih.stmts _ _) fun _ e2 h2 => tr _ _ _ h1 h2
      · simp only [res.sat_bind]
        exact res.sat_mono (ih.if_ _ _) fun _ e1 h1 =>
          res.sat_mono (ih.stmts _ _) fun _ e2 h2 => tr _ _ _ h1 h2
      · simp only [res.sat_bind]
        exact res.sat_mono (ih.while_ _ _ _) fun _ e1 h1 =>
          res.sat_mono (ih.stmts _ _) fun _ e2 h2 => tr _ _ _ h1 h2
      · simp only [res.sat_bind]
        exact res.sat_mono (ih.for_ _ _ _ _ _) fun _ e1 h1 =>
          res.sat_mono (ih.stmts _ _) fun _ e2 h2 => tr _ _ _ h1 h2
      · simp only [res.sat_bind]
        intro _ e1 h1
        exact res.sat_mono (ih.stmts _ _) fun _ e2 h2 => tr _ _ _ (hQ.defer _ _ _ h1) h2

/-- A relation that the steps keep holds between the environment a function
of the evaluator is called in and the one it returns with. -/
theorem evaluator_sat_all {D : Type} [double_ops D] (Q Q' : env_t D → env_t D → Prop)
    (hQ : step_closed Q Q') : ∀ n, evaluator_sat n Q Q'
  | 0 => evaluator_sat_zero Q Q'
  | n + 1 => evaluator_sat_succ Q Q' hQ n (evaluator_sat_all Q Q' hQ n)

/-! ## More fuel does not change an outcome -/

theorem evaluator_mono_zero (D : Type) [double_ops D] : evaluator_mono D 0 := by
  constructor <;> intros <;> exact Or.inl rfl

theorem evaluator_mono_succ (D : Type) [double_ops D] (n : Nat) (ih : evaluator_mono D n) :
    evaluator_mono D (n + 1) := by
  constructor
  · intro e x
    cases x <;> simp only [eval_expr] <;>
      first
      | exact res.le_refl _
      | exact ih.call _ _ _
      | exact ih.do_ _ _
      | exact ih.bin_op _ _ _ _
      | exact ih.un_op _ _ _
  · intro e t l r
    simp only [eval_expr_bin_op]
    split
    · split
      · exact res.bind_le (ih.expr _ _) fun _ _ => res.le_refl _
      · exact res.le_refl _
    · exact res.bind_le (ih.expr _ _) fun _ _ =>
        res.bind_le (ih.expr _ _) fun _ _ => res.le_refl _
  · intro e t x
    simp only [eval_expr_un_op]
    exact res.bind_le (ih.expr _ _) fun _ _ => res.le_refl _
  · intro e a i
    cases a with
    | nil => exact res.le_refl _
    | cons arg args =>
      simp only [builtin_print]
      exact res.bind_le (ih.expr _ _) fun _ _ =>
        res.bind_le (res.le_refl _) fun _ _ => ih.print _ _ _
  · intro e a
    cases a with
    | nil => exact res.le_refl _
    | cons arg args =>
      simp only [builtin_panic]
      exact res.bind_le (ih.expr _ _) fun _ _ =>
        res.bind_le (res.le_refl _) fun _ _ => ih.panic _ _
  · intro e f a
    simp only [eval_expr_call]
    split_ifs
    · exact res.bind_le (ih.print _ _ _) fun _ _ => res.le_refl _
    · exact ih.print _ _ _
    · split
      · exact res.bind_le (ih.expr _ _) fun _ _ => res.le_refl _
      · exact res.le_refl _
    · exact res.bind_le (ih.print _ _ _) fun _ _ => res.le_refl _
    · exact res.bind_le (ih.print _ _ _) fun _ _ => res.le_refl _
    · exact ih.panic _ _
    · split
      · exact res.bind_le (ih.expr _ _) fun _ _ => res.le_refl _
      · exact res.le_refl _
    · exact res.le_refl _
  · intro e s
    simp only [eval_with_return]
    exact res.bind_le (ih.stmts _ _) fun _ _ => res.le_refl _
  · intro e s
    simp only [eval_expr_do]
    exact res.bind_le (res.le_refl _) fun _ _ =>
      res.bind_le (ih.with_return _ _) fun _ _ =>
        res.bind_le (ih.scope_end _) fun _ _ => res.le_refl _
  · intro e
    simp only [env_scope_end]
    split
    · exact res.le_refl _
    · exact ih.scope_end_loop _ _
  · intro e i
    cases i with
    | zero => exact res.le_refl _
    | succ i =>
      simp only [env_scope_end_loop]
      split
      · exact res.le_refl _
      · split
        · exact res.le_refl _
        · exact res.bind_le (ih.stmts _ _) fun _ _ => ih.scope_end_loop _ _
  · intro e l
    cases l with
    | mk name val next =>
      simp only [eval_stmt_let]
      split
      · exact res.le_refl _
      · split
        · exact res.le_refl _
        · refine res.bind_le ?_ fun _ _ => ?_
          · split
            · exact res.le_refl _
            · exact ih.expr _ _
          · split
            · exact res.le_refl _
            · split
              · exact res.le_refl _
              · split
                · exact res.le_refl _
                · exact ih.let_ _ _
  · intro e i
    cases i with
    | mk cond body next else_ =>
      simp only [eval_stmt_if]
      refine res.bind_le (res.le_refl _) fun _ _ => res.bind_le (ih.expr _ _) fun _ _ => ?_
      split
      · refine res.bind_le ?_ fun _ _ => ih.scope_end _
        split
        · exact ih.stmts _ _
        · split
          · exact ih.if_ _ _
          · exact ih.stmts _ _
      · exact res.le_refl _
  · intro e c b
    simp only [eval_stmt_while]
    exact res.bind_le (res.le_refl _) fun _ _ =>
      res.bind_le (ih.while_loop _ _ _) fun _ _ => ih.scope_end _
  · intro e c b
    simp only [eval_stmt_while_loop]
    refine res.bind_le (ih.expr _ _) fun _ _ => ?_
    split
    · split
      · refine res.bind_le (ih.stmts _ _) fun _ _ => ?_
        split
        · exact res.le_refl _
        · exact ih.while_loop _ _ _
      · exact res.le_refl _
    · exact res.le_refl _
  · intro e i c s b
    simp only [eval_stmt_for]
    refine res.bind_le (res.le_refl _) fun _ _ => res.bind_le (ih.stmts _ _) fun _ _ => ?_
    split
    · exact res.le_refl _
    · exact res.bind_le (ih.for_loop _ _ _ _) fun _ _ => ih.scope_end _
  · intro e c s b
    simp only [eval_stmt_for_loop]
    refine res.bind_le (ih.expr _ _) fun _ _ => ?_
    split
    · split
      · refine res.bind_le (res.le_refl _) fun _ _ => res.bind_le (ih.stmts _ _) fun _ _ => ?_
        split
        · exact res.le_refl _
        · refine res.bind_le (ih.stmts _ _) fun _ _ => ?_
          split
          · exact res.le_refl _
          · exact res.bind_le (ih.scope_end _) fun _ _ => ih.for_loop _ _ _ _
      · exact res.le_refl _
    · exact res.le_refl _
  · intro e x
    simp only [eval_stmt_return]
    split
    · exact res.le_refl _
    · exact res.bind_le (ih.expr _ _) fun _ _ => res.le_refl _
  · intro e s
    cases s with
    | nil => exact res.le_refl _
    | cons stmt next =>
      cases stmt <;> simp only [eval]
      · exact res.bind_le (ih.expr _ _) fun _ _ => ih.stmts _ _
      · exact res.bind_le (ih.let_ _ _) fun _ _ => ih.stmts _ _
      · exact res.bind_le (ih.if_ _ _) fun _ _ => ih.stmts _ _
      · exact res.bind_le (ih.while_ _ _ _) fun _ _ => ih.stmts _ _
      · exact res.bind_le (ih.for_ _ _ _ _ _) fun _ _ => ih.stmts _ _
      · exact ih.return_ _ _
      · exact res.bind_le (res.le_refl _) fun _ _ => ih.stmts _ _

theorem evaluator_mono_all (D : Type) [double_ops D] : ∀ n, evaluator_mono D n
  | 0 => evaluator_mono_zero D
  | n + 1 => evaluator_mono_succ D n (evaluator_mono_all D n)

/-! ## Operators -/

theorem eval_expr_bin_op_of_values {D : Type} [double_ops D] (n : Nat) (e e1 e2 : env_t D)
    (type : bin_op_type_t) (left right : expr_t D) (l r : value_t D)
    (ht : type.assigns = false)
    (hl : eval_expr n e left = .ok l e1) (hr : eval_expr n e1 right = .ok r e2) :
    eval_expr (n + 2) e (.bin_op type left right) = res.of_except (bin_op_values type l r) e2 := by
  simp [eval_expr, eval_expr_bin_op, ht, hl, hr, res.bind]

theorem eval_expr_bin_op_of_assigning {D : Type} [double_ops D] (n : Nat) (e e1 : env_t D)
    (type : bin_op_type_t) (name : String) (right : expr_t D) (val : value_t D)
    (ht : type.assigns = true) (hr : eval_expr n e right = .ok val e1) :
    eval_expr (n + 2) e (.bin_op type (.id name) right) = bin_op_assigning type e1 name val := by
  simp [eval_expr, eval_expr_bin_op, ht, hr, res.bind]


theorem eval_expr_un_op_of_value {D : Type} [double_ops D] (n : Nat) (e e1 : env_t D)
    (type : un_op_type_t) (x : expr_t D) (v : value_t D)
    (hx : eval_expr n e x = .ok v e1) :
    eval_expr (n + 2) e (.un_op type x) = res.of_except (un_op_value type v) e1 := by
  simp [eval_expr, eval_expr_un_op, hx, res.bind]

/-- C8. Operator typing without coercion.  Let the operands evaluate to the
values `l` and `r`.  For two Numbers `-`, `*`, `^` and `/` (right operand not
equal to 0) return the Number the C operator gives, and `>`, `>=`, `<`, `<=`
return the Bool of the C comparison; when the operands are not both Number
each of these eight operators ends with a type error.  For two Bools `and` and
`or` return the conjunction and disjunction; when the operands are not both
Bool they end with a type error.  Unary `+` returns a Number operand as it is
and unary `-` its negation, `not` returns the negation of a Bool operand; on
any other operand they end with a type error. -/
theorem C8_operator_typing {D : Type} [double_ops D] (n : Nat) (e e1 e2 : env_t D)
    (left right : expr_t D) (l r : value_t D)
    (hl : eval_expr n e left = .ok l e1) (hr : eval_expr n e1 right = .ok r e2) :
    (∀ a b, l = .num a → r = .num b →
      eval_expr (n + 2) e (.bin_op BIN_OP_SUB left right) = .ok (.num (double_ops.sub a b)) e2 ∧
      eval_expr (n + 2) e (.bin_op BIN_OP_MUL left right) = .ok (.num (double_ops.mul a b)) e2 ∧
      eval_expr (n + 2) e (.bin_op BIN_OP_POW left right) = .ok (.num (double_ops.pow a b)) e2 ∧
      (double_ops.eq b (double_ops.of_nat 0) = false →
        eval_expr (n + 2) e (.bin_op BIN_OP_DIV left right)
          = .ok (.num (double_ops.div a b)) e2) ∧
      eval_expr (n + 2) e (.bin_op BIN_OP_GREATER left right)
        = .ok (.bool (double_ops.gt a b)) e2 ∧
      eval_expr (n + 2) e (.bin_op BIN_OP_GREATER_EQU left right)
        = .ok (.bool (double_ops.ge a b)) e2 ∧
      eval_expr (n + 2) e (.bin_op BIN_OP_LESS left right)
        = .ok (.bool (double_ops.lt a b)) e2 ∧
      eval_expr (n + 2) e (.bin_op BIN_OP_LESS_EQU left right)
        = .ok (.bool (double_ops.le a b)) e2) ∧
    (¬ (l.type = VALUE_TYPE_NUM ∧ r.type = VALUE_TYPE_NUM) →
      ∀ op ∈ [BIN_OP_SUB, BIN_OP_MUL, BIN_OP_DIV, BIN_OP_POW, BIN_OP_GREATER,
          BIN_OP_GREATER_EQU, BIN_OP_LESS, BIN_OP_LESS_EQU],
        ∃ t c, eval_expr (n + 2) e (.bin_op op left right) = .halt (.wrong_type t c) e2) ∧
    (∀ a b, l = .bool a → r = .bool b →
      eval_expr (n + 2) e (.bin_op BIN_OP_AND left right) = .ok (.bool (a && b)) e2 ∧
      eval_expr (n + 2) e (.bin_op BIN_OP_OR left right) = .ok (.bool (a || b)) e2) ∧
    (¬ (l.type = VALUE_TYPE_BOOL ∧ r.type = VALUE_TYPE_BOOL) →
      ∀ op ∈ [BIN_OP_AND, BIN_OP_OR],
        ∃ t c, eval_expr (n + 2) e (.bin_op op left right) = .halt (.wrong_type t c) e2) ∧
    (∀ a, l = .num a →
      eval_expr (n + 2) e (.un_op UN_OP_POS left) = .ok (.num a) e1 ∧
      eval_expr (n + 2) e (.un_op UN_OP_NEG left) = .ok (.num (double_ops.neg a)) e1) ∧
    (l.type ≠ VALUE_TYPE_NUM →
      ∀ op ∈ [UN_OP_POS, UN_OP_NEG],
        ∃ t c, eval_expr (n + 2) e (.un_op op left) = .halt (.wrong_type t c) e1) ∧
    (∀ b, l = .bool b →
      eval_expr (n + 2) e (.un_op UN_OP_NOT left) = .ok (.bool (!b)) e1) ∧
    (l.type ≠ VALUE_TYPE_BOOL →
      ∃ t c, eval_expr (n + 2) e (.un_op UN_OP_NOT left) = .halt (.wrong_type t c) e1) := by
  have hb : ∀ type : bin_op_type_t, type.assigns = false →
      eval_expr (n + 2) e (.bin_op type left right) = res.of_except (bin_op_values type l r) e2 :=
    fun type ht => eval_expr_bin_op_of_values n e e1 e2 type left right l r ht hl hr
  have hu : ∀ type : un_op_type_t,
      eval_expr (n + 2) e (.un_op type left) = res.of_except (un_op_value type l) e1 :=
    fun type => eval_expr_un_op_of_value n e e1 type left l hl
  refine ⟨?_, ?_, ?_, ?_, ?_, ?_, ?_, ?_⟩
  · rintro a b rfl rfl
    refine ⟨?_, ?_, ?_, ?_, ?_, ?_, ?_, ?_⟩
    · rw [hb BIN_OP_SUB rfl]; rfl
    · rw [hb BIN_OP_MUL rfl]; rfl
    · rw [hb BIN_OP_POW rfl]; rfl
    · intro hz
      rw [hb BIN_OP_DIV rfl]
      simp [bin_op_values, eval_expr_bin_op_div, hz, res.of_except]
    · rw [hb BIN_OP_GREATER rfl]; rfl
    · rw [hb BIN_OP_GREATER_EQU rfl]; rfl
    · rw [hb BIN_OP_LESS rfl]; rfl
    · rw [hb BIN_OP_LESS_EQU rfl]; rfl
  · intro hne op hop
    simp only [List.mem_cons, List.mem_singleton, List.not_mem_nil, or_false] at hop
    have ha : op.assigns = false := by
      rcases hop with rfl | rfl | rfl | rfl | rfl | rfl | rfl | rfl <;> rfl
    rw [hb op ha]
    clear hb hu hl hr
    rcases hop with rfl | rfl | rfl | rfl | rfl | rfl | rfl | rfl <;>
      cases l <;> cases r <;>
      simp_all [bin_op_values, eval_expr_bin_op_sub, eval_expr_bin_op_mul, eval_expr_bin_op_div,
        eval_expr_bin_op_pow, eval_expr_bin_op_arith, eval_expr_bin_op_greater,
        eval_expr_bin_op_greater_equ, eval_expr_bin_op_less, eval_expr_bin_op_less_equ,
        eval_expr_bin_op_compare, res.of_except, value_t.type]
  · rintro a b rfl rfl
    exact ⟨by rw [hb BIN_OP_AND rfl]; rfl, by rw [hb BIN_OP_OR rfl]; rfl⟩
  · intro hne op hop
    simp only [List.mem_cons, List.mem_singleton, List.not_mem_nil, or_false] at hop
    have ha : op.assigns = false := by
      rcases hop with rfl | rfl <;> rfl
    rw [hb op ha]
    clear hb hu hl hr
    rcases hop with rfl | rfl <;>
      cases l <;> cases r <;>
      simp_all [bin_op_values, eval_expr_bin_op_and, eval_expr_bin_op_or,
        eval_expr_bin_op_logic, res.of_except, value_t.type]
  · rintro a rfl
    exact ⟨by rw [hu]; rfl, by rw [hu]; rfl⟩
  · intro hne op hop
    simp only [List.mem_cons, List.mem_singleton, List.not_mem_nil, or_false] at hop
    rw [hu op]
    clear hb hu hl hr
    rcases hop with rfl | rfl <;>
      cases l <;>
      simp_all [un_op_value, res.of_except, value_t.type]
  · rintro b rfl
    rw [hu]; rfl
  · intro hne
    rw [hu]
    clear hb hu hl hr
    cases l <;> simp_all [un_op_value, res.of_except, value_t.type]


/-- C9. Equality.  Let the operands evaluate to the values `l` and `r`.  When
their variants differ `==` returns Bool false and `/=` Bool true.  For all
operands both return a Bool, without an error, and the Bool of `/=` is the
negation of the one of `==`.  Nil equals Nil, two Strings are equal when they
are the same bytes, two Functions when they are the same node, two Numbers
when the C operator `==` says so, two Bools when they are the same. -/
theorem C9_equality {D : Type} [double_ops D] (n : Nat) (e e1 e2 : env_t D)
    (left right : expr_t D) (l r : value_t D)
    (hl : eval_expr n e left = .ok l e1) (hr : eval_expr n e1 right = .ok r e2) :
    (l.type ≠ r.type →
      eval_expr (n + 2) e (.bin_op BIN_OP_EQUALS left right) = .ok (.bool false) e2 ∧
      eval_expr (n + 2) e (.bin_op BIN_OP_NOT_EQUALS left right) = .ok (.bool true) e2) ∧
    (∃ b, eval_expr (n + 2) e (.bin_op BIN_OP_EQUALS left right) = .ok (.bool b) e2 ∧
      eval_expr (n + 2) e (.bin_op BIN_OP_NOT_EQUALS left right) = .ok (.bool (!b)) e2) ∧
    (l = .nil → r = .nil →
      eval_expr (n + 2) e (.bin_op BIN_OP_EQUALS left right) = .ok (.bool true) e2) ∧
    (∀ s t, l = .str s → r = .str t →
      eval_expr (n + 2) e (.bin_op BIN_OP_EQUALS left right) = .ok (.bool (decide (s = t))) e2) ∧
    (∀ f g, l = .fun_ f → r = .fun_ g →
      eval_expr (n + 2) e (.bin_op BIN_OP_EQUALS left right) = .ok (.bool (decide (f = g))) e2) ∧
    (∀ a b, l = .num a → r = .num b →
      eval_expr (n + 2) e (.bin_op BIN_OP_EQUALS left right)
        = .ok (.bool (double_ops.eq a b)) e2) ∧
    (∀ a b, l = .bool a → r = .bool b →
      eval_expr (n + 2) e (.bin_op BIN_OP_EQUALS left right) = .ok (.bool (a == b)) e2) := by
  have he := eval_expr_bin_op_of_values n e e1 e2 BIN_OP_EQUALS left right l r rfl hl hr
  have hn := eval_expr_bin_op_of_values n e e1 e2 BIN_OP_NOT_EQUALS left right l r rfl hl hr
  rw [he, hn]
  clear he hn hl hr
  refine ⟨?_, ?_, ?_, ?_, ?_, ?_, ?_⟩
  · intro hne
    cases l <;> cases r <;>
      simp_all [bin_op_values, eval_expr_bin_op_equals, eval_expr_bin_op_not_equals,
        res.of_except, value_t.type]
  · cases l <;> cases r <;>
      simp [bin_op_values, eval_expr_bin_op_equals, eval_expr_bin_op_not_equals,
        res.of_except, value_t.type]
  · rintro rfl rfl
    simp [bin_op_values, eval_expr_bin_op_equals, res.of_except, value_t.type]
  · rintro s t rfl rfl
    simp [bin_op_values, eval_expr_bin_op_equals, res.of_except, value_t.type]
  · rintro f g rfl rfl
    simp [bin_op_values, eval_expr_bin_op_equals, res.of_except, value_t.type]
  · rintro a b rfl rfl
    simp [bin_op_values, eval_expr_bin_op_equals, res.of_except, value_t.type]
  · rintro a b rfl rfl
    simp [bin_op_values, eval_expr_bin_op_equals, res.of_except, value_t.type]

/-- The operands of `C9_equality` at a String and a Number: `"1" == 1` is
false and `"1" /= 1` is true. -/
theorem C9_equality_witness :
    eval_expr 1 (env_zero 4 [] : env_t Int) (.val (.str "1")) = .ok (.str "1") (env_zero 4 []) ∧
    eval_expr 1 (env_zero 4 [] : env_t Int) (.val (.num 1)) = .ok (.num 1) (env_zero 4 []) ∧
    eval_expr 3 (env_zero 4 [] : env_t Int) (.bin_op BIN_OP_EQUALS (.val (.str "1")) (.val (.num 1)))
      = .ok (.bool false) (env_zero 4 []) ∧
    eval_expr 3 (env_zero 4 [] : env_t Int)
        (.bin_op BIN_OP_NOT_EQUALS (.val (.str "1")) (.val (.num 1)))
      = .ok (.bool true) (env_zero 4 []) :=
  ⟨rfl, rfl,
    (C9_equality 1 (env_zero 4 [] : env_t Int) (env_zero 4 []) (env_zero 4 []) (.val (.str "1"))
      (.val (.num 1)) (.str "1") (.num 1) rfl rfl).1 (by decide)⟩

/-- C10. Division by zero.  When the left operand of `/` evaluates to a Number
and the right operand to a Number equal to 0, the evaluation ends with the
`division by zero` error, in the environment the operands left.  When the
right operand of `x // right` evaluates to a Number equal to 0 and `x`
resolves to a variable holding a Number, the evaluation ends with the same
error in the environment the right operand left, in which the variable still
holds its value.  No value is returned in either case. -/
theorem C10_division_by_zero {D : Type} [double_ops D] (n : Nat) (e : env_t D)
    (right : expr_t D) (z : D) (hz : double_ops.eq z (double_ops.of_nat 0) = true) :
    (∀ (left : expr_t D) (a : D) (e1 e2 : env_t D),
      eval_expr n e left = .ok (.num a) e1 → eval_expr n e1 right = .ok (.num z) e2 →
      eval_expr (n + 2) e (.bin_op BIN_OP_DIV left right)
        = .halt (.error "division by zero") e2) ∧
    (∀ (x : String) (a : D) (e1 : env_t D) (p : Nat × Nat) (var : var_t D),
      eval_expr n e right = .ok (.num z) e1 →
      env_get_var e1 x = some p → e1.var_at p = some var → var.val = some (.num a) →
      eval_expr (n + 2) e (.bin_op BIN_OP_XDEC (.id x) right)
        = .halt (.error "division by zero") e1 ∧
      eval_expr_id e1 x = .ok (.num a) e1) := by
  constructor
  · intro left a e1 e2 hl hr
    rw [eval_expr_bin_op_of_values n e e1 e2 BIN_OP_DIV left right _ _ rfl hl hr]
    simp [bin_op_values, eval_expr_bin_op_div, hz, res.of_except]
  · intro x a e1 p var hr hp hv ha
    rw [eval_expr_bin_op_of_assigning n e e1 BIN_OP_XDEC x right _ rfl hr]
    simp [bin_op_assigning, eval_expr_bin_op_xdec, eval_expr_id, hp, hv, ha, hz, value_t.type]

/-! ## Scopes, defers and returns on concrete programs -/

/-- C1. The program registers one defer in the top scope and one in the scope
of a do-block that is left by a return inside a for loop.  The run of the
three exported functions ends without an error after writing `A` only: the
defer of the top scope is never executed.  With a while loop in place of the
for loop both defers are executed, innermost first. -/
theorem C1_for_return_loses_defer :
    (run_program 8 40 [] defer_program).env?.map (fun e => e.stdout) = some "A\n" ∧
    (run_program 8 40 [] defer_program_while).env?.map (fun e => e.stdout) = some "A\ntop\n" := by
  decide!

/-- C2. From the environment of `env_init`, where one frame is live, the
expression statement `do { for (; true; ) { return 1 } }` is executed without
an error and leaves two frames live: the frame of the for statement is not
ended.  With `while true { return 1 }` or `if true { return 1 }` in place of
the for statement one frame is live afterwards. -/
theorem C2_for_return_leaks_scope :
    (env_init 8 [] : res Int Unit).env?.map (fun e => e.scope) = some 1 ∧
    ((env_init 8 [] : res Int Unit).bind fun _ e =>
        eval 40 e [.expr (.do_ [for_return])]).env?.map (fun e => e.scope) = some 2 ∧
    ((env_init 8 [] : res Int Unit).bind fun _ e =>
        eval 40 e [.expr (.do_ [.while_ (.val (.bool true)) [.return_ (.val (.num 1))]])]).env?.map
      (fun e => e.scope) = some 1 ∧
    ((env_init 8 [] : res Int Unit).bind fun _ e =>
        eval 40 e [.expr (.do_ [.if_ (.mk (.val (.bool true)) [.return_ (.val (.num 1))] none [])])]).env?.map
      (fun e => e.scope) = some 1 := by
  decide!

/-- C6. In `do { if true { return 1 }  println("x")  return 2 }` the return
inside the if is executed first, yet the statements after the if are executed
as well: `x` is written and the do-block evaluates to 2, the value of the
second return. -/
theorem C6_return_in_if_goes_on :
    ((env_init 8 [] : res Int Unit).bind fun _ e => eval_expr 40 e return_in_if).val?
      = some (.num 2) ∧
    ((env_init 8 [] : res Int Unit).bind fun _ e =>
        eval_expr 40 e return_in_if).env?.map (fun e => e.stdout) = some "x\n" := by
  decide!

/-- C7, as stated, fails.  In an environment where a return is pending with
the value 1, evaluating the do-block `do { }` leaves `returning` false and the
pending return value Nil.  So `println(do { if true { defer do { }  return 1 } })`
writes `(nil)`: the deferred do-block has wiped the value of the return. -/
theorem C7_do_block_wipes_pending_return :
    pending_env.returning = true ∧ pending_env.return_ = .num 1 ∧
    (eval_expr 10 pending_env (.do_ [])).env?.map (fun e => (e.returning, e.return_))
      = some (false, .nil) ∧
    (run_program 8 40 [] deferred_do_program).env?.map (fun e => e.stdout) = some "(nil)\n" := by
  decide!

/-- The operands of `C8_operator_typing` at the Numbers 3 and 1: `3 - 1`
evaluates to 2. -/
theorem C8_operator_typing_witness :
    eval_expr 1 env_x (.val (.num 3)) = .ok (.num 3) env_x ∧
    eval_expr 1 env_x (.val (.num 1)) = .ok (.num 1) env_x ∧
    eval_expr 3 env_x (.bin_op BIN_OP_SUB (.val (.num 3)) (.val (.num 1)))
      = .ok (.num 2) env_x :=
  ⟨rfl, rfl,
    ((C8_operator_typing 1 env_x env_x env_x (.val (.num 3)) (.val (.num 1)) (.num 3) (.num 1)
      rfl rfl).1 3 1 rfl rfl).1⟩

/-- The operands of `C10_division_by_zero` at `6 / 0` and `x // 0`, `x`
holding 6: both end with `division by zero` and `x` still holds 6. -/
theorem C10_division_by_zero_witness :
    double_ops.eq (0 : Int) (double_ops.of_nat 0) = true ∧
    eval_expr 1 env_x (.val (.num 0)) = .ok (.num 0) env_x ∧
    env_get_var env_x "x" = some (0, 0) ∧
    eval_expr 3 env_x (.bin_op BIN_OP_DIV (.val (.num 6)) (.val (.num 0)))
      = .halt (.error "division by zero") env_x ∧
    eval_expr 3 env_x (.bin_op BIN_OP_XDEC (.id "x") (.val (.num 0)))
      = .halt (.error "division by zero") env_x ∧
    eval_expr_id env_x "x" = .ok (.num 6) env_x :=
  ⟨rfl, rfl, by decide,
    (C10_division_by_zero 1 env_x (.val (.num 0)) 0 rfl).1 (.val (.num 6)) 6 env_x env_x rfl rfl,
    ((C10_division_by_zero 1 env_x (.val (.num 0)) 0 rfl).2 "x" 6 env_x (0, 0)
      { name := some "x", val := some (.num 6) } rfl (by decide) rfl rfl).1,
    ((C10_division_by_zero 1 env_x (.val (.num 0)) 0 rfl).2 "x" 6 env_x (0, 0)
      { name := some "x", val := some (.num 6) } rfl (by decide) rfl rfl).2⟩

/-! ## The steps on the frames -/

theorem env_scope_begin_eq {D : Type} (e e' : env_t D) (h : env_scope_begin e = .ok () e') :
    ∃ s, e.scopes[e.scope]? = some s ∧
      e' = { e with
        scopes := e.scopes.set e.scope { s with vars_count := 0, defer_count := 0 },
        scope := e.scope + 1 } := by
  unfold env_scope_begin at h
  split at h
  · cases h
  · rename_i s hs
    injection h with _ h
    exact ⟨s, hs, h.symm⟩

theorem set_top_same_control {D : Type} (e : env_t D) (s : scope_t D) :
    same_control e (e.set_top s) := ⟨rfl, rfl, rfl, rfl, rfl, rfl, rfl⟩

theorem set_var_val_same_control {D : Type} (e : env_t D) (p : Nat × Nat) (v : value_t D) :
    same_control e (e.set_var_val p v) := by
  unfold env_t.set_var_val
  repeat' split
  all_goals exact ⟨rfl, rfl, rfl, rfl, rfl, rfl, rfl⟩

theorem eval_stmt_defer_same_control {D : Type} (e e' : env_t D) (s : List (stmt_t D))
    (h : eval_stmt_defer e s = .ok () e') : same_control e e' := by
  unfold eval_stmt_defer at h
  split at h
  · cases h
  · injection h with _ h
    subst h
    exact set_top_same_control _ _

theorem eval_expr_bin_op_update_same_control {D : Type} (op : String) (f : D → D → D)
    (e e' : env_t D) (name : String) (val v : value_t D)
    (h : eval_expr_bin_op_update op f e name val = .ok v e') : same_control e e' := by
  unfold eval_expr_bin_op_update at h
  repeat' split at h
  all_goals
    cases h
    try exact set_var_val_same_control _ _ _

theorem bin_op_assigning_same_control {D : Type} [double_ops D] (t : bin_op_type_t)
    (e e' : env_t D) (name : String) (val v : value_t D)
    (h : bin_op_assigning t e name val = .ok v e') : same_control e e' := by
  unfold bin_op_assigning at h
  split at h
  · unfold eval_expr_bin_op_assign at h
    repeat' split at h
    all_goals
      cases h
      try exact set_var_val_same_control _ _ _
  · exact eval_expr_bin_op_update_same_control _ _ _ _ _ _ _ h
  · exact eval_expr_bin_op_update_same_control _ _ _ _ _ _ _ h
  · exact eval_expr_bin_op_update_same_control _ _ _ _ _ _ _ h
  · unfold eval_expr_bin_op_xdec at h
    repeat' split at h
    all_goals
      cases h
      try exact set_var_val_same_control _ _ _

/-! ## The counter `returns` -/

/-- The steps keep the counter `returns`. -/
theorem returns_step_closed {D : Type} [double_ops D] :
    step_closed (fun (e e' : env_t D) => e'.returns = e.returns)
      (fun (e e' : env_t D) => e'.returns = e.returns) where
  refl _ := rfl
  trans _ _ _ h1 h2 := h2.trans h1
  print _ _ := rfl
  read _ _ := rfl
  for_break e e1 e2 h h1 _ := by
    obtain ⟨s, _, rfl⟩ := env_scope_begin_eq e e1 h
    exact h1
  scope_pop _ := rfl
  pop_trans _ _ _ h1 h2 := h2.trans h1
  block e e1 e2 e3 h h1 h2 := by
    obtain ⟨s, _, rfl⟩ := env_scope_begin_eq e e1 h
    exact (h2.trans h1).trans rfl
  defer e s e' h := (eval_stmt_defer_same_control e e' s h).2.2.2.1
  assigning t e name val v e' h := (bin_op_assigning_same_control t e e' name val v h).2.2.2.1
  let_claim _ _ _ _ _ _ := rfl
  let_store _ _ _ _ _ := rfl
  set_return _ _ _ _ h := h
  with_return e e1 h := by
    simp only at h ⊢
    omega

/-- What `eval_with_return` leaves: the flag `returning` is false, the pending
return value is the value returned, and the counter `returns` is what it was. -/
theorem eval_with_return_post {D : Type} [double_ops D] (n : Nat) (e e' : env_t D)
    (body : List (stmt_t D)) (v : value_t D) (h : eval_with_return n e body = .ok v e') :
    e'.returning = false ∧ e'.return_ = v ∧ e'.returns = e.returns := by
  cases n with
  | zero => simp [eval_with_return] at h
  | succ n =>
    simp only [eval_with_return] at h
    cases hr : eval n { e with returns := e.returns + 1, return_ := .nil } body with
    | out_of_fuel => simp [hr] at h
    | halt f e1 => simp [hr] at h
    | ok u e1 =>
      have hk := (evaluator_sat_all _ _ returns_step_closed n).stmts _ _ u e1 hr
      simp only [hr, res.bind_ok] at h
      injection h with hv he
      subst he
      subst hv
      simp only at hk
      refine ⟨?_, rfl, ?_⟩
      · cases e1.returning <;> rfl
      · simp only [hk]; omega

/-! ## Buffers and lookup -/

theorem findIdx?_first {α : Type} (p : α → Bool) :
    ∀ (l : List α) (k s : Nat) (a : α), l[k]? = some a → p a = true →
      (∀ j b, j < k → l[j]? = some b → p b = false) → l.findIdx? p s = some (s + k) := by
  intro l
  induction l with
  | nil => intro k s a h; simp at h
  | cons x xs ih =>
    intro k s a h hp hlt
    cases k with
    | zero =>
      simp only [List.getElem?_cons_zero, Option.some.injEq] at h
      subst h
      simp [List.findIdx?_cons, hp]
    | succ k =>
      have hx : p x = false := hlt 0 x (Nat.succ_pos k) (by simp)
      simp only [List.getElem?_cons_succ] at h
      rw [List.findIdx?_cons, if_neg (by simp [hx])]
      rw [ih k (s + 1) a h hp (fun j b hj hb => hlt (j + 1) b (Nat.succ_lt_succ hj) (by simpa using hb))]
      congr 1
      omega

theorem findIdx?_spec {α : Type} (p : α → Bool) :
    ∀ (l : List α) (s r : Nat), l.findIdx? p s = some r →
      ∃ k a, r = s + k ∧ l[k]? = some a ∧ p a = true ∧
        ∀ j b, j < k → l[j]? = some b → p b = false := by
  intro l
  induction l with
  | nil => intro s r h; simp at h
  | cons x xs ih =>
    intro s r h
    rw [List.findIdx?_cons] at h
    by_cases hx : p x = true
    · rw [if_pos hx] at h
      injection h with h
      exact ⟨0, x, by omega, by simp, hx, fun j b hj => absurd hj (Nat.not_lt_zero j)⟩
    · rw [if_neg hx] at h
      obtain ⟨k, a, hr, ha, hp, hlt⟩ := ih (s + 1) r h
      refine ⟨k + 1, a, by omega, by simpa using ha, hp, ?_⟩
      intro j b hj hb
      cases j with
      | zero =>
        simp only [List.getElem?_cons_zero, Option.some.injEq] at hb
        subst hb
        simpa using hx
      | succ j =>
        exact hlt j b (Nat.lt_of_succ_lt_succ hj) (by simpa using hb)

theorem buf_write_getElem? {α : Type} (buf : List α) (i : Nat) (x : α) (hi : i ≤ buf.length)
    (j : Nat) : (buf_write buf i x)[j]? = if j = i then some x else buf[j]? := by
  unfold buf_write
  split
  · rename_i h
    rw [List.getElem?_set]
    by_cases hji : j = i
    · subst hji; simp [h]
    · have : ¬ i = j := fun h => hji h.symm
      simp [hji, this]
  · rename_i h
    have hil : i = buf.length := by omega
    subst hil
    by_cases hji : j = buf.length
    · subst hji; simp
    · simp only [hji, if_false]
      by_cases hlt : j < buf.length
      · rw [List.getElem?_append_left hlt]
      · rw [List.getElem?_eq_none (by simp; omega), List.getElem?_eq_none (by omega)]

theorem let_scan_eq_none {D : Type} (name : String) :
    ∀ (l : List (var_t D)) (i : Nat) (idx : Option Nat),
      let_scan name l i idx = none ↔ ∃ v ∈ l, v.name = some name := by
  intro l
  induction l with
  | nil => intro i idx; simp [let_scan]
  | cons v vs ih =>
    intro i idx
    unfold let_scan
    split
    · rename_i hv
      rw [ih]
      simp [hv]
    · rename_i n hv
      split
      · rename_i hn
        subst hn
        simp [hv]
      · rename_i hn
        rw [ih]
        simp [hv, hn]

theorem let_scan_spec {D : Type} (name : String) :
    ∀ (l : List (var_t D)) (i : Nat) (idx r : Option Nat),
      let_scan name l i idx = some r →
        r = idx ∨ ∃ j v, r = some (i + j) ∧ l[j]? = some v ∧ v.name = none := by
  intro l
  induction l with
  | nil => intro i idx r h; simp only [let_scan, Option.some.injEq] at h; exact Or.inl h.symm
  | cons v vs ih =>
    intro i idx r h
    unfold let_scan at h
    split at h
    · rename_i hv
      rcases ih _ _ _ h with h1 | ⟨j, w, hr, hw, hn⟩
      · by_cases hidx : idx = none
        · rw [if_pos hidx] at h1
          exact Or.inr ⟨0, v, by simpa using h1, by simp, hv⟩
        · rw [if_neg hidx] at h1
          exact Or.inl h1
      · exact Or.inr ⟨j + 1, w, by rw [hr]; congr 1; omega, by simpa using hw, hn⟩
    · split at h
      · cases h
      · rcases ih _ _ _ h with h1 | ⟨j, w, hr, hw, hn⟩
        · exact Or.inl h1
        · exact Or.inr ⟨j + 1, w, by rw [hr]; congr 1; omega, by simpa using hw, hn⟩

theorem top_eq_some {D : Type} (e : env_t D) (s : scope_t D) :
    e.top = some s ↔ e.scope ≠ 0 ∧ e.scopes[e.scope - 1]? = some s := by
  unfold env_t.top
  split <;> simp_all

theorem top_set_top {D : Type} (e : env_t D) (s s' : scope_t D) (h : e.top = some s) :
    (e.set_top s').top = some s' := by
  rw [top_eq_some] at h ⊢
  refine ⟨h.1, ?_⟩
  have hlt : e.scope - 1 < e.scopes.length := by
    rcases List.getElem?_eq_some.mp h.2 with ⟨hl, _⟩
    exact hl
  simp [env_t.set_top, List.getElem?_set, hlt]

theorem set_top_set_top {D : Type} (e : env_t D) (s s' : scope_t D) :
    (e.set_top s).set_top s' = e.set_top s' := by
  simp [env_t.set_top]

theorem eval_stmt_let_literal {D : Type} [double_ops D] (n : Nat) (e : env_t D) (s : scope_t D)
    (name : String) (w : value_t D) (idx? : Option Nat) (hs : e.top = some s)
    (hscan : let_scan name (s.vars.take s.vars_count) 0 none = some idx?) :
    eval_stmt_let (n + 2) e (.mk name (some (.val w)) none)
      = .ok () (e.set_top (let_frame s idx? name w)) := by
  simp only [eval_stmt_let, hs, hscan, eval_expr, res.bind_ok]
  have h1 : (let_claim e s idx? name).scope = e.scope := rfl
  have h2 := top_set_top e s { s with
      vars := scope_set_name s (idx?.getD s.vars_count) name,
      vars_count := if idx? = none then s.vars_count + 1 else s.vars_count } hs
  simp only [let_claim, ne_eq] at h1 ⊢
  simp only [h2, set_top_set_top, let_frame]
  rw [if_neg (not_not.mpr h1)]

theorem eval_stmt_let_no_init {D : Type} [double_ops D] (n : Nat) (e : env_t D) (s : scope_t D)
    (name : String) (idx? : Option Nat) (hs : e.top = some s)
    (hscan : let_scan name (s.vars.take s.vars_count) 0 none = some idx?) :
    eval_stmt_let (n + 1) e (.mk name none none)
      = .ok () (e.set_top (let_frame s idx? name .nil)) := by
  simp only [eval_stmt_let, hs, hscan, res.bind_ok]
  have h2 := top_set_top e s { s with
      vars := scope_set_name s (idx?.getD s.vars_count) name,
      vars_count := if idx? = none then s.vars_count + 1 else s.vars_count } hs
  have h1 : (let_claim e s idx? name).scope = e.scope := rfl
  simp only [let_claim, ne_eq] at h1 ⊢
  simp only [h2, set_top_set_top, let_frame]
  rw [if_neg (not_not.mpr h1)]

theorem has_name_iff {D : Type} (v : var_t D) (name : String) :
    v.has_name name = true ↔ v.name = some name := by
  unfold var_t.has_name
  split <;> simp_all

theorem has_name_eq_false {D : Type} (v : var_t D) (name : String) :
    v.has_name name = false ↔ v.name ≠ some name := by
  rw [Ne, ← has_name_iff]; simp

/-- The slot `eval_stmt_let` declares in: it is below the new count, it holds
the name and the value, and the lookup in the frame finds it. -/
theorem let_frame_slot {D : Type} (s : scope_t D) (idx? : Option Nat) (name : String)
    (w : value_t D) (hwf : s.vars_count ≤ s.vars.length)
    (hscan : let_scan name (s.vars.take s.vars_count) 0 none = some idx?) :
    (let_frame s idx? name w).vars[idx?.getD s.vars_count]?
        = some { name := some name, val := some w } ∧
      scope_find_var (let_frame s idx? name w) name = some (idx?.getD s.vars_count) ∧
      (let_frame s idx? name w).defer = s.defer ∧
      (let_frame s idx? name w).defer_count = s.defer_count := by
  have hfree : ∀ v ∈ s.vars.take s.vars_count, v.name ≠ some name := by
    intro v hv hn
    have := (let_scan_eq_none name (s.vars.take s.vars_count) 0 none).mpr ⟨v, hv, hn⟩
    rw [this] at hscan
    cases hscan
  have hidx : idx?.getD s.vars_count ≤ s.vars_count ∧
      idx?.getD s.vars_count < (if idx? = none then s.vars_count + 1 else s.vars_count) := by
    rcases let_scan_spec name _ 0 none idx? hscan with h | ⟨j, v, hj, hv, _⟩
    · subst h; simp
    · subst hj
      have hlt : j < (s.vars.take s.vars_count).length :=
        (List.getElem?_eq_some.mp hv).1
      simp only [List.length_take] at hlt
      simp only [zero_add, Option.getD_some, reduceCtorEq, if_false]
      omega
  obtain ⟨idx, hi⟩ : ∃ idx, idx?.getD s.vars_count = idx := ⟨_, rfl⟩
  obtain ⟨count, hc⟩ : ∃ count, (if idx? = none then s.vars_count + 1 else s.vars_count) = count :=
    ⟨_, rfl⟩
  rw [hi, hc] at hidx
  rw [hi]
  have hil : idx ≤ s.vars.length := by omega
  have h1 : ∀ j, (scope_set_name s idx name)[j]?
      = if j = idx then some { name := some name, val := (s.vars[idx]?).bind fun v => v.val }
        else s.vars[j]? := by
    intro j
    unfold scope_set_name
    exact buf_write_getElem? _ _ _ hil j
  have h2 : ∀ j, (let_frame s idx? name w).vars[j]?
      = if j = idx then some { name := some name, val := some w } else s.vars[j]? := by
    intro j
    simp only [let_frame, scope_set_val, hc, hi]
    rw [h1 idx, if_pos rfl]
    simp only
    rw [List.getElem?_set]
    by_cases hji : j = idx
    · subst hji
      have hlt : j < (scope_set_name s j name).length := by
        have := h1 j
        rw [if_pos rfl] at this
        exact (List.getElem?_eq_some.mp this).1
      simp [hlt]
    · have : ¬ idx = j := fun h => hji h.symm
      simp only [this, hji, if_false]
      rw [h1 j, if_neg hji]
  refine ⟨by rw [h2, if_pos rfl], ?_, rfl, rfl⟩
  unfold scope_find_var
  have hcount : (let_frame s idx? name w).vars_count = count := by simp only [let_frame, hc]
  rw [hcount]
  have := findIdx?_first (fun v : var_t D => v.has_name name)
    ((let_frame s idx? name w).vars.take count) idx 0 { name := some name, val := some w }
    (by rw [List.getElem?_take, if_pos hidx.2, h2, if_pos rfl])
    (by simp [var_t.has_name])
    (by
      intro j b hj hb
      rw [List.getElem?_take, if_pos (by omega), h2, if_neg (by omega)] at hb
      rw [has_name_eq_false]
      apply hfree
      rw [List.mem_iff_getElem?]
      exact ⟨j, by rw [List.getElem?_take, if_pos (by omega)]; exact hb⟩)
  simpa using this

theorem env_get_var_top {D : Type} (e : env_t D) (s : scope_t D) (name : String) (i : Nat)
    (hs : e.top = some s) (hf : scope_find_var s name = some i) :
    env_get_var e name = some (e.scope - 1, i) := by
  rw [top_eq_some] at hs
  obtain ⟨k, hk⟩ : ∃ k, e.scope = k + 1 := ⟨e.scope - 1, by omega⟩
  unfold env_get_var
  rw [hk] at hs ⊢
  simp only [Nat.add_sub_cancel] at hs ⊢
  simp [env_get_var_from, hs.2, hf]

theorem env_get_var_from_congr {D : Type} (scopes scopes' : List (scope_t D)) (name : String) :
    ∀ k, (∀ j, j < k → scopes'[j]? = scopes[j]?) →
      env_get_var_from scopes' name k = env_get_var_from scopes name k := by
  intro k
  induction k with
  | zero => intro _; rfl
  | succ k ih =>
    intro h
    unfold env_get_var_from
    rw [h k (Nat.lt_succ_self k), ih (fun j hj => h j (Nat.lt_succ_of_lt hj))]

/-- `env_get_var` returns the first match of the scan from the innermost frame
outwards: the frame found is live, the slot is the first of that frame whose
name is the one looked for, and no live frame further in has such a slot. -/
theorem env_get_var_from_spec {D : Type} (scopes : List (scope_t D)) (name : String) :
    ∀ (k j i : Nat), env_get_var_from scopes name k = some (j, i) →
      j < k ∧ (∃ s, scopes[j]? = some s ∧ scope_find_var s name = some i) ∧
      ∀ j' s', j < j' → j' < k → scopes[j']? = some s' → scope_find_var s' name = none := by
  intro k
  induction k with
  | zero => intro j i h; simp [env_get_var_from] at h
  | succ k ih =>
    intro j i h
    unfold env_get_var_from at h
    split at h
    · cases h
    · rename_i s hs
      split at h
      · rename_i i' hi
        injection h with h
        injection h with h1 h2
        subst h1 h2
        exact ⟨Nat.lt_succ_self _, ⟨s, hs, hi⟩, fun j' s' h1 h2 => by omega⟩
      · rename_i hn
        obtain ⟨h1, h2, h3⟩ := ih j i h
        refine ⟨Nat.lt_succ_of_lt h1, h2, ?_⟩
        intro j' s' hj hj' hs'
        by_cases hjk : j' = k
        · subst hjk
          rw [hs] at hs'
          injection hs' with hs'
          subst hs'
          exact hn
        · exact h3 j' s' hj (by omega) hs'

theorem scope_find_var_slot {D : Type} (s : scope_t D) (name : String) (i : Nat)
    (h : scope_find_var s name = some i) :
    i < s.vars_count ∧ ∃ v, s.vars[i]? = some v ∧ v.name = some name := by
  unfold scope_find_var at h
  obtain ⟨k, a, hk, ha, hp, _⟩ := findIdx?_spec _ _ 0 i h
  simp only [zero_add] at hk
  subst hk
  rw [List.getElem?_take] at ha
  split at ha
  · rename_i hlt
    exact ⟨hlt, a, ha, (has_name_iff a name).mp hp⟩
  · cases ha

/-- What `eval_stmt_let` leaves when it declares `name` with the value `w` in
an environment whose top frame `s` holds no live variable of that name: the
lookup of `name` finds the new slot in the top frame, and the identifier
evaluates to `w`. -/
theorem let_declares {D : Type} (e : env_t D) (s : scope_t D) (idx? : Option Nat)
    (name : String) (w : value_t D) (hs : e.top = some s)
    (hwf : s.vars_count ≤ s.vars.length)
    (hscan : let_scan name (s.vars.take s.vars_count) 0 none = some idx?) :
    env_get_var (e.set_top (let_frame s idx? name w)) name
        = some (e.scope - 1, idx?.getD s.vars_count) ∧
      (e.set_top (let_frame s idx? name w)).var_at (e.scope - 1, idx?.getD s.vars_count)
        = some { name := some name, val := some w } ∧
      eval_expr_id (e.set_top (let_frame s idx? name w)) name
        = .ok w (e.set_top (let_frame s idx? name w)) := by
  obtain ⟨h1, h2, _, _⟩ := let_frame_slot s idx? name w hwf hscan
  have ht := top_set_top e s (let_frame s idx? name w) hs
  have hg := env_get_var_top _ _ name _ ht h2
  have hsc : (e.set_top (let_frame s idx? name w)).scope = e.scope := rfl
  rw [hsc] at hg
  have hv : (e.set_top (let_frame s idx? name w)).var_at (e.scope - 1, idx?.getD s.vars_count)
      = some { name := some name, val := some w } := by
    rw [top_eq_some, hsc] at ht
    simp only [env_t.var_at, ht.2, h1]
  refine ⟨hg, hv, ?_⟩
  simp only [eval_expr_id, hg, hv]

/-- Redeclaration, frame by frame.  In an environment whose top frame is `s`:
a let of `x` ends with the `redeclared` error, in the unchanged environment,
when a live slot of `s` has the name `x`, whatever its initializer and its
chain are; when no live slot of `s` has the name `x` (other frames, and the
slots of `s` past its count, may) it returns, and afterwards `x` resolves to a
variable of the top frame that holds the initial value, Nil without an
initializer.  The second case is that of every frame just begun: there `let`
succeeds whatever the frame held at its last use. -/
theorem redeclaration_by_frame {D : Type} [double_ops D] (n : Nat) (e : env_t D) (s : scope_t D)
    (x : String) (hs : e.top = some s) :
    ((∃ v ∈ s.vars.take s.vars_count, v.name = some x) →
      ∀ val next, eval_stmt_let (n + 1) e (.mk x val next)
        = .halt (.error ("Variable '" ++ x ++ "' redeclared")) e) ∧
    ((∀ v ∈ s.vars.take s.vars_count, v.name ≠ some x) → s.vars_count ≤ s.vars.length →
      ∀ w, ∃ e' i,
        eval_stmt_let (n + 2) e (.mk x (some (.val w)) none) = .ok () e' ∧
        env_get_var e' x = some (e.scope - 1, i) ∧ eval_expr_id e' x = .ok w e' ∧
        e'.scope = e.scope) ∧
    ((∀ v ∈ s.vars.take s.vars_count, v.name ≠ some x) → s.vars_count ≤ s.vars.length →
      ∃ e' i,
        eval_stmt_let (n + 1) e (.mk x none none) = .ok () e' ∧
        env_get_var e' x = some (e.scope - 1, i) ∧ eval_expr_id e' x = .ok .nil e' ∧
        e'.scope = e.scope) ∧
    (∀ e1, env_scope_begin e = .ok () e1 →
      ∀ w, ∃ e' i,
        eval_stmt_let (n + 2) e1 (.mk x (some (.val w)) none) = .ok () e' ∧
        env_get_var e' x = some (e.scope, i) ∧ eval_expr_id e' x = .ok w e' ∧
        e'.scope = e.scope + 1) := by
  have hok : ∀ (e : env_t D) (s : scope_t D), e.top = some s →
      (∀ v ∈ s.vars.take s.vars_count, v.name ≠ some x) →
      ∃ idx?, let_scan x (s.vars.take s.vars_count) 0 none = some idx? := by
    intro e s _ hfree
    cases hsc : let_scan x (s.vars.take s.vars_count) 0 none with
    | none =>
      obtain ⟨v, hv, hn⟩ := (let_scan_eq_none x _ 0 none).mp hsc
      exact absurd hn (hfree v hv)
    | some r => exact ⟨r, rfl⟩
  refine ⟨?_, ?_, ?_, ?_⟩
  · intro hlive val next
    have := (let_scan_eq_none x (s.vars.take s.vars_count) 0 none).mpr hlive
    simp only [eval_stmt_let, hs, this]
  · intro hfree hwf w
    obtain ⟨idx?, hscan⟩ := hok e s hs hfree
    obtain ⟨h1, _, h3⟩ := let_declares e s idx? x w hs hwf hscan
    exact ⟨_, _, eval_stmt_let_literal n e s x w idx? hs hscan, h1, h3, rfl⟩
  · intro hfree hwf
    obtain ⟨idx?, hscan⟩ := hok e s hs hfree
    obtain ⟨h1, _, h3⟩ := let_declares e s idx? x .nil hs hwf hscan
    exact ⟨_, _, eval_stmt_let_no_init n e s x idx? hs hscan, h1, h3, rfl⟩
  · intro e1 hb w
    obtain ⟨s0, hs0, rfl⟩ := env_scope_begin_eq e e1 hb
    have hlt : e.scope < e.scopes.length := (List.getElem?_eq_some.mp hs0).1
    have ht : ({ e with
        scopes := e.scopes.set e.scope { s0 with vars_count := 0, defer_count := 0 },
        scope := e.scope + 1 } : env_t D).top
        = some { s0 with vars_count := 0, defer_count := 0 } := by
      rw [top_eq_some]
      simp [List.getElem?_set, hlt]
    have hscan : let_scan x
        ((({ s0 with vars_count := 0, defer_count := 0 } : scope_t D).vars).take 0) 0 none
        = some none := by
      simp [let_scan]
    obtain ⟨h1, _, h3⟩ := let_declares _ _ none x w ht (Nat.zero_le _) hscan
    exact ⟨_, _, eval_stmt_let_literal n _ _ x w none ht hscan, h1, h3, rfl⟩

theorem findIdx?_congr_map {α : Type} (p : α → Bool) :
    ∀ (l l' : List α) (s : Nat), l.map p = l'.map p → l.findIdx? p s = l'.findIdx? p s := by
  intro l
  induction l with
  | nil =>
    intro l' s h
    cases l' with
    | nil => rfl
    | cons => simp at h
  | cons a l ih =>
    intro l' s h
    cases l' with
    | nil => simp at h
    | cons b l' =>
      simp only [List.map_cons, List.cons.injEq] at h
      rw [List.findIdx?_cons, List.findIdx?_cons, h.1, ih l' (s + 1) h.2]

theorem scope_find_var_set_val {D : Type} (s : scope_t D) (i : Nat) (x0 : var_t D)
    (v : value_t D) (name : String) (h : s.vars[i]? = some x0) :
    scope_find_var { s with vars := s.vars.set i { x0 with val := some v } } name
      = scope_find_var s name := by
  unfold scope_find_var
  apply findIdx?_congr_map
  apply List.ext_getElem?
  intro j
  simp only [List.getElem?_map, List.getElem?_take, List.getElem?_set]
  by_cases hj : j < s.vars_count
  · simp only [hj, if_true]
    by_cases hij : i = j
    · subst hij
      have hlt : i < s.vars.length := (List.getElem?_eq_some.mp h).1
      simp [hlt, h, var_t.has_name]
    · simp [hij]
  · simp [hj]

theorem env_get_var_from_congr_find {D : Type} (scopes scopes' : List (scope_t D))
    (name : String) :
    ∀ k, (∀ j, j < k → (scopes'[j]?).map (fun s => scope_find_var s name)
        = (scopes[j]?).map (fun s => scope_find_var s name)) →
      env_get_var_from scopes' name k = env_get_var_from scopes name k := by
  intro k
  induction k with
  | zero => intro _; rfl
  | succ k ih =>
    intro h
    have hk := h k (Nat.lt_succ_self k)
    have ih' := ih (fun j hj => h j (Nat.lt_succ_of_lt hj))
    unfold env_get_var_from
    cases h1 : scopes'[k]? with
    | none =>
      cases h2 : scopes[k]? with
      | none => rfl
      | some s => simp [h1, h2] at hk
    | some s' =>
      cases h2 : scopes[k]? with
      | none => simp [h1, h2] at hk
      | some s =>
        simp only [h1, h2, Option.map_some', Option.some.injEq] at hk
        simp only [hk, ih']

theorem set_var_val_scopes {D : Type} (e : env_t D) (p : Nat × Nat) (v : value_t D)
    (s : scope_t D) (x0 : var_t D) (hs : e.scopes[p.1]? = some s) (hx : s.vars[p.2]? = some x0) :
    e.set_var_val p v =
      { e with
        scopes := e.scopes.set p.1 { s with vars := s.vars.set p.2 { x0 with val := some v } } } := by
  simp only [env_t.set_var_val, hs, hx]

/-- A store to the value of a variable changes no lookup. -/
theorem env_get_var_set_var_val {D : Type} (e : env_t D) (p : Nat × Nat) (v : value_t D)
    (name : String) : env_get_var (e.set_var_val p v) name = env_get_var e name := by
  unfold env_t.set_var_val
  split
  · rfl
  · rename_i s hs
    split
    · rfl
    · rename_i x0 hx
      unfold env_get_var
      apply env_get_var_from_congr_find
      intro j _
      simp only [List.getElem?_set]
      by_cases hj : p.1 = j
      · subst hj
        have hlt : p.1 < e.scopes.length := (List.getElem?_eq_some.mp hs).1
        simp [hlt, hs, scope_find_var_set_val s p.2 x0 v name hx]
      · simp [hj]

theorem var_at_set_var_val_self {D : Type} (e : env_t D) (p : Nat × Nat) (v : value_t D)
    (x0 : var_t D) (h : e.var_at p = some x0) :
    (e.set_var_val p v).var_at p = some { x0 with val := some v } := by
  unfold env_t.var_at at h
  split at h
  · cases h
  · rename_i s hs
    have hl1 : p.1 < e.scopes.length := (List.getElem?_eq_some.mp hs).1
    have hl2 : p.2 < s.vars.length := (List.getElem?_eq_some.mp h).1
    rw [set_var_val_scopes e p v s x0 hs h]
    simp [env_t.var_at, List.getElem?_set, hl1, hl2]

theorem var_at_set_var_val_frame {D : Type} (e : env_t D) (p q : Nat × Nat) (v : value_t D)
    (h : q.1 ≠ p.1) : (e.set_var_val p v).var_at q = e.var_at q := by
  unfold env_t.set_var_val
  split
  · rfl
  · split
    · rfl
    · have : ¬ p.1 = q.1 := fun h' => h h'.symm
      simp [env_t.var_at, List.getElem?_set, this]

/-- `eval_expr_bin_op_assign` on a variable found with a value of the same
variant: the value is stored through the pointer `env_get_var` returned. -/
theorem eval_expr_bin_op_assign_ok {D : Type} (e : env_t D) (name : String) (p : Nat × Nat)
    (var : var_t D) (old val : value_t D) (hp : env_get_var e name = some p)
    (hv : e.var_at p = some var) (ho : var.val = some old) (ht : val.type = old.type) :
    eval_expr_bin_op_assign e name val = .ok val (e.set_var_val p val) := by
  simp [eval_expr_bin_op_assign, hp, hv, ho, ht]

/-- `env_scope_end` on a frame with no defer registered only moves
`e->scope`. -/
theorem env_scope_end_no_defer {D : Type} [double_ops D] (n : Nat) (e : env_t D)
    (s : scope_t D) (hs : e.top = some s) (hd : s.defer_count = 0) :
    env_scope_end (n + 2) e = .ok () { e with scope := e.scope - 1 } := by
  simp [env_scope_end, hs, hd, env_scope_end_loop]

theorem set_top_scopes_ne {D : Type} (e : env_t D) (s : scope_t D) (j : Nat)
    (h : j ≠ e.scope - 1) : (e.set_top s).scopes[j]? = e.scopes[j]? := by
  have : ¬ e.scope - 1 = j := fun h' => h h'.symm
  simp [env_t.set_top, List.getElem?_set, this]

theorem set_var_val_scopes_ne {D : Type} (e : env_t D) (p : Nat × Nat) (v : value_t D) (j : Nat)
    (h : j ≠ p.1) : (e.set_var_val p v).scopes[j]? = e.scopes[j]? := by
  unfold env_t.set_var_val
  split
  · rfl
  · split
    · rfl
    · have : ¬ p.1 = j := fun h' => h h'.symm
      simp [List.getElem?_set, this]

theorem set_var_val_top {D : Type} (e : env_t D) (p : Nat × Nat) (v : value_t D)
    (s : scope_t D) (h : e.top = some s) :
    ∃ s', (e.set_var_val p v).top = some s' ∧ s'.defer_count = s.defer_count ∧
      s'.defer = s.defer := by
  have hc := set_var_val_same_control e p v
  rw [top_eq_some] at h
  unfold env_t.set_var_val at hc ⊢
  split
  · exact ⟨s, (top_eq_some _ _).mpr h, rfl, rfl⟩
  · rename_i s1 hs1
    split
    · exact ⟨s, (top_eq_some _ _).mpr h, rfl, rfl⟩
    · rename_i x0 hx0
      have hl : p.1 < e.scopes.length := (List.getElem?_eq_some.mp hs1).1
      by_cases hp : p.1 = e.scope - 1
      · rw [hp] at hs1 hl
        rw [h.2] at hs1
        injection hs1 with hs1
        subst hs1
        refine ⟨{ s with vars := s.vars.set p.2 { x0 with val := some v } },
          (top_eq_some _ _).mpr ⟨h.1, ?_⟩, rfl, rfl⟩
        simp only [hp, List.getElem?_set, hl, if_true]
      · refine ⟨s, (top_eq_some _ _).mpr ⟨h.1, ?_⟩, rfl, rfl⟩
        simp only [List.getElem?_set, hp, if_false]
        exact h.2

/-- `redeclaration_by_frame` at `env_x`, whose top frame holds `x`: `let x` is
rejected, `let y = 1` is accepted, and so is `let x = 1` in a scope begun on
top of it, although the frame of that scope held an `x` at its last use. -/
theorem redeclaration_by_frame_witness :
    env_x.top = some frame_x ∧
    eval_stmt_let 1 env_x (.mk "x" none none)
      = .halt (.error "Variable 'x' redeclared") env_x ∧
    (∃ e' i,
      eval_stmt_let 2 env_x (.mk "y" (some (.val (.num 1))) none) = .ok () e' ∧
      env_get_var e' "y" = some (env_x.scope - 1, i) ∧ eval_expr_id e' "y" = .ok (.num 1) e' ∧
      e'.scope = env_x.scope) ∧
    (∃ e' i,
      eval_stmt_let 2 env_x_inner (.mk "x" (some (.val (.num 1))) none) = .ok () e' ∧
      env_get_var e' "x" = some (env_x.scope, i) ∧ eval_expr_id e' "x" = .ok (.num 1) e' ∧
      e'.scope = env_x.scope + 1) :=
  ⟨rfl,
    (redeclaration_by_frame 0 env_x frame_x "x" rfl).1
      ⟨{ name := some "x", val := some (.num 6) }, by simp [frame_x], rfl⟩ none none,
    (redeclaration_by_frame 0 env_x frame_x "y" rfl).2.1 (by decide) (by decide) (.num 1),
    (redeclaration_by_frame 0 env_x frame_x "x" rfl).2.2.2 env_x_inner rfl (.num 1)⟩

/-! ## Executions without a return statement -/

theorem no_return_kept_refl {D : Type} (base : Nat) (e : env_t D)
    (h : defers_no_return base e) : no_return_kept base 0 e e :=
  ⟨rfl, h, Or.inl rfl, id, fun _ s _ hs => ⟨s, hs, Nat.le_refl _⟩⟩

theorem no_return_kept_trans {D : Type} (base m : Nat) (e e1 e2 : env_t D)
    (h1 : no_return_kept base 0 e e1) (h2 : no_return_kept base m e1 e2) :
    no_return_kept base m e e2 := by
  refine ⟨?_, h2.defers, ?_, fun h => h1.returning (h2.returning h), ?_⟩
  · have := h1.scope; have := h2.scope; omega
  · rcases h2.ret with h | h
    · rw [h]; exact h1.ret
    · exact Or.inr h
  · intro k s hk hs
    have hs1 := h1.scope
    have hs2 := h2.scope
    obtain ⟨s1, hs1', hc1⟩ := h1.counts k s (by omega) hs
    obtain ⟨s2, hs2', hc2⟩ := h2.counts k s1 hk hs1'
    exact ⟨s2, hs2', Nat.le_trans hc1 hc2⟩

theorem no_return_kept_of_same {D : Type} (base : Nat) (e e' : env_t D)
    (hd : defers_no_return base e) (hs : e'.scope = e.scope) (hr : e'.return_ = e.return_)
    (hg : e'.returning = e.returning) (hf : frames_same_defers e e') :
    no_return_kept base 0 e e' := by
  refine ⟨hs, ?_, Or.inl hr, fun h => hg ▸ h, ?_⟩
  · intro k s i d hk hk' hsk hi hdi
    have h := hf k
    rw [hsk] at h
    cases h2 : e.scopes[k]? with
    | none => simp [h2] at h
    | some s0 =>
      simp only [h2, Option.map_some', Option.some.injEq, Prod.mk.injEq] at h
      exact hd k s0 i d hk (hs ▸ hk') h2 (h.2 ▸ hi) (h.1 ▸ hdi)
  · intro k s _ hsk
    have h := hf k
    rw [hsk] at h
    cases h2 : e'.scopes[k]? with
    | none => simp [h2] at h
    | some s0 =>
      simp only [h2, Option.map_some', Option.some.injEq, Prod.mk.injEq] at h
      exact ⟨s0, rfl, Nat.le_of_eq h.2.symm⟩

theorem frames_same_defers_refl {D : Type} (e : env_t D) : frames_same_defers e e :=
  fun _ => rfl

theorem frames_same_defers_set_top {D : Type} (e : env_t D) (s s' : scope_t D)
    (hs : e.top = some s) (hd : s'.defer = s.defer) (hc : s'.defer_count = s.defer_count) :
    frames_same_defers e (e.set_top s') := by
  intro k
  rw [top_eq_some] at hs
  simp only [env_t.set_top, List.getElem?_set]
  by_cases hk : e.scope - 1 = k
  · subst hk
    have hl : e.scope - 1 < e.scopes.length := (List.getElem?_eq_some.mp hs.2).1
    simp [hl, hs.2, hd, hc]
  · simp [hk]

theorem frames_same_defers_set_var_val {D : Type} (e : env_t D) (p : Nat × Nat)
    (v : value_t D) : frames_same_defers e (e.set_var_val p v) := by
  intro k
  unfold env_t.set_var_val
  split
  · rfl
  · rename_i s hs
    split
    · rfl
    · simp only [List.getElem?_set]
      by_cases hk : p.1 = k
      · subst hk
        have hl : p.1 < e.scopes.length := (List.getElem?_eq_some.mp hs).1
        simp [hl, hs]
      · simp [hk]

theorem bin_op_assigning_frames {D : Type} [double_ops D] (t : bin_op_type_t)
    (e e' : env_t D) (name : String) (val v : value_t D)
    (h : bin_op_assigning t e name val = .ok v e') : frames_same_defers e e' := by
  have hu : ∀ (op : String) (f : D → D → D),
      eval_expr_bin_op_update op f e name val = .ok v e' → frames_same_defers e e' := by
    intro op f h
    unfold eval_expr_bin_op_update at h
    repeat' split at h
    all_goals
      cases h
      try exact frames_same_defers_set_var_val _ _ _
  unfold bin_op_assigning at h
  split at h
  · unfold eval_expr_bin_op_assign at h
    repeat' split at h
    all_goals
      cases h
      try exact frames_same_defers_set_var_val _ _ _
  · exact hu _ _ h
  · exact hu _ _ h
  · exact hu _ _ h
  · unfold eval_expr_bin_op_xdec at h
    repeat' split at h
    all_goals
      cases h
      try exact frames_same_defers_set_var_val _ _ _

theorem no_return_kept_assigning {D : Type} [double_ops D] (base : Nat) (t : bin_op_type_t)
    (e e' : env_t D) (name : String) (val v : value_t D)
    (hd : defers_no_return base e) (h : bin_op_assigning t e name val = .ok v e') :
    no_return_kept base 0 e e' := by
  have hc := bin_op_assigning_same_control t e e' name val v h
  exact no_return_kept_of_same base e e' hd hc.1 hc.2.2.1 hc.2.1 (bin_op_assigning_frames t e e' name val v h)

theorem no_return_kept_begin {D : Type} (base : Nat) (e e1 : env_t D)
    (hd : defers_no_return base e) (h : env_scope_begin e = .ok () e1) :
    e1.scope = e.scope + 1 ∧ defers_no_return base e1 ∧ e1.return_ = e.return_ ∧
      e1.returning = e.returning ∧ (∀ k, k < e.scope → e1.scopes[k]? = e.scopes[k]?) ∧
      ∃ s1, e1.top = some s1 ∧ s1.defer_count = 0 := by
  obtain ⟨s0, hs0, rfl⟩ := env_scope_begin_eq e e1 h
  have hlt : e.scope < e.scopes.length := (List.getElem?_eq_some.mp hs0).1
  refine ⟨rfl, ?_, rfl, rfl, ?_, ⟨{ s0 with vars_count := 0, defer_count := 0 }, ?_, rfl⟩⟩
  · intro k s i d hk hk' hsk hi hdi
    simp only [List.getElem?_set] at hsk
    by_cases hke : e.scope = k
    · subst hke
      simp only [if_true, hlt] at hsk
      injection hsk with hsk
      subst hsk
      simp at hi
    · simp only [hke, if_false] at hsk
      simp only at hk'
      exact hd k s i d hk (by omega) hsk hi hdi
  · intro k hk
    have : ¬ e.scope = k := by omega
    simp [List.getElem?_set, this]
  · rw [top_eq_some]
    simp [List.getElem?_set, hlt]

theorem no_return_kept_defer {D : Type} (base : Nat) (e e1 : env_t D) (d : List (stmt_t D))
    (hd : defers_no_return base e) (hn : stmts_no_return d)
    (h : eval_stmt_defer e d = .ok () e1) : no_return_kept base 0 e e1 := by
  unfold eval_stmt_defer at h
  split at h
  · cases h
  · rename_i s hs
    cases h
    have hs' := (top_eq_some _ _).mp hs
    have hl : e.scope - 1 < e.scopes.length := (List.getElem?_eq_some.mp hs'.2).1
    refine ⟨rfl, ?_, Or.inl rfl, id, ?_⟩
    · intro k s1 i d1 hk hk' hsk hi hdi
      simp only [env_t.set_top, List.getElem?_set] at hsk
      by_cases hke : e.scope - 1 = k
      · subst hke
        simp only [if_true, hl] at hsk
        injection hsk with hsk
        subst hsk
        simp only at hi hdi
        by_cases hic : i = s.defer_count
        · subst hic
          unfold buf_write at hdi
          split at hdi
          · rename_i hlt
            rw [List.getElem?_set_self hlt] at hdi
            injection hdi with hdi
            subst hdi
            exact hn
          · rename_i hlt
            by_cases hle : s.defer_count = s.defer.length
            · rw [hle] at hdi
              simp at hdi
              subst hdi
              exact hn
            · rw [List.getElem?_eq_none (by simp; omega)] at hdi
              cases hdi
        · have hlt : i < s.defer_count := by omega
          unfold buf_write at hdi
          split at hdi
          · rw [List.getElem?_set_ne (by omega)] at hdi
            exact hd _ s i d1 hk hk' hs'.2 hlt hdi
          · rename_i hge
            by_cases hil : i < s.defer.length
            · rw [List.getElem?_append_left hil] at hdi
              exact hd _ s i d1 hk hk' hs'.2 hlt hdi
            · rw [List.getElem?_append_right (by omega)] at hdi
              have : i - s.defer.length < 1 := by
                by_contra hcon
                rw [List.getElem?_eq_none (by simp; omega)] at hdi
                cases hdi
              have h0 : i - s.defer.length = 0 := by omega
              rw [h0] at hdi
              simp only [List.getElem?_cons_zero, Option.some.injEq] at hdi
              subst hdi
              exact hn
      · simp only [hke, if_false] at hsk
        exact hd k s1 i d1 hk hk' hsk hi hdi
    · intro k s1 _ hsk
      simp only [env_t.set_top, List.getElem?_set]
      by_cases hke : e.scope - 1 = k
      · subst hke
        rw [hs'.2] at hsk
        injection hsk with hsk
        subst hsk
        simp [hl]
      · simp [hke, hsk]

theorem no_return_kept_pop {D : Type} (base : Nat) (e : env_t D) (hb : base < e.scope)
    (hd : defers_no_return base e) :
    no_return_kept base 1 e { e with scope := e.scope - 1 } := by
  refine ⟨by simp only; omega, ?_, Or.inl rfl, id, fun _ s _ hs => ⟨s, hs, Nat.le_refl _⟩⟩
  intro k s i d hk hk' hsk hi hdi
  simp only at hk' hsk
  exact hd k s i d hk (by omega) hsk hi hdi

theorem no_return_kept_pre {D : Type} {base m : Nat} {e e' : env_t D}
    (h : no_return_kept base m e e') (hb : base + m ≤ e.scope) :
    base ≤ e'.scope ∧ defers_no_return base e' :=
  ⟨by have := h.scope; omega, h.defers⟩

theorem no_return_kept_streams {D : Type} (base : Nat) (e : env_t D) (out : String)
    (inp : List Char) (hd : defers_no_return base e) :
    no_return_kept base 0 e { e with stdout := out, stdin := inp } :=
  no_return_kept_of_same base e _ hd rfl rfl rfl (fun _ => rfl)

theorem no_return_kept_print {D : Type} (base : Nat) (e : env_t D) (s : String)
    (hd : defers_no_return base e) : no_return_kept base 0 e (e.print s) :=
  no_return_kept_of_same base e _ hd rfl rfl rfl (fun _ => rfl)

theorem no_return_kept_enter {D : Type} (base : Nat) (e : env_t D)
    (hd : defers_no_return base e) :
    no_return_kept base 0 e { e with returns := e.returns + 1, return_ := .nil } :=
  ⟨rfl, hd, Or.inr rfl, id, fun _ s _ hs => ⟨s, hs, Nat.le_refl _⟩⟩

theorem no_return_kept_leave {D : Type} (base : Nat) (e : env_t D)
    (hd : defers_no_return base e) :
    no_return_kept base 0 e
      { e with returning := if e.returning = true then false else e.returning,
               returns := e.returns - 1 } := by
  refine ⟨rfl, hd, Or.inl rfl, ?_, fun _ s _ hs => ⟨s, hs, Nat.le_refl _⟩⟩
  simp only
  cases e.returning <;> simp

/-- A block: a scope is begun, what is executed in it leaves `e->scope` where
it was, and the scope is ended. -/
theorem no_return_kept_block {D : Type} (base : Nat) (e e1 e2 e3 : env_t D)
    (hs1 : e1.scope = e.scope + 1) (hr1 : e1.return_ = e.return_)
    (hg1 : e1.returning = e.returning)
    (hf1 : ∀ k, k < e.scope → e1.scopes[k]? = e.scopes[k]?)
    (h12 : no_return_kept base 0 e1 e2) (h23 : no_return_kept base 1 e2 e3) :
    no_return_kept base 0 e e3 := by
  have h13 := no_return_kept_trans base 1 e1 e2 e3 h12 h23
  refine ⟨?_, h13.defers, ?_, ?_, ?_⟩
  · have := h13.scope; omega
  · rw [← hr1]; exact h13.ret
  · rw [← hg1]; exact h13.returning
  · intro k s hk hsk
    have := h13.scope
    exact h13.counts k s hk (by rw [hf1 k (by omega)]; exact hsk)

/-- `builtin_panic` does not return. -/
theorem builtin_panic_sat {D : Type} [double_ops D] :
    ∀ (n : Nat) (e : env_t D) (a : List (expr_t D)),
      (builtin_panic n e a).sat fun _ _ => False := by
  intro n
  induction n with
  | zero => intro e a; simp [builtin_panic]
  | succ n ih =>
    intro e a
    cases a with
    | nil => simp [builtin_panic]
    | cons arg args =>
      simp only [builtin_panic, res.sat_bind, res.sat_of_except]
      intro v e1 _ s _
      exact ih e1 args

theorem evaluator_no_return_zero {D : Type} [double_ops D] (base : Nat) :
    @evaluator_no_return D _ 0 base := by
  constructor <;> intros <;>
    simp [eval_expr, eval_expr_bin_op, eval_expr_un_op, builtin_print, builtin_panic,
      eval_expr_call, eval_with_return, eval_expr_do, env_scope_end, env_scope_end_loop,
      eval_stmt_let, eval_stmt_if, eval_stmt_while, eval_stmt_while_loop, eval_stmt_for,
      eval_stmt_for_loop, eval_stmt_return, eval]

theorem evaluator_no_return_succ {D : Type} [double_ops D] (base n : Nat)
    (ih : @evaluator_no_return D _ n base) : @evaluator_no_return D _ (n + 1) base := by
  have tr := @no_return_kept_trans D base
  constructor
  · -- eval_expr
    intro e x hx hb hd
    cases hx with
    | call name args h => simpa only [eval_expr] using ih.call e name args h hb hd
    | id name =>
      simp only [eval_expr]
      exact res.sat_mono (eval_expr_id_sat e name) fun _ e' h =>
        h ▸ no_return_kept_refl base e hd
    | do_ body h =>
      simp only [eval_expr]
      exact res.sat_mono (ih.do_ e body h hb hd) fun _ _ h => h.1
    | fun_ addr => simpa only [eval_expr, res.sat_ok] using no_return_kept_refl base e hd
    | val v => simpa only [eval_expr, res.sat_ok] using no_return_kept_refl base e hd
    | bin_op t l r hl hr => simpa only [eval_expr] using ih.bin_op e t l r hl hr hb hd
    | un_op t x h => simpa only [eval_expr] using ih.un_op e t x h hb hd
  · -- eval_expr_bin_op
    intro e t l r hl hr hb hd
    simp only [eval_expr_bin_op]
    split
    · split
      · simp only [res.sat_bind]
        refine res.sat_mono (ih.expr e _ hr hb hd) fun v e1 h1 => ?_
        intro v' e' h
        exact tr 0 _ _ _ h1 (no_return_kept_assigning base _ _ _ _ _ _ h1.defers h)
      · simp
    · simp only [res.sat_bind, res.sat_of_except]
      refine res.sat_mono (ih.expr e _ hl hb hd) fun v e1 h1 => ?_
      have p1 := no_return_kept_pre h1 hb
      refine res.sat_mono (ih.expr e1 _ hr p1.1 p1.2) fun v e2 h2 => ?_
      intro _ _
      exact tr 0 _ _ _ h1 h2
  · -- eval_expr_un_op
    intro e t x hx hb hd
    simp only [eval_expr_un_op, res.sat_bind, res.sat_of_except]
    refine res.sat_mono (ih.expr e _ hx hb hd) fun v e1 h1 => ?_
    intro _ _
    exact h1
  · -- builtin_print
    intro e a i ha hb hd
    cases a with
    | nil => simpa only [builtin_print, res.sat_ok] using no_return_kept_refl base e hd
    | cons arg args =>
      simp only [builtin_print, res.sat_bind, res.sat_of_except]
      have h0 : no_return_kept base 0 e (if i > 0 then e.print " " else e) := by
        split
        · exact no_return_kept_print base e _ hd
        · exact no_return_kept_refl base e hd
      have p0 := no_return_kept_pre h0 hb
      refine res.sat_mono (ih.expr _ _ (ha arg (List.mem_cons_self _ _)) p0.1 p0.2)
        fun v e1 h1 => ?_
      intro s _
      have h01 := tr 0 _ _ _ h0 h1
      have h2 := tr 0 _ _ _ h01 (no_return_kept_print base e1 s h1.defers)
      have p2 := no_return_kept_pre h2 hb
      refine res.sat_mono
        (ih.print _ args _ (fun x hx => ha x (List.mem_cons_of_mem _ hx)) p2.1 p2.2)
        fun _ e2 h3 => ?_
      exact tr 0 _ _ _ h2 h3
  · -- eval_expr_call
    intro e f a ha hb hd
    simp only [eval_expr_call]
    split_ifs
    · simp only [res.sat_bind, res.sat_ok]
      exact res.sat_mono (ih.print _ _ _ ha hb hd) fun _ e1 h1 =>
        tr 0 _ _ _ h1 (no_return_kept_print base e1 _ h1.defers)
    · exact ih.print _ _ _ ha hb hd
    · split
      · rename_i arg
        simp only [res.sat_bind]
        refine res.sat_mono (ih.expr _ _ (ha arg (List.mem_singleton_self _)) hb hd)
          fun v e1 h1 => ?_
        split <;> simp [h1]
      · simp
    · simp only [res.sat_bind, res.sat_ok]
      exact res.sat_mono (ih.print _ _ _ ha hb hd) fun _ e1 h1 =>
        tr 0 _ _ _ h1 (no_return_kept_streams base e1 _ _ h1.defers)
    · simp only [res.sat_bind, res.sat_ok]
      exact res.sat_mono (ih.print _ _ _ ha hb hd) fun _ e1 h1 =>
        tr 0 _ _ _ h1 (no_return_kept_streams base e1 _ _ h1.defers)
    · exact res.sat_mono (builtin_panic_sat n e a) fun _ _ h => h.elim
    · split
      · rename_i arg
        simp only [res.sat_bind]
        refine res.sat_mono (ih.expr _ _ (ha arg (List.mem_singleton_self _)) hb hd)
          fun v e1 h1 => ?_
        split <;> simp
      · simp
    · simp
  · -- eval_with_return
    intro e s hs hb hd
    simp only [eval_with_return, res.sat_bind, res.sat_ok]
    have h0 := no_return_kept_enter base e hd
    have p0 := no_return_kept_pre h0 hb
    refine res.sat_mono (ih.stmts _ _ hs p0.1 p0.2) fun _ e1 h1 => ?_
    refine ⟨tr 0 _ _ _ (tr 0 _ _ _ h0 h1) (no_return_kept_leave base e1 h1.defers), ?_⟩
    rcases h1.ret with h | h <;> simpa using h
  · -- eval_expr_do
    intro e s hs hb hd
    simp only [eval_expr_do, res.sat_bind, res.sat_ok]
    intro _ e1 hbeg
    obtain ⟨hs1, hd1, hr1, hg1, hf1, _⟩ := no_return_kept_begin base e e1 hd hbeg
    refine res.sat_mono (ih.with_return _ _ hs (by omega) hd1) fun v e2 h2 => ?_
    have hsc2 := h2.1.scope
    refine res.sat_mono (ih.scope_end e2 (by omega) h2.1.defers) fun _ e3 h3 => ?_
    exact ⟨no_return_kept_block base e e1 e2 e3 hs1 hr1 hg1 hf1 h2.1 h3, h2.2⟩
  · -- env_scope_end
    intro e hb hd
    simp only [env_scope_end]
    split
    · simp
    · rename_i s hs
      exact ih.scope_end_loop e _ s hb hd hs (Nat.le_refl _)
  · -- env_scope_end_loop
    intro e i s hb hd hs hi
    cases i with
    | zero =>
      simpa only [env_scope_end_loop, res.sat_ok] using no_return_kept_pop base e hb hd
    | succ i =>
      simp only [env_scope_end_loop, hs]
      split
      · simp
      · rename_i d hdi
        simp only [res.sat_bind]
        have hs' := (top_eq_some _ _).mp hs
        have hnd : stmts_no_return d :=
          hd (e.scope - 1) s i d (by omega) (by omega) hs'.2 (by omega) hdi
        refine res.sat_mono (ih.stmts e d hnd (by omega) hd) fun _ e1 h1 => ?_
        have hsc := h1.scope
        obtain ⟨s1, hs1, hc1⟩ := h1.counts (e.scope - 1) s (by omega) hs'.2
        have ht1 : e1.top = some s1 := by
          rw [top_eq_some]
          have : e1.scope = e.scope := by omega
          rw [this]
          exact ⟨hs'.1, hs1⟩
        refine res.sat_mono
          (ih.scope_end_loop e1 i s1 (by omega) h1.defers ht1 (by omega)) fun _ e2 h2 => ?_
        exact tr 1 _ _ _ h1 h2
  · -- eval_stmt_let
    intro e l hl hb hd
    cases hl with
    | mk name val next hval hnext =>
      simp only [eval_stmt_let]
      split
      · simp
      · rename_i s hs
        split
        · simp
        · rename_i idx hidx
          have hc : no_return_kept base 0 e (let_claim e s idx name) :=
            no_return_kept_of_same base e _ hd rfl rfl rfl
              (frames_same_defers_set_top e s _ hs rfl rfl)
          have pc := no_return_kept_pre hc hb
          simp only [res.sat_bind]
          have hinit : (match val with
              | none => res.ok value_t.nil (let_claim e s idx name)
              | some x => eval_expr n (let_claim e s idx name) x).sat
              fun _ e2 => no_return_kept base 0 e e2 := by
            split
            · simpa only [res.sat_ok] using hc
            · rename_i x
              exact res.sat_mono (ih.expr _ _ (hval x rfl) pc.1 pc.2) fun _ e2 h2 =>
                tr 0 _ _ _ hc h2
          refine res.sat_mono hinit fun v e2 h2 => ?_
          split
          · simp
          · split
            · simp
            · rename_i s2 hs2
              have hw : no_return_kept base 0 e2
                  (e2.set_top { s2 with vars := scope_set_val s2 (idx.getD s.vars_count) v }) :=
                no_return_kept_of_same base e2 _ h2.defers rfl rfl rfl
                  (frames_same_defers_set_top e2 s2 _ hs2 rfl rfl)
              have h3 := tr 0 _ _ _ h2 hw
              have p3 := no_return_kept_pre h3 hb
              split
              · simpa only [res.sat_ok] using h3
              · rename_i l'
                exact res.sat_mono (ih.let_ _ _ (hnext l' rfl) p3.1 p3.2) fun _ e3 h4 =>
                  tr 0 _ _ _ h3 h4
  · -- eval_stmt_if
    intro e i hi hb hd
    cases hi with
    | mk cond body next else_ hcond hbody hnext helse =>
      simp only [eval_stmt_if, res.sat_bind]
      intro _ e1 hbeg
      obtain ⟨hs1, hd1, hr1, hg1, hf1, _⟩ := no_return_kept_begin base e e1 hd hbeg
      refine res.sat_mono (ih.expr _ _ hcond (by omega) hd1) fun c e2 h2 => ?_
      have p2 := no_return_kept_pre h2 (by omega : base + 0 ≤ e1.scope)
      have cont : ∀ e3, no_return_kept base 0 e2 e3 →
          (env_scope_end n e3).sat fun _ e' => no_return_kept base 0 e e' := by
        intro e3 h3
        have h13 := tr 0 _ _ _ h2 h3
        have hsc := h13.scope
        refine res.sat_mono (ih.scope_end e3 (by omega) h13.defers) fun _ e4 h4 => ?_
        exact no_return_kept_block base e e1 e3 e4 hs1 hr1 hg1 hf1 h13 h4
      split
      · simp only [res.sat_bind]
        split
        · exact res.sat_mono (ih.stmts _ _ hbody p2.1 p2.2) fun _ e3 h3 => cont e3 h3
        · split
          · rename_i i'
            exact res.sat_mono (ih.if_ _ _ (hnext i' rfl) p2.1 p2.2) fun _ e3 h3 => cont e3 h3
          · exact res.sat_mono (ih.stmts _ _ helse p2.1 p2.2) fun _ e3 h3 => cont e3 h3
      · simp
  · -- eval_stmt_while
    intro e c b hc hbd hb hd
    simp only [eval_stmt_while, res.sat_bind]
    intro _ e1 hbeg
    obtain ⟨hs1, hd1, hr1, hg1, hf1, _⟩ := no_return_kept_begin base e e1 hd hbeg
    refine res.sat_mono (ih.while_loop _ _ _ hc hbd (by omega) hd1) fun _ e2 h2 => ?_
    have hsc := h2.scope
    refine res.sat_mono (ih.scope_end e2 (by omega) h2.defers) fun _ e3 h3 => ?_
    exact no_return_kept_block base e e1 e2 e3 hs1 hr1 hg1 hf1 h2 h3
  · -- eval_stmt_while_loop
    intro e c b hc hbd hb hd
    simp only [eval_stmt_while_loop, res.sat_bind]
    refine res.sat_mono (ih.expr _ _ hc hb hd) fun v e1 h1 => ?_
    have p1 := no_return_kept_pre h1 hb
    split
    · split
      · simp only [res.sat_bind]
        refine res.sat_mono (ih.stmts _ _ hbd p1.1 p1.2) fun _ e2 h2 => ?_
        have h02 := tr 0 _ _ _ h1 h2
        have p2 := no_return_kept_pre h02 hb
        split
        · simpa only [res.sat_ok] using h02
        · exact res.sat_mono (ih.while_loop _ _ _ hc hbd p2.1 p2.2) fun _ e3 h3 =>
            tr 0 _ _ _ h02 h3
      · simpa only [res.sat_ok] using h1
    · simp
  · -- eval_stmt_for
    intro e i c s b hi hc hs hbd hb hd
    simp only [eval_stmt_for, res.sat_bind]
    intro _ e1 hbeg
    obtain ⟨hs1, hd1, hr1, hg1, hf1, _⟩ := no_return_kept_begin base e e1 hd hbeg
    refine res.sat_mono (ih.stmts _ _ hi (by omega) hd1) fun _ e2 h2 => ?_
    have p2 := no_return_kept_pre h2 (by omega : base + 0 ≤ e1.scope)
    split
    · simp
    · rename_i hret
      simp only [res.sat_bind]
      refine res.sat_mono
        (ih.for_loop _ _ _ _ hc hs hbd p2.1 p2.2 (by simpa using hret)) fun _ e3 h3 => ?_
      have h13 := tr 0 _ _ _ h2 h3
      have hsc := h13.scope
      refine res.sat_mono (ih.scope_end e3 (by omega) h13.defers) fun _ e4 h4 => ?_
      exact no_return_kept_block base e e1 e3 e4 hs1 hr1 hg1 hf1 h13 h4
  · -- eval_stmt_for_loop
    intro e c s b hc hs hbd hb hd hret
    simp only [eval_stmt_for_loop, res.sat_bind]
    refine res.sat_mono (ih.expr _ _ hc hb hd) fun v e1 h1 => ?_
    have p1 := no_return_kept_pre h1 hb
    have hret1 : e1.returning = false := by
      cases h : e1.returning with
      | false => rfl
      | true => rw [h1.returning h] at hret; cases hret
    split
    · split
      · simp only [res.sat_bind]
        intro _ e2 hbeg
        obtain ⟨hs2, hd2, hr2, hg2, hf2, _⟩ := no_return_kept_begin base e1 e2 p1.2 hbeg
        refine res.sat_mono (ih.stmts _ _ hbd (by omega) hd2) fun _ e3 h3 => ?_
        have p3 := no_return_kept_pre h3 (by omega : base + 0 ≤ e2.scope)
        have hret3 : ¬ e3.returning = true := by
          intro h
          have := h3.returning h
          rw [hg2, hret1] at this
          cases this
        rw [if_neg hret3]
        simp only [res.sat_bind]
        refine res.sat_mono (ih.stmts _ _ hs p3.1 p3.2) fun _ e4 h4 => ?_
        have h24 := tr 0 _ _ _ h3 h4
        have hsc4 := h24.scope
        split
        · simp
        · simp only [res.sat_bind]
          refine res.sat_mono (ih.scope_end e4 (by omega) h24.defers) fun _ e5 h5 => ?_
          have h15 := no_return_kept_block base e1 e2 e4 e5 hs2 hr2 hg2 hf2 h24 h5
          have h05 := tr 0 _ _ _ h1 h15
          have p5 := no_return_kept_pre h05 hb
          have hret5 : e5.returning = false := by
            cases h : e5.returning with
            | false => rfl
            | true => rw [h05.returning h] at hret; cases hret
          exact res.sat_mono (ih.for_loop _ _ _ _ hc hs hbd p5.1 p5.2 hret5) fun _ e6 h6 =>
            tr 0 _ _ _ h05 h6
      · simpa only [res.sat_ok] using h1
    · simp
  · -- eval
    intro e s hs hb hd
    cases s with
    | nil => simpa only [eval, res.sat_ok] using no_return_kept_refl base e hd
    | cons stmt next =>
      have hnext : stmts_no_return next := fun x hx => hs x (List.mem_cons_of_mem _ hx)
      have hstmt := hs stmt (List.mem_cons_self _ _)
      cases hstmt with
      | expr x hx =>
        simp only [eval, res.sat_bind]
        refine res.sat_mono (ih.expr _ _ hx hb hd) fun _ e1 h1 => ?_
        have p1 := no_return_kept_pre h1 hb
        exact res.sat_mono (ih.stmts _ _ hnext p1.1 p1.2) fun _ e2 h2 => tr 0 _ _ _ h1 h2
      | let_ l hl =>
        simp only [eval, res.sat_bind]
        refine res.sat_mono (ih.let_ _ _ hl hb hd) fun _ e1 h1 => ?_
        have p1 := no_return_kept_pre h1 hb
        exact res.sat_mono (ih.stmts _ _ hnext p1.1 p1.2) fun _ e2 h2 => tr 0 _ _ _ h1 h2
      | if_ i hi =>
        simp only [eval, res.sat_bind]
        refine res.sat_mono (ih.if_ _ _ hi hb hd) fun _ e1 h1 => ?_
        have p1 := no_return_kept_pre h1 hb
        exact res.sat_mono (ih.stmts _ _ hnext p1.1 p1.2) fun _ e2 h2 => tr 0 _ _ _ h1 h2
      | while_ c b hc hbd =>
        simp only [eval, res.sat_bind]
        refine res.sat_mono (ih.while_ _ _ _ hc hbd hb hd) fun _ e1 h1 => ?_
        have p1 := no_return_kept_pre h1 hb
        exact res.sat_mono (ih.stmts _ _ hnext p1.1 p1.2) fun _ e2 h2 => tr 0 _ _ _ h1 h2
      | for_ i c s b hi hc hst hbd =>
        simp only [eval, res.sat_bind]
        refine res.sat_mono (ih.for_ _ _ _ _ _ hi hc hst hbd hb hd) fun _ e1 h1 => ?_
        have p1 := no_return_kept_pre h1 hb
        exact res.sat_mono (ih.stmts _ _ hnext p1.1 p1.2) fun _ e2 h2 => tr 0 _ _ _ h1 h2
      | defer d hdn =>
        simp only [eval, res.sat_bind]
        intro _ e1 hdef
        have h1 := no_return_kept_defer base e e1 d hd hdn hdef
        have p1 := no_return_kept_pre h1 hb
        exact res.sat_mono (ih.stmts _ _ hnext p1.1 p1.2) fun _ e2 h2 => tr 0 _ _ _ h1 h2

theorem evaluator_no_return_all {D : Type} [double_ops D] (base : Nat) :
    ∀ n, @evaluator_no_return D _ n base
  | 0 => evaluator_no_return_zero base
  | n + 1 => evaluator_no_return_succ base n (evaluator_no_return_all base n)

theorem res.le_trans {D : Type} {α : Type} {r1 r2 r3 : res D α} (h1 : r1.le r2)
    (h2 : r2.le r3) : r1.le r3 := by
  rcases h1 with h | h
  · exact Or.inl h
  · subst h; exact h2

theorem res.le_add {D : Type} {α : Type} (f : Nat → res D α)
    (h : ∀ n, (f n).le (f (n + 1))) : ∀ k n, (f n).le (f (n + k))
  | 0, _ => res.le_refl _
  | k + 1, n => res.le_trans (res.le_add f h k n) (h (n + k))

theorem res.le_ok {D : Type} {α : Type} {r r' : res D α} {a : α} {e : env_t D}
    (h : r.le r') (hr : r = .ok a e) : r' = .ok a e := by
  rcases h with h | h
  · rw [h] at hr; cases hr
  · rw [← h]; exact hr

theorem res.le_halt {D : Type} {α : Type} {r r' : res D α} {f : fatal_t} {e : env_t D}
    (h : r.le r') (hr : r = .halt f e) : r' = .halt f e := by
  rcases h with h | h
  · rw [h] at hr; cases hr
  · rw [← h]; exact hr

/-- More fuel gives `eval_expr` the value it returned. -/
theorem eval_expr_fuel {D : Type} [double_ops D] (n k : Nat) (e e' : env_t D) (x : expr_t D)
    (v : value_t D) (h : eval_expr n e x = .ok v e') : eval_expr (n + k) e x = .ok v e' :=
  res.le_ok (res.le_add (fun n => eval_expr n e x)
    (fun n => (evaluator_mono_all D n).expr e x) k n) h

/-- More fuel leaves `eval` the environment it returned with. -/
theorem eval_fuel {D : Type} [double_ops D] (n k : Nat) (e e' : env_t D)
    (s : List (stmt_t D)) (h : eval n e s = .ok () e') : eval (n + k) e s = .ok () e' :=
  res.le_ok (res.le_add (fun n => eval n e s)
    (fun n => (evaluator_mono_all D n).stmts e s) k n) h

/-- More fuel gives `eval_with_return` the value it returned. -/
theorem eval_with_return_fuel {D : Type} [double_ops D] (n k : Nat) (e e' : env_t D)
    (s : List (stmt_t D)) (v : value_t D) (h : eval_with_return n e s = .ok v e') :
    eval_with_return (n + k) e s = .ok v e' :=
  res.le_ok (res.le_add (fun n => eval_with_return n e s)
    (fun n => (evaluator_mono_all D n).with_return e s) k n) h

theorem res.bind_eq_ok {D : Type} {α β : Type} (r : res D α) (k : α → env_t D → res D β)
    (b : β) (e' : env_t D) :
    r.bind k = .ok b e' ↔ ∃ a e1, r = .ok a e1 ∧ k a e1 = .ok b e' := by
  cases r with
  | ok a e =>
    simp only [res.bind_ok]
    constructor
    · intro h; exact ⟨a, e, rfl, h⟩
    · rintro ⟨a', e1, h1, h2⟩
      cases h1
      exact h2
  | halt f e => simp
  | out_of_fuel => simp

/-- The statements of a list up to the first return statement: when they are
executed and return, `eval` goes on with the rest of the list. -/
theorem eval_append {D : Type} [double_ops D] :
    ∀ (pre : List (stmt_t D)) (n m : Nat) (e e1 : env_t D) (rest : List (stmt_t D)),
      (∀ s, s ∈ pre → ∀ x, s ≠ .return_ x) → eval n e pre = .ok () e1 →
      eval (n + m) e (pre ++ rest) = eval (n + m - pre.length) e1 rest := by
  intro pre
  induction pre with
  | nil =>
    intro n m e e1 rest _ h
    cases n with
    | zero => simp [eval] at h
    | succ n =>
      simp only [eval] at h
      cases h
      rfl
  | cons s pre ih =>
    intro n m e e1 rest hpre h
    have hs := hpre s (List.mem_cons_self _ _)
    have hpre' : ∀ s, s ∈ pre → ∀ x, s ≠ .return_ x :=
      fun s hs => hpre s (List.mem_cons_of_mem _ hs)
    cases n with
    | zero => simp [eval] at h
    | succ n =>
      have hn : n + 1 + m = (n + m) + 1 := by omega
      have hl : n + 1 + m - (s :: pre).length = n + m - pre.length := by
        simp only [List.length_cons]; omega
      rw [hn] at hl ⊢
      rw [hl, List.cons_append]
      have mono := evaluator_mono_all D
      cases s with
      | return_ x => exact absurd rfl (hs x)
      | expr x =>
        simp only [eval, res.bind_eq_ok] at h ⊢
        obtain ⟨a, e2, h1, h2⟩ := h
        rw [eval_expr_fuel n m e e2 x a h1, res.bind_ok]
        exact ih n m e2 e1 rest hpre' h2
      | let_ l =>
        simp only [eval, res.bind_eq_ok] at h ⊢
        obtain ⟨a, e2, h1, h2⟩ := h
        rw [res.le_ok (res.le_add (fun n => eval_stmt_let n e l)
          (fun n => (mono n).let_ e l) m n) h1, res.bind_ok]
        exact ih n m e2 e1 rest hpre' h2
      | if_ i =>
        simp only [eval, res.bind_eq_ok] at h ⊢
        obtain ⟨a, e2, h1, h2⟩ := h
        rw [res.le_ok (res.le_add (fun n => eval_stmt_if n e i)
          (fun n => (mono n).if_ e i) m n) h1, res.bind_ok]
        exact ih n m e2 e1 rest hpre' h2
      | while_ c b =>
        simp only [eval, res.bind_eq_ok] at h ⊢
        obtain ⟨a, e2, h1, h2⟩ := h
        rw [res.le_ok (res.le_add (fun n => eval_stmt_while n e c b)
          (fun n => (mono n).while_ e c b) m n) h1, res.bind_ok]
        exact ih n m e2 e1 rest hpre' h2
      | for_ i c st b =>
        simp only [eval, res.bind_eq_ok] at h ⊢
        obtain ⟨a, e2, h1, h2⟩ := h
        rw [res.le_ok (res.le_add (fun n => eval_stmt_for n e i c st b)
          (fun n => (mono n).for_ e i c st b) m n) h1, res.bind_ok]
        exact ih n m e2 e1 rest hpre' h2
      | defer d =>
        simp only [eval, res.bind_eq_ok] at h ⊢
        obtain ⟨a, e2, h1, h2⟩ := h
        rw [h1, res.bind_ok]
        exact ih n m e2 e1 rest hpre' h2

/-- Environments with the same control state are related by `returned_kept`. -/
theorem returned_kept_of_same {D : Type} (e e' : env_t D) (h : same_control e e') :
    returned_kept e e' := by
  obtain ⟨_, h2, h3, _, _, _, h7⟩ := h
  exact ⟨by omega, fun _ => Or.inl h3, fun _ hr => by rw [← h2]; exact hr⟩

/-- The relation `returned_kept` is transitive. -/
theorem returned_kept_trans {D : Type} (e1 e2 e3 : env_t D) (h1 : returned_kept e1 e2)
    (h2 : returned_kept e2 e3) : returned_kept e1 e3 := by
  obtain ⟨m1, r1, g1⟩ := h1
  obtain ⟨m2, r2, g2⟩ := h2
  refine ⟨by omega, fun h => ?_, fun h hr => ?_⟩
  · have h21 : e2.returned = e1.returned := by omega
    have h32 : e3.returned = e2.returned := by omega
    rcases r2 h32 with h | h
    · rw [h]; exact r1 h21
    · exact Or.inr h
  · have h21 : e2.returned = e1.returned := by omega
    have h32 : e3.returned = e2.returned := by omega
    exact g1 h21 (g2 h32 hr)

/-- Every step of the evaluator keeps `returned_kept`. -/
theorem returned_step_closed {D : Type} [double_ops D] :
    step_closed (fun (e e' : env_t D) => returned_kept e e')
      (fun (e e' : env_t D) => returned_kept e e') where
  refl e := ⟨Nat.le_refl _, fun _ => Or.inl rfl, fun _ h => h⟩
  trans := returned_kept_trans
  print e s := ⟨Nat.le_refl _, fun _ => Or.inl rfl, fun _ h => h⟩
  read e rest := ⟨Nat.le_refl _, fun _ => Or.inl rfl, fun _ h => h⟩
  for_break e e1 e2 h h1 _ := by
    obtain ⟨s, _, rfl⟩ := env_scope_begin_eq e e1 h
    refine returned_kept_trans _ _ _ ?_ h1
    exact ⟨Nat.le_refl _, fun _ => Or.inl rfl, fun _ h => h⟩
  scope_pop e := ⟨Nat.le_refl _, fun _ => Or.inl rfl, fun _ h => h⟩
  pop_trans := returned_kept_trans
  block e e1 e2 e3 h h1 h2 := by
    obtain ⟨s, _, rfl⟩ := env_scope_begin_eq e e1 h
    refine returned_kept_trans _ _ _ ?_ (returned_kept_trans _ _ _ h1 h2)
    exact ⟨Nat.le_refl _, fun _ => Or.inl rfl, fun _ h => h⟩
  defer e s e' h := returned_kept_of_same _ _ (eval_stmt_defer_same_control e e' s h)
  assigning t e name val v e' h :=
    returned_kept_of_same _ _ (bin_op_assigning_same_control t e e' name val v h)
  let_claim e s idx name _ _ := ⟨Nat.le_refl _, fun _ => Or.inl rfl, fun _ h => h⟩
  let_store e s idx v _ := ⟨Nat.le_refl _, fun _ => Or.inl rfl, fun _ h => h⟩
  set_return e e1 v _ h := by
    have := h.mono
    refine ⟨?_, fun h' => ?_, fun h' => ?_⟩
    · show e.returned ≤ e1.returned + 1
      omega
    · have h'' : e1.returned + 1 = e.returned := h'
      omega
    · have h'' : e1.returned + 1 = e.returned := h'
      omega
  with_return e e1 h := by
    obtain ⟨m, r, g⟩ := h
    refine ⟨m, fun h' => ?_, fun h' hr => ?_⟩
    · rcases r h' with h | h
      · exact Or.inr h
      · exact Or.inr h
    · exfalso
      have hr' : (if e1.returning = true then false else e1.returning) = true := hr
      split at hr'
      · cases hr'
      · contradiction

/-- A do-block body that returned without executing a return statement has the
value Nil. -/
theorem eval_with_return_nil {D : Type} [double_ops D] (n : Nat) (e e' : env_t D)
    (body : List (stmt_t D)) (v : value_t D) (h : eval_with_return n e body = .ok v e')
    (hc : e'.returned = e.returned) : v = .nil := by
  cases n with
  | zero => simp [eval_with_return] at h
  | succ n =>
    simp only [eval_with_return, res.bind_eq_ok] at h
    obtain ⟨u, e1, h1, h2⟩ := h
    have hk := (evaluator_sat_all _ _ returned_step_closed n).stmts _ _ u e1 h1
    injection h2 with hv he
    subst he
    subst hv
    rcases hk.ret hc with h | h
    · exact h
    · exact h

/-- C7, amended.  Evaluating a do-block does not save or restore the pending
return state.  `eval_with_return` sets the pending return value to Nil before
the body runs: the body is evaluated in the environment with `return_` Nil and
`returns` one up, and what `eval_with_return` leaves is the environment the
body left but for `returning`, which is false, and `returns`, which has its
value from before.  So for every environment, also one in which a return is
pending, when `eval_with_return` returns the flag `returning` is false and the
pending return value is the value the do-block body returned, which is the
pending value the body left and is Nil when no return statement was executed,
whatever the two were before. -/
theorem C7_do_block_resets_return_state {D : Type} [double_ops D] (n : Nat) (e e' : env_t D)
    (body : List (stmt_t D)) (v : value_t D) (h : eval_with_return n e body = .ok v e') :
    (∃ m e1, n = m + 1 ∧
      eval m { e with returns := e.returns + 1, return_ := .nil } body = .ok () e1 ∧
      v = e1.return_ ∧ e' = { e1 with returning := false, returns := e.returns }) ∧
    e'.returning = false ∧ e'.return_ = v ∧ e'.returns = e.returns ∧
    (e'.returned = e.returned → v = .nil) := by
  refine ⟨?_, (eval_with_return_post n e e' body v h).1, (eval_with_return_post n e e' body v h).2.1,
    (eval_with_return_post n e e' body v h).2.2, eval_with_return_nil n e e' body v h⟩
  have hp := eval_with_return_post n e e' body v h
  cases n with
  | zero => simp [eval_with_return] at h
  | succ m =>
    simp only [eval_with_return, res.bind_eq_ok] at h
    obtain ⟨u, e1, h1, h2⟩ := h
    injection h2 with hv he
    subst he
    subst hv
    refine ⟨m, e1, rfl, h1, rfl, ?_⟩
    have h3 : (if e1.returning = true then false else e1.returning) = false := hp.1
    have h4 : e1.returns - 1 = e.returns := hp.2.2
    rw [h3, h4]

/-- `C7_do_block_resets_return_state` at the environment `pending_env`, in
which the return value 1 is pending, and the empty body: the value is Nil and
no return is pending afterwards. -/
theorem C7_do_block_resets_return_state_witness :
    pending_env.returning = true ∧ pending_env.return_ = .num 1 ∧
    eval_with_return 2 pending_env [] = .ok .nil pending_env_reset ∧
    pending_env_reset.returned = pending_env.returned ∧
    (∃ m e1, 2 = m + 1 ∧
      eval m { pending_env with returns := pending_env.returns + 1, return_ := .nil } []
        = .ok () e1 ∧
      (.nil : value_t Int) = e1.return_ ∧
      pending_env_reset = { e1 with returning := false, returns := pending_env.returns }) ∧
    pending_env_reset.returning = false ∧ pending_env_reset.return_ = .nil ∧
    pending_env_reset.returns = pending_env.returns ∧
    (pending_env_reset.returned = pending_env.returned → (.nil : value_t Int) = .nil) :=
  ⟨rfl, rfl, rfl, rfl, C7_do_block_resets_return_state 2 pending_env _ [] .nil rfl⟩

/-- C5. The do-block.  (1) When the body executed no return statement (the
count of executed returns is what it was), it evaluates to Nil; so it does
when no return statement occurs in it.  (2) When the statements of the body list before a
return statement `return x` are executed and `x` evaluates to `w`, the body
evaluates to `w` for every sufficient fuel, whatever statements follow the
return in the list: they are not executed.  (3) After `eval_with_return` the
flag `returning` is false and the counter `returns` is what it was.  (4) The
do-block expression evaluates to the value of `eval_with_return` between
`env_scope_begin` and `env_scope_end`, and a statement list whose first
statement is the do-block goes on with its next statement. -/
theorem C5_do_block {D : Type} [double_ops D] (n : Nat) (e : env_t D)
    (body : List (stmt_t D)) :
    (∀ v e', eval_with_return n e body = .ok v e' → e'.returned = e.returned → v = .nil) ∧
    (stmts_no_return body → ∀ v e', eval_with_return n e body = .ok v e' → v = .nil) ∧
    (∀ pre x post w e1 e2, body = pre ++ .return_ x :: post →
      (∀ s, s ∈ pre → ∀ y, s ≠ .return_ y) →
      eval n { e with returns := e.returns + 1, return_ := .nil } pre = .ok () e1 →
      eval_expr n e1 x = .ok w e2 →
      ∀ k, eval_with_return (n + pre.length + 3 + k) e body
        = .ok w { e2 with return_ := w, returning := false, returns := e.returns,
                          returned := e2.returned + 1 }) ∧
    (∀ v e', eval_with_return n e body = .ok v e' →
      e'.returning = false ∧ e'.returns = e.returns) ∧
    (∀ v e1 e2 e3, env_scope_begin e = .ok () e1 → eval_with_return n e1 body = .ok v e2 →
      env_scope_end n e2 = .ok () e3 →
      eval_expr (n + 2) e (.do_ body) = .ok v e3 ∧
      ∀ next, eval (n + 3) e (.expr (.do_ body) :: next) = eval (n + 2) e3 next) := by
  refine ⟨?_, ?_, ?_, ?_, ?_⟩
  · intro v e' h hc
    exact eval_with_return_nil n e e' body v h hc
  · intro hbody v e' h
    have hd : defers_no_return e.scope e := by
      intro k s i d hk hk'
      omega
    exact ((evaluator_no_return_all e.scope n).with_return e body hbody (Nat.le_refl _) hd
      v e' h).2
  · intro pre x post w e1 e2 hb hpre hev hx k
    subst hb
    have hkeep := evaluator_sat_all _ _ (@returns_step_closed D _)
    have hr1 : e1.returns = e.returns + 1 := (hkeep n).stmts _ _ () e1 hev
    have hr2 : e2.returns = e.returns + 1 := ((hkeep n).expr _ _ w e2 hx).trans hr1
    have hfuel : n + pre.length + 3 + k = (n + (pre.length + 2 + k)) + 1 := by omega
    rw [hfuel]
    simp only [eval_with_return]
    rw [eval_append pre n (pre.length + 2 + k) _ e1 _ hpre hev]
    have hf2 : n + (pre.length + 2 + k) - pre.length = (n + k + 1) + 1 := by omega
    rw [hf2]
    simp only [eval, eval_stmt_return]
    rw [if_neg (by omega), eval_expr_fuel n k e1 e2 x w hx]
    simp only [res.bind_ok, if_true, hr2, Nat.add_sub_cancel]
  · intro v e' h
    have := eval_with_return_post n e e' body v h
    exact ⟨this.1, this.2.2⟩
  · intro v e1 e2 e3 hb hw he
    have h1 : eval_expr (n + 2) e (.do_ body) = .ok v e3 := by
      simp only [eval_expr, eval_expr_do, hb, hw, he, res.bind_ok]
    refine ⟨h1, fun next => ?_⟩
    simp only [eval, h1, res.bind_ok]

/-- `C5_do_block` at `do { let x = 1 return x + 1 }`, evaluated at the top of a
program: the body evaluates to 2, and so does the do-block. -/
theorem C5_do_block_witness :
    do_example_body = [let_x_1] ++ .return_ x_plus_1 :: [] ∧
    eval 3 { ({ (env_zero 8 [] : env_t Int) with scope := 2 } : env_t Int) with
        returns := 0 + 1, return_ := .nil } [let_x_1] = .ok () env_in_do_x ∧
    eval_expr 3 env_in_do_x x_plus_1 = .ok (.num 2) env_in_do_x ∧
    eval_with_return 7 ({ (env_zero 8 [] : env_t Int) with scope := 2 } : env_t Int)
        do_example_body
      = .ok (.num 2) { env_in_do_x with return_ := .num 2, returning := false, returns := 0,
                                        returned := 1 } ∧
    ((env_init 8 [] : res Int Unit).bind fun _ e =>
        eval_expr 12 e (.do_ do_example_body)).val? = some (.num 2) :=
  ⟨rfl, rfl, rfl,
    (C5_do_block 3 ({ (env_zero 8 [] : env_t Int) with scope := 2 } : env_t Int)
      do_example_body).2.2.1 [let_x_1] x_plus_1 [] (.num 2) env_in_do_x env_in_do_x rfl
      (by simp [let_x_1]) rfl rfl 0,
    by decide!⟩

/-- The scan of a frame that holds the name finds it. -/
theorem holds_find {D : Type} (s : scope_t D) (x : String) (h : s.holds x) :
    ∃ i, scope_find_var s x = some i := by
  obtain ⟨k, v, hk, hv, hn⟩ := h
  cases hf : scope_find_var s x with
  | some i => exact ⟨i, rfl⟩
  | none =>
    exfalso
    unfold scope_find_var at hf
    rw [List.findIdx?_eq_none_iff] at hf
    have hm : v ∈ s.vars.take s.vars_count := by
      rw [List.mem_iff_getElem?]
      exact ⟨k, by rw [List.getElem?_take_of_lt hk]; exact hv⟩
    have := hf v hm
    rw [has_name_eq_false] at this
    exact this hn

/-- A frame in which the scan finds the name holds it. -/
theorem find_holds {D : Type} (s : scope_t D) (x : String) (i : Nat)
    (h : scope_find_var s x = some i) : s.holds x := by
  obtain ⟨hi, v, hv, hn⟩ := scope_find_var_slot s x i h
  exact ⟨i, v, hi, hv, hn⟩

/-- The position of the variable found below frame `j`. -/
theorem shadowed_below_lt {D : Type} (j : Nat) (x : String) (p : Nat × Nat) (outer : var_t D)
    (e : env_t D) (hs : shadowed j x p outer e) : p.1 < j := by
  obtain ⟨p1, p2⟩ := p
  exact (env_get_var_from_spec e.scopes x j p1 p2 hs.below).1

/-- Shadowing depends on the frames up to `j` only. -/
theorem shadowed_congr {D : Type} (j : Nat) (x : String) (p : Nat × Nat) (outer : var_t D)
    (e e' : env_t D) (h : ∀ k, k ≤ j → e'.scopes[k]? = e.scopes[k]?)
    (hbd : e'.scope ≤ e'.scopes.length)
    (hs : shadowed j x p outer e) : shadowed j x p outer e' := by
  have hp := shadowed_below_lt j x p outer e hs
  obtain ⟨⟨s, hs1, hs2⟩, hb, hk, _⟩ := hs
  refine ⟨⟨s, by rw [h j (Nat.le_refl _)]; exact hs1, hs2⟩, ?_, ?_, hbd⟩
  · rw [env_get_var_from_congr e.scopes e'.scopes x j (fun k hk => h k (Nat.le_of_lt hk))]
    exact hb
  · rw [← hk]
    simp only [env_t.var_at, h p.1 (Nat.le_of_lt hp)]

/-- A store to the top frame that keeps the names it holds keeps the
shadowing. -/
theorem shadowed_set_top {D : Type} (j : Nat) (x : String) (p : Nat × Nat) (outer : var_t D)
    (e : env_t D) (s s' : scope_t D) (hj : j < e.scope) (ht : e.top = some s)
    (hh : s.holds x → s'.holds x) (hs : shadowed j x p outer e) :
    shadowed j x p outer (e.set_top s') := by
  have hp := shadowed_below_lt j x p outer e hs
  obtain ⟨⟨s0, hs1, hs2⟩, hb, hk, hbd⟩ := hs
  have htop := (top_eq_some e s).mp ht
  refine ⟨?_, ?_, ?_, ?_⟩
  · by_cases hc : j = e.scope - 1
    · have hlt : e.scope - 1 < e.scopes.length := (List.getElem?_eq_some.mp htop.2).1
      rw [← hc] at htop hlt
      rw [hs1] at htop
      have hss : s0 = s := by
        have := htop.2
        injection this
      subst hss
      refine ⟨s', ?_, hh hs2⟩
      simp only [env_t.set_top, ← hc, List.getElem?_set, hlt, if_true]
    · exact ⟨s0, by rw [set_top_scopes_ne e s' j hc]; exact hs1, hs2⟩
  · rw [env_get_var_from_congr e.scopes (e.set_top s').scopes x j
      (fun k hk => set_top_scopes_ne e s' k (by omega))]
    exact hb
  · rw [← hk]
    simp only [env_t.var_at, set_top_scopes_ne e s' p.1 (by omega)]
  · simpa only [env_t.set_top, List.length_set] using hbd

/-- The store through a variable pointer leaves every scan of a frame what it
was. -/
theorem set_var_val_find {D : Type} (e : env_t D) (q : Nat × Nat) (w : value_t D)
    (name : String) (k : Nat) :
    ((e.set_var_val q w).scopes[k]?).map (fun s => scope_find_var s name)
      = (e.scopes[k]?).map (fun s => scope_find_var s name) := by
  unfold env_t.set_var_val
  split
  · rfl
  · rename_i s hs
    split
    · rfl
    · rename_i x0 hx
      simp only [List.getElem?_set]
      by_cases hj : q.1 = k
      · subst hj
        have hlt : q.1 < e.scopes.length := (List.getElem?_eq_some.mp hs).1
        simp [hlt, hs, scope_find_var_set_val s q.2 x0 w name hx]
      · simp [hj]

/-- The store through a variable pointer leaves the other slots of the frame
what they were. -/
theorem var_at_set_var_val_slot {D : Type} (e : env_t D) (p q : Nat × Nat) (v : value_t D)
    (h : q.2 ≠ p.2) : (e.set_var_val p v).var_at q = e.var_at q := by
  unfold env_t.set_var_val
  split
  · rfl
  · rename_i s hs
    split
    · rfl
    · by_cases h1 : p.1 = q.1
      · have hlt : p.1 < e.scopes.length := (List.getElem?_eq_some.mp hs).1
        have h2 : ¬ p.2 = q.2 := fun h' => h h'.symm
        simp only [env_t.var_at, ← h1, List.getElem?_set, hlt, hs, if_true]
        simp [List.getElem?_set, h2]
      · simp [env_t.var_at, List.getElem?_set, h1]

/-- The store through a variable pointer keeps the names a frame holds. -/
theorem set_var_val_holds {D : Type} (e : env_t D) (q : Nat × Nat) (w : value_t D)
    (x : String) (j : Nat) (s : scope_t D) (hs : e.scopes[j]? = some s) (hh : s.holds x) :
    ∃ s', (e.set_var_val q w).scopes[j]? = some s' ∧ s'.holds x := by
  have hm := set_var_val_find e q w x j
  rw [hs] at hm
  cases hs' : (e.set_var_val q w).scopes[j]? with
  | none => rw [hs'] at hm; cases hm
  | some s' =>
    rw [hs'] at hm
    obtain ⟨i, hi⟩ := holds_find s x hh
    simp only [Option.map_some', Option.some.injEq] at hm
    exact ⟨s', rfl, find_holds s' x i (by rw [hm, hi])⟩

/-- The store through a variable pointer leaves `e->scope` and the number of
frames what they were. -/
theorem set_var_val_bound {D : Type} (e : env_t D) (q : Nat × Nat) (w : value_t D) :
    (e.set_var_val q w).scope = e.scope ∧
      (e.set_var_val q w).scopes.length = e.scopes.length := by
  unfold env_t.set_var_val
  split
  · exact ⟨rfl, rfl⟩
  · split
    · exact ⟨rfl, rfl⟩
    · exact ⟨rfl, by simp only [List.length_set]⟩

/-- An assignment to a variable found from a frame above `j` keeps the
shadowing: it does not reach the outer variable. -/
theorem shadowed_set_var_val {D : Type} (j : Nat) (x : String) (p : Nat × Nat)
    (outer : var_t D) (e : env_t D) (name : String) (q : Nat × Nat) (w : value_t D)
    (hj : j < e.scope) (hq : env_get_var e name = some q) (hs : shadowed j x p outer e) :
    shadowed j x p outer (e.set_var_val q w) := by
  have hp := shadowed_below_lt j x p outer e hs
  obtain ⟨⟨s, hs1, hs2⟩, hb, hk, hbd⟩ := hs
  refine ⟨set_var_val_holds e q w x j s hs1 hs2, ?_, ?_, ?_⟩
  rotate_left 2
  · obtain ⟨h1, h2⟩ := set_var_val_bound e q w
    rw [h1, h2]
    exact hbd
  · rw [env_get_var_from_congr_find e.scopes (e.set_var_val q w).scopes x j
      (fun k _ => set_var_val_find e q w x k)]
    exact hb
  · rw [← hk]
    obtain ⟨q1, q2⟩ := q
    obtain ⟨p1, p2⟩ := p
    by_cases h1 : p1 = q1
    · by_cases h2 : p2 = q2
      · exfalso
        subst h1
        subst h2
        obtain ⟨_, ⟨sq, hsq, hfq⟩, hnone⟩ := env_get_var_from_spec e.scopes name e.scope p1 p2 hq
        obtain ⟨_, ⟨sp, hsp, hfp⟩, _⟩ := env_get_var_from_spec e.scopes x j p1 p2 hb
        rw [hsq] at hsp
        injection hsp with hsp
        subst hsp
        obtain ⟨_, v1, hv1, hn1⟩ := scope_find_var_slot sq name p2 hfq
        obtain ⟨_, v2, hv2, hn2⟩ := scope_find_var_slot sq x p2 hfp
        rw [hv1] at hv2
        injection hv2 with hv2
        subst hv2
        rw [hn1] at hn2
        injection hn2 with hn2
        subst hn2
        obtain ⟨i, hi⟩ := holds_find s name hs2
        have := hnone j s hp hj hs1
        rw [hi] at this
        cases this
      · exact var_at_set_var_val_slot e (q1, q2) (p1, p2) w h2
    · exact var_at_set_var_val_frame e (q1, q2) (p1, p2) w h1

/-- What an assigning operator does to the environment: a store through the
pointer `env_get_var` returned. -/
theorem bin_op_assigning_eq {D : Type} [double_ops D] (t : bin_op_type_t)
    (e e' : env_t D) (name : String) (val v : value_t D)
    (h : bin_op_assigning t e name val = .ok v e') :
    ∃ q w, env_get_var e name = some q ∧ e' = e.set_var_val q w := by
  have hu : ∀ (op : String) (f : D → D → D),
      eval_expr_bin_op_update op f e name val = .ok v e' →
      ∃ q w, env_get_var e name = some q ∧ e' = e.set_var_val q w := by
    intro op f h
    unfold eval_expr_bin_op_update at h
    repeat' split at h
    all_goals
      cases h
      try exact ⟨_, _, by assumption, rfl⟩
  unfold bin_op_assigning at h
  split at h
  · unfold eval_expr_bin_op_assign at h
    repeat' split at h
    all_goals
      cases h
      try exact ⟨_, _, by assumption, rfl⟩
  · exact hu _ _ h
  · exact hu _ _ h
  · exact hu _ _ h
  · unfold eval_expr_bin_op_xdec at h
    repeat' split at h
    all_goals
      cases h
      try exact ⟨_, _, by assumption, rfl⟩

/-- The first stores of a let keep the names the frame holds. -/
theorem let_claim_holds {D : Type} (s : scope_t D) (idx : Option Nat) (name x : String)
    (hscan : let_scan name (s.vars.take s.vars_count) 0 none = some idx) (hh : s.holds x) :
    scope_t.holds { s with
      vars := scope_set_name s (idx.getD s.vars_count) name,
      vars_count := if idx = none then s.vars_count + 1 else s.vars_count } x := by
  obtain ⟨k, v, hk, hv, hn⟩ := hh
  have hkl : k < s.vars.length := (List.getElem?_eq_some.mp hv).1
  have hne : idx.getD s.vars_count ≠ k := by
    cases idx with
    | none => simp only [Option.getD_none]; omega
    | some m =>
      simp only [Option.getD_some]
      intro hmk
      subst hmk
      rcases let_scan_spec name _ 0 none (some m) hscan with h | ⟨j, v', hj, hv', hn'⟩
      · cases h
      · simp only [Nat.zero_add, Option.some.injEq] at hj
        subst hj
        rw [List.getElem?_take_of_lt hk, hv] at hv'
        injection hv' with hv'
        subst hv'
        rw [hn] at hn'
        cases hn'
  refine ⟨k, v, ?_, ?_, hn⟩
  · show k < if idx = none then s.vars_count + 1 else s.vars_count
    split <;> omega
  · show (scope_set_name s (idx.getD s.vars_count) name)[k]? = some v
    unfold scope_set_name buf_write
    split
    · rw [List.getElem?_set, if_neg hne]
      exact hv
    · rw [List.getElem?_append_left hkl]
      exact hv

/-- The store of the value of a let keeps the names the frame holds. -/
theorem let_store_holds {D : Type} (s : scope_t D) (idx : Nat) (w : value_t D) (x : String)
    (hh : s.holds x) : scope_t.holds { s with vars := scope_set_val s idx w } x := by
  obtain ⟨k, v, hk, hv, hn⟩ := hh
  have hkl : k < s.vars.length := (List.getElem?_eq_some.mp hv).1
  unfold scope_set_val
  split
  · exact ⟨k, v, hk, hv, hn⟩
  · rename_i v0 hv0
    by_cases hik : idx = k
    · subst hik
      rw [hv] at hv0
      injection hv0 with hv0
      subst hv0
      refine ⟨idx, { v with val := some w }, hk, ?_, hn⟩
      simp [List.getElem?_set, hkl]
    · refine ⟨k, v, hk, ?_, hn⟩
      show (s.vars.set idx { v0 with val := some w })[k]? = some v
      rw [List.getElem?_set, if_neg hik]
      exact hv

/-- Every step of the evaluator keeps the shadowing of `x` in frame `j` while
that frame is live, and only the end of a scope moves `e->scope` down. -/
theorem shadow_step_closed {D : Type} [double_ops D] (j : Nat) (x : String) (p : Nat × Nat)
    (outer : var_t D) :
    step_closed (fun (e e' : env_t D) => shadow_kept j x p outer 0 e e')
      (fun (e e' : env_t D) => shadow_kept j x p outer 1 e e') where
  refl e := fun _ h => ⟨h, Nat.le_refl _⟩
  trans e1 e2 e3 h1 h2 := fun hj hs => by
    obtain ⟨hs2, hl2⟩ := h1 hj hs
    obtain ⟨hs3, hl3⟩ := h2 (by omega) hs2
    exact ⟨hs3, by omega⟩
  print e s := fun _ h => ⟨shadowed_congr j x p outer e _ (fun _ _ => rfl) h.bound h, Nat.le_refl _⟩
  read e rest := fun _ h => ⟨shadowed_congr j x p outer e _ (fun _ _ => rfl) h.bound h, Nat.le_refl _⟩
  for_break e e1 e2 h h1 _ := fun hj hs => by
    obtain ⟨s, hsome, rfl⟩ := env_scope_begin_eq e e1 h
    have hlt : e.scope < e.scopes.length := (List.getElem?_eq_some.mp hsome).1
    have hs1 : shadowed j x p outer ({ e with
        scopes := e.scopes.set e.scope { s with vars_count := 0, defer_count := 0 },
        scope := e.scope + 1 } : env_t D) := by
      refine shadowed_congr j x p outer e _ (fun k hk => ?_) ?_ hs
      · have : ¬ e.scope = k := by omega
        simp [List.getElem?_set, this]
      · simp only [List.length_set]
        omega
    obtain ⟨hs2, hl2⟩ := h1 (Nat.lt_succ_of_lt hj) hs1
    have hl2' : e.scope + 1 ≤ e2.scope := hl2
    exact ⟨hs2, by omega⟩
  scope_pop e := fun _ h => by
    refine ⟨shadowed_congr j x p outer e _ (fun _ _ => rfl) ?_ h, ?_⟩
    · have := h.bound
      show e.scope - 1 ≤ e.scopes.length
      omega
    · show e.scope ≤ e.scope - 1 + 1
      omega
  pop_trans e1 e2 e3 h1 h2 := fun hj hs => by
    obtain ⟨hs2, hl2⟩ := h1 hj hs
    obtain ⟨hs3, hl3⟩ := h2 (by omega) hs2
    exact ⟨hs3, by omega⟩
  block e e1 e2 e3 h h1 h2 := fun hj hs => by
    obtain ⟨s, hsome, rfl⟩ := env_scope_begin_eq e e1 h
    have hlt : e.scope < e.scopes.length := (List.getElem?_eq_some.mp hsome).1
    have hs1 : shadowed j x p outer ({ e with
        scopes := e.scopes.set e.scope { s with vars_count := 0, defer_count := 0 },
        scope := e.scope + 1 } : env_t D) := by
      refine shadowed_congr j x p outer e _ (fun k hk => ?_) ?_ hs
      · have : ¬ e.scope = k := by omega
        simp [List.getElem?_set, this]
      · simp only [List.length_set]
        omega
    obtain ⟨hs2, hl2⟩ := h1 (Nat.lt_succ_of_lt hj) hs1
    have hl2' : e.scope + 1 ≤ e2.scope := hl2
    obtain ⟨hs3, hl3⟩ := h2 (by omega) hs2
    exact ⟨hs3, by omega⟩
  defer e st e' h := fun hj hs => by
    unfold eval_stmt_defer at h
    split at h
    · cases h
    · rename_i s ht
      cases h
      exact ⟨shadowed_set_top j x p outer e s _ hj ht (fun hh => hh) hs, Nat.le_refl _⟩
  assigning t e name val v e' h := fun hj hs => by
    obtain ⟨q, w, hq, rfl⟩ := bin_op_assigning_eq t e e' name val v h
    refine ⟨shadowed_set_var_val j x p outer e name q w hj hq hs, ?_⟩
    have := (bin_op_assigning_same_control t e _ name val v h).1
    omega
  let_claim e s idx name ht hscan := fun hj hs =>
    ⟨shadowed_set_top j x p outer e s _ hj ht (let_claim_holds s idx name x hscan) hs,
      Nat.le_refl _⟩
  let_store e s idx v ht := fun hj hs =>
    ⟨shadowed_set_top j x p outer e s _ hj ht (let_store_holds s idx v x) hs, Nat.le_refl _⟩
  set_return e e1 v _ h := fun hj hs => by
    obtain ⟨hs1, hl1⟩ := h hj hs
    exact ⟨shadowed_congr j x p outer e1 _ (fun _ _ => rfl) hs1.bound hs1, hl1⟩
  with_return e e1 h := fun hj hs => by
    obtain ⟨hs1, hl1⟩ := h hj (shadowed_congr j x p outer e _ (fun _ _ => rfl) hs.bound hs)
    exact ⟨shadowed_congr j x p outer e1 _ (fun _ _ => rfl) hs1.bound hs1, hl1⟩

/-- While frame `j` holds `x` and is live, the lookup of `x` stops at frame
`j` or above. -/
theorem env_get_var_from_above {D : Type} (scopes : List (scope_t D)) (x : String) (j : Nat)
    (s : scope_t D) (hs : scopes[j]? = some s) (hh : s.holds x) :
    ∀ k, j < k → k ≤ scopes.length →
      ∃ q, env_get_var_from scopes x k = some q ∧ j ≤ q.1 ∧ q.1 < k
  | 0, h, _ => absurd h (Nat.not_lt_zero _)
  | k + 1, hjk, hkl => by
    obtain ⟨sk, hsk⟩ : ∃ sk, scopes[k]? = some sk :=
      ⟨scopes[k], List.getElem?_eq_getElem (by omega)⟩
    simp only [env_get_var_from, hsk]
    by_cases hkj : k = j
    · subst hkj
      rw [hs] at hsk
      injection hsk with hsk
      subst hsk
      obtain ⟨i, hi⟩ := holds_find s x hh
      rw [hi]
      exact ⟨(k, i), rfl, Nat.le_refl _, Nat.lt_succ_self _⟩
    · cases hf : scope_find_var sk x with
      | some i => exact ⟨(k, i), rfl, by show j ≤ k; omega, Nat.lt_succ_self _⟩
      | none =>
        obtain ⟨q, hq, h1, h2⟩ :=
          env_get_var_from_above scopes x j s hs hh k (by omega) (by omega)
        exact ⟨q, hq, h1, by omega⟩

/-- Under the shadowing, `x` resolves to a variable of frame `j` or of a live
frame above it, and so not to the outer variable. -/
theorem shadowed_resolves {D : Type} (j : Nat) (x : String) (p : Nat × Nat) (outer : var_t D)
    (e : env_t D) (hj : j < e.scope) (hs : shadowed j x p outer e) :
    ∃ q, env_get_var e x = some q ∧ j ≤ q.1 ∧ q.1 < e.scope ∧ q ≠ p := by
  have hp := shadowed_below_lt j x p outer e hs
  obtain ⟨⟨s, hs1, hs2⟩, _, _, hbd⟩ := hs
  obtain ⟨q, hq, h1, h2⟩ := env_get_var_from_above e.scopes x j s hs1 hs2 e.scope hj hbd
  refine ⟨q, hq, h1, h2, fun h => ?_⟩
  subst h
  omega

/-- A let of `x` in frame `j`, below which `x` resolves to the variable `p`,
leaves `x` shadowed in frame `j`, whatever its initializer does. -/
theorem let_shadows {D : Type} [double_ops D] (m j : Nat) (x : String) (p : Nat × Nat)
    (outer : var_t D) (e1 e2 : env_t D) (s : scope_t D) (init : Option (expr_t D))
    (next : Option (stmt_let_t D))
    (hsc : e1.scope = j + 1) (hbd : e1.scope ≤ e1.scopes.length) (ht : e1.top = some s)
    (hwf : s.vars_count ≤ s.vars.length)
    (hb : env_get_var_from e1.scopes x j = some p) (hk : e1.var_at p = some outer)
    (h : eval_stmt_let m e1 (.mk x init next) = .ok () e2) :
    shadowed j x p outer e2 ∧ j < e2.scope := by
  have hp : p.1 < j := by
    obtain ⟨p1, p2⟩ := p
    exact (env_get_var_from_spec e1.scopes x j p1 p2 hb).1
  cases m with
  | zero => simp [eval_stmt_let] at h
  | succ n =>
    have hall := evaluator_sat_all _ _ (shadow_step_closed j x p outer) n
    simp only [eval_stmt_let, ht] at h
    split at h
    · cases h
    · rename_i idx hscan
      rw [res.bind_eq_ok] at h
      obtain ⟨v, e2', h1, h2⟩ := h
      have hidx : idx.getD s.vars_count ≤ s.vars.length ∧
          idx.getD s.vars_count < (if idx = none then s.vars_count + 1 else s.vars_count) := by
        rcases let_scan_spec x _ 0 none idx hscan with h | ⟨i, v', hi, hv', _⟩
        · subst h; simp; omega
        · subst hi
          have hlt : i < (s.vars.take s.vars_count).length :=
            (List.getElem?_eq_some.mp hv').1
          simp only [List.length_take] at hlt
          simp only [zero_add, Option.getD_some, reduceCtorEq, if_false]
          omega
      have hc : shadowed j x p outer (let_claim e1 s idx x) := by
        have hjl : j < e1.scopes.length := by omega
        have hj1 : e1.scope - 1 = j := by omega
        refine ⟨⟨{ s with
            vars := scope_set_name s (idx.getD s.vars_count) x,
            vars_count := if idx = none then s.vars_count + 1 else s.vars_count },
          ?_, ⟨idx.getD s.vars_count,
          { name := some x, val := (s.vars[idx.getD s.vars_count]?).bind fun v => v.val },
          hidx.2, ?_, rfl⟩⟩, ?_, ?_, ?_⟩
        · simp only [let_claim, env_t.set_top, hj1, List.getElem?_set, hjl, if_true]
        · show (scope_set_name s (idx.getD s.vars_count) x)[idx.getD s.vars_count]? = _
          unfold scope_set_name
          rw [buf_write_getElem? _ _ _ hidx.1, if_pos rfl]
        · rw [env_get_var_from_congr e1.scopes (let_claim e1 s idx x).scopes x j
            (fun k hk => set_top_scopes_ne e1 _ k (by omega))]
          exact hb
        · rw [← hk]
          simp only [env_t.var_at, let_claim, set_top_scopes_ne e1 _ p.1 (by omega)]
        · simpa only [let_claim, env_t.set_top, List.length_set] using hbd
      have hcs : j < (let_claim e1 s idx x).scope := by
        show j < e1.scope
        omega
      have h1' : shadowed j x p outer e2' ∧ j < e2'.scope := by
        cases init with
        | none =>
          injection h1 with _ he
          subst he
          exact ⟨hc, hcs⟩
        | some ex =>
          obtain ⟨ha, hb'⟩ := hall.expr _ ex v e2' h1 hcs hc
          exact ⟨ha, by omega⟩
      split at h2
      · cases h2
      · split at h2
        · cases h2
        · rename_i s2 ht2
          have hst := (shadow_step_closed j x p outer).let_store e2' s2
            (idx.getD s.vars_count) v ht2 h1'.2 h1'.1
          have hst2 : j < (e2'.set_top
              { s2 with vars := scope_set_val s2 (idx.getD s.vars_count) v }).scope := h1'.2
          split at h2
          · injection h2 with _ he
            subst he
            exact ⟨hst.1, hst2⟩
          · rename_i l
            obtain ⟨ha, hb'⟩ := hall.let_ _ l () e2 h2 hst2 hst.1
            exact ⟨ha, by omega⟩

/-- While frame `j` shadows `x`, a statement list keeps the shadowing, and so
does an expression. -/
theorem shadowed_eval {D : Type} [double_ops D] (m j : Nat) (x : String) (p : Nat × Nat)
    (outer : var_t D) (e e' : env_t D) (hj : j < e.scope) (hs : shadowed j x p outer e) :
    (∀ body, eval m e body = .ok () e' → shadowed j x p outer e' ∧ e.scope ≤ e'.scope) ∧
    (∀ ex u, eval_expr m e ex = .ok u e' → shadowed j x p outer e' ∧ e.scope ≤ e'.scope) :=
  ⟨fun body h =>
      (evaluator_sat_all _ _ (shadow_step_closed j x p outer) m).stmts e body () e' h hj hs,
    fun ex u h =>
      (evaluator_sat_all _ _ (shadow_step_closed j x p outer) m).expr e ex u e' h hj hs⟩

/-- The end of a scope above a frame that shadows `x`: `e->scope` does not go
below frame `j`, and when it points at frame `j - 1` after it, `x` resolves to
the outer variable, which is what it was. -/
theorem shadowed_scope_end {D : Type} [double_ops D] (m j : Nat) (x : String) (p : Nat × Nat)
    (outer : var_t D) (v : value_t D) (e e' : env_t D) (hj : j < e.scope)
    (hs : shadowed j x p outer e) (hv : outer.val = some v)
    (h : env_scope_end m e = .ok () e') :
    j ≤ e'.scope ∧ (e'.scope = j →
      env_get_var e' x = some p ∧ e'.var_at p = some outer ∧ eval_expr_id e' x = .ok v e') := by
  obtain ⟨hs', hl⟩ :=
    (evaluator_sat_all _ _ (shadow_step_closed j x p outer) m).scope_end e () e' h hj hs
  refine ⟨by omega, fun hej => ?_⟩
  have hg : env_get_var e' x = some p := by
    unfold env_get_var
    rw [hej]
    exact hs'.below
  refine ⟨hg, hs'.kept, ?_⟩
  simp only [eval_expr_id, hg, hs'.kept, hv]

/-- Shadowing, as far as `e->scope` comes back to where it was.  Let `x` resolve to a variable `outer` with the value `v`,
and let a scope be begun in which `let x = w` is executed.  Then inside the
new scope `x` resolves to the first slot of the new frame: reading `x` gives
`w`, and an assignment `x = w'` (of the variant of `w`) stores `w'` in that
slot, after which reading `x` gives `w'` while the outer variable is what it
was.  When the scope has ended, `x` resolves to the outer variable again and
reading it gives `v`.  In general the variable `env_get_var` finds is the first
match of the scan from the innermost frame outwards.  For every let of `x` in
the new scope, with any initializer, and whatever is executed after it: the
let leaves `x` shadowed in the new frame; while it is, `x` resolves to a
variable of the new frame or of a frame above it, never to the outer one, and
statements and expressions keep that and do not move `e->scope` down; and the
end of a scope that brings `e->scope` back to where it was makes `x` resolve to
the outer variable, which is what it was, so that reading `x` gives `v`. -/
theorem shadowing_balanced {D : Type} [double_ops D] (n : Nat) (e e1 : env_t D) (x : String)
    (p : Nat × Nat) (outer : var_t D) (v w w' : value_t D)
    (hp : env_get_var e x = some p) (hv : e.var_at p = some outer) (hval : outer.val = some v)
    (hb : env_scope_begin e = .ok () e1) (ht : w'.type = w.type) :
    (∃ e2 e3 e4,
      eval_stmt_let (n + 2) e1 (.mk x (some (.val w)) none) = .ok () e2 ∧
      env_get_var e2 x = some (e.scope, 0) ∧ eval_expr_id e2 x = .ok w e2 ∧
      eval_expr (n + 3) e2 (.bin_op BIN_OP_ASSIGN (.id x) (.val w')) = .ok w' e3 ∧
      env_get_var e3 x = some (e.scope, 0) ∧ eval_expr_id e3 x = .ok w' e3 ∧
      e3.var_at p = some outer ∧
      env_scope_end (n + 2) e3 = .ok () e4 ∧
      env_get_var e4 x = some p ∧ e4.var_at p = some outer ∧
      eval_expr_id e4 x = .ok v e4) ∧
    (∀ (e : env_t D) (name : String) (j i : Nat), env_get_var e name = some (j, i) →
      j < e.scope ∧ (∃ s, e.scopes[j]? = some s ∧ scope_find_var s name = some i) ∧
      ∀ j' s', j < j' → j' < e.scope → e.scopes[j']? = some s' →
        scope_find_var s' name = none) ∧
    (∀ (m : Nat) (init : Option (expr_t D)) (next : Option (stmt_let_t D)) (e2 : env_t D),
      eval_stmt_let m e1 (.mk x init next) = .ok () e2 →
      shadowed e.scope x p outer e2 ∧ e.scope < e2.scope) ∧
    (∀ (m : Nat) (e' e'' : env_t D), e.scope < e'.scope → shadowed e.scope x p outer e' →
      (∃ q, env_get_var e' x = some q ∧ e.scope ≤ q.1 ∧ q.1 < e'.scope ∧ q ≠ p) ∧
      (∀ body, eval m e' body = .ok () e'' →
        shadowed e.scope x p outer e'' ∧ e'.scope ≤ e''.scope) ∧
      (∀ ex u, eval_expr m e' ex = .ok u e'' →
        shadowed e.scope x p outer e'' ∧ e'.scope ≤ e''.scope) ∧
      (env_scope_end m e' = .ok () e'' → e.scope ≤ e''.scope ∧
        (e''.scope = e.scope → env_get_var e'' x = some p ∧ e''.var_at p = some outer ∧
          eval_expr_id e'' x = .ok v e''))) := by
  have hplt : p.1 < e.scope := by
    obtain ⟨q1, q2⟩ := p
    exact (env_get_var_from_spec e.scopes x e.scope q1 q2 hp).1
  have hG1 : ∀ (m : Nat) (init : Option (expr_t D)) (next : Option (stmt_let_t D))
      (e2 : env_t D), eval_stmt_let m e1 (.mk x init next) = .ok () e2 →
      shadowed e.scope x p outer e2 ∧ e.scope < e2.scope := by
    intro m init next e2 h
    obtain ⟨s0, hs0, he1⟩ := env_scope_begin_eq e e1 hb
    have hlt : e.scope < e.scopes.length := (List.getElem?_eq_some.mp hs0).1
    have hbelow : ∀ k, k < e.scope → e1.scopes[k]? = e.scopes[k]? := by
      intro k hk
      have : ¬ e.scope = k := by omega
      rw [he1]
      simp [List.getElem?_set, this]
    refine let_shadows m e.scope x p outer e1 e2 { s0 with vars_count := 0, defer_count := 0 }
      init next ?_ ?_ ?_ (Nat.zero_le _) ?_ ?_ h
    · rw [he1]
    · rw [he1]
      simp only [List.length_set]
      omega
    · rw [top_eq_some, he1]
      simp [List.getElem?_set, hlt]
    · rw [env_get_var_from_congr e.scopes e1.scopes x e.scope hbelow]
      exact hp
    · rw [← hv]
      simp only [env_t.var_at, hbelow p.1 hplt]
  refine ⟨?_, fun e name j i h => env_get_var_from_spec e.scopes name e.scope j i h, hG1,
    fun m e' e'' hj hs =>
      ⟨shadowed_resolves e.scope x p outer e' hj hs,
        (shadowed_eval m e.scope x p outer e' e'' hj hs).1,
        (shadowed_eval m e.scope x p outer e' e'' hj hs).2,
        shadowed_scope_end m e.scope x p outer v e' e'' hj hs hval⟩⟩
  obtain ⟨s0, hs0, rfl⟩ := env_scope_begin_eq e e1 hb
  have hlt : e.scope < e.scopes.length := (List.getElem?_eq_some.mp hs0).1
  -- the environment after the begin
  obtain ⟨e1, he1⟩ : ∃ e1 : env_t D, e1 = { e with
      scopes := e.scopes.set e.scope { s0 with vars_count := 0, defer_count := 0 },
      scope := e.scope + 1 } := ⟨_, rfl⟩
  rw [← he1]
  have h1sc : e1.scope = e.scope + 1 := by rw [he1]
  have h1below : ∀ j, j < e.scope → e1.scopes[j]? = e.scopes[j]? := by
    intro j hj
    have : ¬ e.scope = j := by omega
    rw [he1]
    simp [List.getElem?_set, this]
  have ht1 : e1.top = some { s0 with vars_count := 0, defer_count := 0 } := by
    rw [top_eq_some, he1]
    simp [List.getElem?_set, hlt]
  have hscan : let_scan x
      ((({ s0 with vars_count := 0, defer_count := 0 } : scope_t D).vars).take 0) 0 none
      = some none := by
    simp [let_scan]
  -- the let
  obtain ⟨e2, he2⟩ : ∃ e2 : env_t D, e2 = e1.set_top
      (let_frame { s0 with vars_count := 0, defer_count := 0 } none x w) := ⟨_, rfl⟩
  have hlet := eval_stmt_let_literal n e1 _ x w none ht1 hscan
  obtain ⟨hg2, hv2, hid2⟩ := let_declares e1 _ none x w ht1 (Nat.zero_le _) hscan
  obtain ⟨_, _, _, hdc⟩ := let_frame_slot { s0 with vars_count := 0, defer_count := 0 } none x w
    (Nat.zero_le _) hscan
  have ht2 := top_set_top e1 _
    (let_frame { s0 with vars_count := 0, defer_count := 0 } none x w) ht1
  rw [← he2] at hlet hg2 hv2 hid2 ht2
  simp only [h1sc, Nat.add_sub_cancel, Option.getD_none] at hg2 hv2
  have h2sc : e2.scope = e.scope + 1 := by rw [he2]; exact h1sc
  have h2below : ∀ j, j < e.scope → e2.scopes[j]? = e.scopes[j]? := by
    intro j hj
    rw [he2, set_top_scopes_ne _ _ _ (by rw [h1sc]; omega)]
    exact h1below j hj
  -- the assignment
  obtain ⟨e3, he3⟩ : ∃ e3 : env_t D, e3 = e2.set_var_val (e.scope, 0) w' := ⟨_, rfl⟩
  have hasg : eval_expr (n + 3) e2 (.bin_op BIN_OP_ASSIGN (.id x) (.val w')) = .ok w' e3 := by
    rw [eval_expr_bin_op_of_assigning (n + 1) e2 e2 BIN_OP_ASSIGN x (.val w') w' rfl rfl, he3]
    exact eval_expr_bin_op_assign_ok e2 x _ _ w w' hg2 hv2 rfl ht
  have hg3 : env_get_var e3 x = some (e.scope, 0) := by
    rw [he3, env_get_var_set_var_val]; exact hg2
  have hv3 : e3.var_at (e.scope, 0) = some { name := some x, val := some w' } := by
    rw [he3, var_at_set_var_val_self e2 _ w' _ hv2]
  have hid3 : eval_expr_id e3 x = .ok w' e3 := by
    simp only [eval_expr_id, hg3, hv3]
  have h3sc : e3.scope = e.scope + 1 := by
    rw [he3, (set_var_val_same_control e2 _ w').1]; exact h2sc
  have h3below : ∀ j, j < e.scope → e3.scopes[j]? = e.scopes[j]? := by
    intro j hj
    rw [he3, set_var_val_scopes_ne _ _ _ _ (by simp; omega)]
    exact h2below j hj
  have hvar_below : ∀ (e' : env_t D), (∀ j, j < e.scope → e'.scopes[j]? = e.scopes[j]?) →
      e'.var_at p = some outer := by
    intro e' h
    rw [← hv]
    simp only [env_t.var_at, h p.1 hplt]
  -- the end of the scope
  obtain ⟨s3, ht3, hd3, _⟩ := set_var_val_top e2 (e.scope, 0) w' _ ht2
  rw [← he3] at ht3
  have hend := env_scope_end_no_defer n e3 s3 ht3 (by rw [hd3, hdc])
  have hg4 : env_get_var ({ e3 with scope := e3.scope - 1 } : env_t D) x = some p := by
    rw [← hp]
    unfold env_get_var
    simp only [h3sc, Nat.add_sub_cancel]
    exact env_get_var_from_congr _ _ x e.scope h3below
  have hv4 : ({ e3 with scope := e3.scope - 1 } : env_t D).var_at p = some outer :=
    hvar_below _ h3below
  refine ⟨e2, e3, _, hlet, hg2, hid2, hasg, hg3, hid3, hvar_below e3 h3below, hend, hg4, hv4, ?_⟩
  simp only [eval_expr_id, hg4, hv4, hval]

/-- `shadowing_balanced` at `env_x`, where `x` holds 6: in a new scope `let x = 1`
and `x = 2` act on the new variable, and after the scope `x` reads 6. -/
theorem shadowing_balanced_witness :
    env_get_var env_x "x" = some (0, 0) ∧
    env_x.var_at (0, 0) = some { name := some "x", val := some (.num 6) } ∧
    env_scope_begin env_x = .ok () env_x_inner ∧
    ∃ e2 e3 e4,
      eval_stmt_let 2 env_x_inner (.mk "x" (some (.val (.num 1))) none) = .ok () e2 ∧
      env_get_var e2 "x" = some (env_x.scope, 0) ∧ eval_expr_id e2 "x" = .ok (.num 1) e2 ∧
      eval_expr 3 e2 (.bin_op BIN_OP_ASSIGN (.id "x") (.val (.num 2))) = .ok (.num 2) e3 ∧
      env_get_var e3 "x" = some (env_x.scope, 0) ∧ eval_expr_id e3 "x" = .ok (.num 2) e3 ∧
      e3.var_at (0, 0) = some { name := some "x", val := some (.num 6) } ∧
      env_scope_end 2 e3 = .ok () e4 ∧
      env_get_var e4 "x" = some (0, 0) ∧
      e4.var_at (0, 0) = some { name := some "x", val := some (.num 6) } ∧
      eval_expr_id e4 "x" = .ok (.num 6) e4 :=
  ⟨by decide, rfl, rfl,
    (shadowing_balanced 0 env_x env_x_inner "x" (0, 0) { name := some "x", val := some (.num 6) }
      (.num 6) (.num 1) (.num 2) (by decide) rfl rfl rfl rfl).1⟩

/-- C3. The program
`let x = 1  do { let x = 2  for (; true; ) { return 1 } }  println(x)` runs
without an error and writes `2`: after the do-block `x` still resolves to the
variable declared inside it.  With `while true { return 1 }` in place of the
for statement it writes `1`. -/
theorem C3_shadow_outlives_for_return :
    (run_program 8 40 [] shadow_program).fatal? = none ∧
    (run_program 8 40 [] shadow_program).env?.map (fun e => e.stdout) = some "2\n" ∧
    (run_program 8 40 [] shadow_program_while).env?.map (fun e => e.stdout) = some "1\n" := by
  decide!

/-- C4. In the program
`do { let x = 2  for (; true; ) { return 1 } }  let x = 3  println(x)` the let
after the do-block is rejected as a redeclaration, although the block that
declared `x` is over.  With `while true { return 1 }` in place of the for
statement the program runs without an error and writes `3`. -/
theorem C4_let_after_for_return_rejected :
    (run_program 8 40 [] redeclare_program).fatal?
      = some (.error "Variable 'x' redeclared") ∧
    (run_program 8 40 [] redeclare_program_while).fatal? = none ∧
    (run_program 8 40 [] redeclare_program_while).env?.map (fun e => e.stdout)
      = some "3\n" := by
  decide!

/-- Reading a variable after the store through its pointer gives the value
stored. -/
theorem eval_expr_id_set_var_val {D : Type} (e : env_t D) (x : String) (p : Nat × Nat)
    (var : var_t D) (w : value_t D) (hp : env_get_var e x = some p)
    (hv : e.var_at p = some var) :
    eval_expr_id (e.set_var_val p w) x = .ok w (e.set_var_val p w) := by
  simp only [eval_expr_id, env_get_var_set_var_val, hp, var_at_set_var_val_self e p w var hv]

/-- C13. A return statement executed while `returns == 0` ends with the
`Unexpected return` error in the environment it was reached in, whatever its
expression is: the expression is not evaluated.  So does a statement list that
reaches it, and an if statement at `returns == 0` whose branch reaches it.
While `returns > 0` the expression is evaluated, its value is stored as the
pending return value and `returning` is set; the statement list returns
there. -/
theorem C13_return {D : Type} [double_ops D] (n : Nat) (e : env_t D) (expr : expr_t D) :
    (e.returns = 0 →
      eval_stmt_return (n + 1) e expr = .halt (.error "Unexpected return") e ∧
      (∀ rest, eval (n + 2) e (.return_ expr :: rest) = .halt (.error "Unexpected return") e) ∧
      (∀ e1 rest next else_ after, env_scope_begin e = .ok () e1 →
        eval (n + 5) e (.if_ (.mk (.val (.bool true)) (.return_ expr :: rest) next else_) :: after)
          = .halt (.error "Unexpected return") e1)) ∧
    (e.returns ≠ 0 → ∀ v e1, eval_expr n e expr = .ok v e1 →
      eval_stmt_return (n + 1) e expr
        = .ok () { e1 with return_ := v, returning := true, returned := e1.returned + 1 } ∧
      ∀ rest, eval (n + 2) e (.return_ expr :: rest)
        = .ok () { e1 with return_ := v, returning := true, returned := e1.returned + 1 }) := by
  constructor
  · intro h0
    refine ⟨by simp [eval_stmt_return, h0], fun rest => by simp [eval, eval_stmt_return, h0], ?_⟩
    intro e1 rest next else_ after hb
    obtain ⟨s, _, rfl⟩ := env_scope_begin_eq e e1 hb
    simp [eval, eval_stmt_if, hb, eval_expr, eval_stmt_return, h0, res.bind]
  · intro h0 v e1 hx
    refine ⟨by simp [eval_stmt_return, h0, hx, res.bind], fun rest => ?_⟩
    simp [eval, eval_stmt_return, h0, hx, res.bind]

/-- `C13_return` at the environment of `env_init` with `return println("a")`:
nothing is written. -/
theorem C13_return_witness :
    (env_zero 4 [] : env_t Int).returns = 0 ∧
    eval_stmt_return 1 (env_zero 4 [] : env_t Int) (.call "println" [.val (.str "a")])
      = .halt (.error "Unexpected return") (env_zero 4 []) ∧
    (run_program 4 20 [] [while_return]).fatal?
      = some (.error "Unexpected return") ∧
    (run_program 4 20 [] [for_return]).fatal? = some (.error "Unexpected return") :=
  ⟨rfl, ((C13_return 0 (env_zero 4 [] : env_t Int) (.call "println" [.val (.str "a")])).1 rfl).1,
    by decide!, by decide!⟩

/-- C14 fails as stated: in `env_x`, where `x` holds 6, the expression
`x ++ 2` evaluates to 2, the value of its right operand, and not to 8, the
number `x` holds afterwards. -/
theorem C14_inc_returns_right_operand :
    (eval_expr 3 env_x (.bin_op BIN_OP_INC (.id "x") (.val (.num 2)))).val? = some (.num 2) ∧
    (eval_expr 3 env_x (.bin_op BIN_OP_INC (.id "x") (.val (.num 2)))).val? ≠ some (.num 8) ∧
    ((eval_expr 3 env_x (.bin_op BIN_OP_INC (.id "x") (.val (.num 2)))).bind fun _ e =>
      eval_expr_id e "x").val? = some (.num 8) := by
  decide!

/-- C14, amended.  Let `x` resolve to a variable holding the Number `a` and let
the right operand evaluate to the Number `b`.  Then `x ++ b`, `x -- b`,
`x ** b` and, when `b` is not equal to 0, `x // b` store `a + b`, `a - b`,
`a * b` and `a / b` in the variable, which reads so afterwards, and the
expression evaluates to `b`, the value of the right operand. -/
theorem C14_compound_assignment {D : Type} [double_ops D] (n : Nat) (e e1 : env_t D)
    (x : String) (right : expr_t D) (a b : D) (p : Nat × Nat) (var : var_t D)
    (hr : eval_expr n e right = .ok (.num b) e1) (hp : env_get_var e1 x = some p)
    (hv : e1.var_at p = some var) (ha : var.val = some (.num a)) :
    (eval_expr (n + 2) e (.bin_op BIN_OP_INC (.id x) right)
        = .ok (.num b) (e1.set_var_val p (.num (double_ops.add a b))) ∧
      eval_expr_id (e1.set_var_val p (.num (double_ops.add a b))) x
        = .ok (.num (double_ops.add a b)) (e1.set_var_val p (.num (double_ops.add a b)))) ∧
    (eval_expr (n + 2) e (.bin_op BIN_OP_DEC (.id x) right)
        = .ok (.num b) (e1.set_var_val p (.num (double_ops.sub a b))) ∧
      eval_expr_id (e1.set_var_val p (.num (double_ops.sub a b))) x
        = .ok (.num (double_ops.sub a b)) (e1.set_var_val p (.num (double_ops.sub a b)))) ∧
    (eval_expr (n + 2) e (.bin_op BIN_OP_XINC (.id x) right)
        = .ok (.num b) (e1.set_var_val p (.num (double_ops.mul a b))) ∧
      eval_expr_id (e1.set_var_val p (.num (double_ops.mul a b))) x
        = .ok (.num (double_ops.mul a b)) (e1.set_var_val p (.num (double_ops.mul a b)))) ∧
    (double_ops.eq b (double_ops.of_nat 0) = false →
      eval_expr (n + 2) e (.bin_op BIN_OP_XDEC (.id x) right)
        = .ok (.num b) (e1.set_var_val p (.num (double_ops.div a b))) ∧
      eval_expr_id (e1.set_var_val p (.num (double_ops.div a b))) x
        = .ok (.num (double_ops.div a b)) (e1.set_var_val p (.num (double_ops.div a b)))) := by
  refine ⟨⟨?_, eval_expr_id_set_var_val e1 x p var _ hp hv⟩,
    ⟨?_, eval_expr_id_set_var_val e1 x p var _ hp hv⟩,
    ⟨?_, eval_expr_id_set_var_val e1 x p var _ hp hv⟩,
    fun hz => ⟨?_, eval_expr_id_set_var_val e1 x p var _ hp hv⟩⟩
  · rw [eval_expr_bin_op_of_assigning n e e1 BIN_OP_INC x right _ rfl hr]
    simp [bin_op_assigning, eval_expr_bin_op_inc, eval_expr_bin_op_update, hp, hv, ha,
      value_t.type]
  · rw [eval_expr_bin_op_of_assigning n e e1 BIN_OP_DEC x right _ rfl hr]
    simp [bin_op_assigning, eval_expr_bin_op_dec, eval_expr_bin_op_update, hp, hv, ha,
      value_t.type]
  · rw [eval_expr_bin_op_of_assigning n e e1 BIN_OP_XINC x right _ rfl hr]
    simp [bin_op_assigning, eval_expr_bin_op_xinc, eval_expr_bin_op_update, hp, hv, ha,
      value_t.type]
  · rw [eval_expr_bin_op_of_assigning n e e1 BIN_OP_XDEC x right _ rfl hr]
    simp [bin_op_assigning, eval_expr_bin_op_xdec, hp, hv, ha, hz, value_t.type]

/-- `C14_compound_assignment` at `env_x`, where `x` holds 6, with the right
operand 2: `x ++ 2` evaluates to 2 and `x` reads 8 afterwards. -/
theorem C14_compound_assignment_witness :
    eval_expr 1 env_x (.val (.num 2)) = .ok (.num 2) env_x ∧
    env_get_var env_x "x" = some (0, 0) ∧
    env_x.var_at (0, 0) = some { name := some "x", val := some (.num 6) } ∧
    eval_expr 3 env_x (.bin_op BIN_OP_INC (.id "x") (.val (.num 2)))
      = .ok (.num 2) (env_x.set_var_val (0, 0) (.num 8)) ∧
    eval_expr_id (env_x.set_var_val (0, 0) (.num 8)) "x"
      = .ok (.num 8) (env_x.set_var_val (0, 0) (.num 8)) :=
  ⟨rfl, by decide, rfl,
    (C14_compound_assignment 1 env_x env_x "x" (.val (.num 2)) 6 2 (0, 0)
      { name := some "x", val := some (.num 6) } rfl (by decide) rfl rfl).1⟩

/-- C15. `and` and `or` do not short-circuit.  The left operand is evaluated,
then the right operand in the environment the left one left, and only then is
the result or a type error produced: when the right operand ends the
evaluation, so does the operation, whatever the left operand was; when both
return, the outcome is in the environment the right operand left.  For two
Bools it is the conjunction or disjunction; for a Bool on the left and another
variant on the right it is a type error, also for `false and` and `true or`;
for a left operand that is not a Bool it is a type error. -/
theorem C15_no_short_circuit {D : Type} [double_ops D] (n : Nat) (e e1 : env_t D)
    (left right : expr_t D) (l : value_t D) (hl : eval_expr n e left = .ok l e1) :
    (∀ f e2, eval_expr n e1 right = .halt f e2 →
      eval_expr (n + 2) e (.bin_op BIN_OP_AND left right) = .halt f e2 ∧
      eval_expr (n + 2) e (.bin_op BIN_OP_OR left right) = .halt f e2) ∧
    (∀ r e2, eval_expr n e1 right = .ok r e2 →
      (∀ a b, l = .bool a → r = .bool b →
        eval_expr (n + 2) e (.bin_op BIN_OP_AND left right) = .ok (.bool (a && b)) e2 ∧
        eval_expr (n + 2) e (.bin_op BIN_OP_OR left right) = .ok (.bool (a || b)) e2) ∧
      (∀ a, l = .bool a → r.type ≠ VALUE_TYPE_BOOL →
        eval_expr (n + 2) e (.bin_op BIN_OP_AND left right)
          = .halt (.wrong_type r.type
              "right side of 'and' operation, expected same as left side") e2 ∧
        eval_expr (n + 2) e (.bin_op BIN_OP_OR left right)
          = .halt (.wrong_type r.type
              "right side of 'or' operation, expected same as left side") e2) ∧
      (l.type ≠ VALUE_TYPE_BOOL →
        eval_expr (n + 2) e (.bin_op BIN_OP_AND left right)
          = .halt (.wrong_type l.type "left side of 'and' operation") e2 ∧
        eval_expr (n + 2) e (.bin_op BIN_OP_OR left right)
          = .halt (.wrong_type l.type "left side of 'or' operation") e2)) := by
  constructor
  · intro f e2 hr
    constructor <;> simp [eval_expr, eval_expr_bin_op, bin_op_type_t.assigns, hl, hr, res.bind]
  · intro r e2 hr
    have hand := eval_expr_bin_op_of_values n e e1 e2 BIN_OP_AND left right l r rfl hl hr
    have hor := eval_expr_bin_op_of_values n e e1 e2 BIN_OP_OR left right l r rfl hl hr
    rw [hand, hor]
    refine ⟨?_, ?_, ?_⟩
    · intro a b ha hb
      subst ha
      subst hb
      exact ⟨rfl, rfl⟩
    · intro a ha hb
      subst ha
      cases r <;>
        simp_all [bin_op_values, eval_expr_bin_op_and, eval_expr_bin_op_or,
          eval_expr_bin_op_logic, res.of_except, value_t.type]
    · intro hb
      cases l <;>
        simp_all [bin_op_values, eval_expr_bin_op_and, eval_expr_bin_op_or,
          eval_expr_bin_op_logic, res.of_except, value_t.type]

/-- `C15_no_short_circuit` at `env_b`, where `b` holds `false`, with
`false and (b = true)`: the result is `false` and `b` holds `true`
afterwards. -/
theorem C15_no_short_circuit_witness :
    eval_expr 3 env_b (.val (.bool false)) = .ok (.bool false) env_b ∧
    eval_expr 3 env_b (.bin_op BIN_OP_ASSIGN (.id "b") (.val (.bool true)))
      = .ok (.bool true) (env_b.set_var_val (0, 0) (.bool true)) ∧
    eval_expr 5 env_b (.bin_op BIN_OP_AND (.val (.bool false))
        (.bin_op BIN_OP_ASSIGN (.id "b") (.val (.bool true))))
      = .ok (.bool (false && true)) (env_b.set_var_val (0, 0) (.bool true)) ∧
    eval_expr_id (env_b.set_var_val (0, 0) (.bool true)) "b"
      = .ok (.bool true) (env_b.set_var_val (0, 0) (.bool true)) :=
  ⟨rfl, rfl,
    (((C15_no_short_circuit 3 env_b env_b (.val (.bool false))
      (.bin_op BIN_OP_ASSIGN (.id "b") (.val (.bool true))) (.bool false) rfl).2
        (.bool true) (env_b.set_var_val (0, 0) (.bool true)) rfl).1
          false true rfl rfl).1,
    rfl⟩

/-- C19. Binary `+`.  Let the operands evaluate to the values `l` and `r`.
For two Numbers the result is their sum.  For two Strings `s` and `t` it is
the String of the bytes of `s` followed by those of `t`: its length is the sum
of the two lengths, which is what `len` returns for it, and the empty string on
either side gives the other operand.  The environment is the one the operands
left, so that two variables read as operands hold their strings afterwards.
For operands of differing variants, and for two operands of the same variant
that is neither Number nor String, it is a type error. -/
theorem C19_add {D : Type} [double_ops D] (n : Nat) (e e1 e2 : env_t D)
    (left right : expr_t D) (l r : value_t D)
    (hl : eval_expr n e left = .ok l e1) (hr : eval_expr n e1 right = .ok r e2) :
    (∀ a b, l = .num a → r = .num b →
      eval_expr (n + 2) e (.bin_op BIN_OP_ADD left right) = .ok (.num (double_ops.add a b)) e2) ∧
    (∀ s t, l = .str s → r = .str t →
      eval_expr (n + 2) e (.bin_op BIN_OP_ADD left right) = .ok (.str (s ++ t)) e2 ∧
      (s ++ t).data = s.data ++ t.data ∧
      (s ++ t).length = s.length + t.length ∧
      eval_expr (n + 4) e (.call "len" [.bin_op BIN_OP_ADD left right])
        = .ok (.num (double_ops.of_nat (s.length + t.length))) e2 ∧
      (s = "" → s ++ t = t) ∧ (t = "" → s ++ t = s)) ∧
    (∀ (x y : String) (s t : String) (e0 : env_t D),
      eval_expr_id e0 x = .ok (.str s) e0 → eval_expr_id e0 y = .ok (.str t) e0 →
      eval_expr (n + 3) e0 (.bin_op BIN_OP_ADD (.id x) (.id y)) = .ok (.str (s ++ t)) e0) ∧
    (r.type ≠ l.type →
      eval_expr (n + 2) e (.bin_op BIN_OP_ADD left right)
        = .halt (.wrong_type r.type
            "right side of '+' operation, expected same as left side") e2) ∧
    (r.type = l.type → l.type ≠ VALUE_TYPE_NUM → l.type ≠ VALUE_TYPE_STR →
      eval_expr (n + 2) e (.bin_op BIN_OP_ADD left right)
        = .halt (.wrong_type l.type "left side of '+' operation") e2) := by
  have hadd := eval_expr_bin_op_of_values n e e1 e2 BIN_OP_ADD left right l r rfl hl hr
  refine ⟨?_, ?_, ?_, ?_, ?_⟩
  · intro a b ha hb
    subst ha
    subst hb
    rw [hadd]
    simp [bin_op_values, eval_expr_bin_op_add, res.of_except, value_t.type]
  · intro s t ha hb
    subst ha
    subst hb
    have h1 : eval_expr (n + 2) e (.bin_op BIN_OP_ADD left right) = .ok (.str (s ++ t)) e2 := by
      rw [hadd]
      simp [bin_op_values, eval_expr_bin_op_add, res.of_except, value_t.type]
    refine ⟨h1, rfl, String.length_append s t, ?_, ?_, ?_⟩
    · simp [eval_expr, eval_expr_call, res.bind, String.length_append]
      have h1' := h1
      simp only [eval_expr] at h1'
      rw [h1']
      simp [String.length_append]
    · intro h
      subst h
      exact String.empty_append t
    · intro h
      subst h
      exact String.append_empty s
  · intro x y s t e0 hx hy
    have hx' : eval_expr (n + 1) e0 (.id x) = .ok (.str s) e0 := by simpa [eval_expr] using hx
    have hy' : eval_expr (n + 1) e0 (.id y) = .ok (.str t) e0 := by simpa [eval_expr] using hy
    rw [eval_expr_bin_op_of_values (n + 1) e0 e0 e0 BIN_OP_ADD (.id x) (.id y) _ _ rfl hx' hy']
    simp [bin_op_values, eval_expr_bin_op_add, res.of_except, value_t.type]
  · intro ht
    rw [hadd]
    simp [bin_op_values, eval_expr_bin_op_add, res.of_except, ht]
  · intro ht hn hs
    rw [hadd]
    cases l <;> cases r <;>
      simp_all [bin_op_values, eval_expr_bin_op_add, res.of_except, value_t.type]

/-- `C19_add` at the literals `"ab"` and `"c"`: the result is `"abc"` and
`len` of it is 3. -/
theorem C19_add_witness :
    eval_expr 1 (env_zero 4 [] : env_t Int) (.val (.str "ab")) = .ok (.str "ab") (env_zero 4 []) ∧
    eval_expr 1 (env_zero 4 [] : env_t Int) (.val (.str "c")) = .ok (.str "c") (env_zero 4 []) ∧
    eval_expr 3 (env_zero 4 [] : env_t Int) (.bin_op BIN_OP_ADD (.val (.str "ab")) (.val (.str "c")))
      = .ok (.str ("ab" ++ "c")) (env_zero 4 []) ∧
    eval_expr 5 (env_zero 4 [] : env_t Int)
        (.call "len" [.bin_op BIN_OP_ADD (.val (.str "ab")) (.val (.str "c"))])
      = .ok (.num (double_ops.of_nat ("ab".length + "c".length))) (env_zero 4 []) :=
  ⟨rfl, rfl,
    ((C19_add 1 (env_zero 4 [] : env_t Int) (env_zero 4 []) (env_zero 4 []) (.val (.str "ab"))
      (.val (.str "c")) (.str "ab") (.str "c") rfl rfl).2.1 "ab" "c" rfl rfl).1,
    ((C19_add 1 (env_zero 4 [] : env_t Int) (env_zero 4 []) (env_zero 4 []) (.val (.str "ab"))
      (.val (.str "c")) (.str "ab") (.str "c") rfl rfl).2.1 "ab" "c" rfl rfl).2.2.2.1⟩

/-- C12. `exit` with one argument that evaluates to the Number `d` ends the
evaluation with the status `(int)d`, in the environment the argument left; so
does a statement list from that statement on, whatever follows it.  With one
argument of another variant it ends with a type error, with another number of
arguments with the `wrong_arg_count` error, without evaluating any.  An
evaluation that has ended is not continued: a do-block, an if, while or for
statement and the end of a scope whose body or deferred statement ended the
evaluation end it in the same environment, without ending their scope, so that
no deferred statement is executed. -/
theorem C12_exit {D : Type} [double_ops D] (n : Nat) (e : env_t D) (args : List (expr_t D)) :
    (∀ arg d e1, args = [arg] → eval_expr n e arg = .ok (.num d) e1 →
      eval_expr (n + 2) e (.call "exit" args) = .halt (.exit (double_ops.to_int d)) e1 ∧
      ∀ rest, eval (n + 3) e (.expr (.call "exit" args) :: rest)
        = .halt (.exit (double_ops.to_int d)) e1) ∧
    (∀ arg v e1, args = [arg] → eval_expr n e arg = .ok v e1 →
      v.type ≠ value_type_t.VALUE_TYPE_NUM →
      eval_expr (n + 2) e (.call "exit" args)
        = .halt (.wrong_type v.type "'exit' function") e1) ∧
    (args.length ≠ 1 →
      eval_expr (n + 2) e (.call "exit" args) = .halt (.wrong_arg_count args.length 1) e) ∧
    (∀ f e' body, eval n e body = .halt f e' →
      (∀ e0, env_scope_begin e0 = .ok () e →
        eval_stmt_if (n + 1) e0 (.mk (.val (.bool true)) body none []) = .halt f e' ∧
        eval_stmt_while (n + 2) e0 (.val (.bool true)) body = .halt f e') ∧
      (∀ e0 e1 step, env_scope_begin e0 = .ok () e1 → e1.returning = false →
        env_scope_begin e1 = .ok () e →
        eval_stmt_for (n + 2) e0 [] (.val (.bool true)) step body = .halt f e') ∧
      (∀ e0 e1, env_scope_begin e0 = .ok () e1 →
        e = { e1 with returns := e1.returns + 1, return_ := .nil } →
        eval_expr_do (n + 2) e0 body = .halt f e') ∧
      (∀ s i, e.top = some s → s.defer[i]? = some body →
        env_scope_end_loop (n + 1) e (i + 1) = .halt f e')) := by
  refine ⟨?_, ?_, ?_, ?_⟩
  · intro arg d e1 ha hx
    subst ha
    have h : eval_expr (n + 2) e (.call "exit" [arg]) = .halt (.exit (double_ops.to_int d)) e1 := by
      simp [eval_expr, eval_expr_call, hx, res.bind]
    refine ⟨h, fun rest => ?_⟩
    simp only [eval, h, res.bind_halt]
  · intro arg v e1 ha hx hv
    subst ha
    cases v <;> simp_all [eval_expr, eval_expr_call, res.bind, value_t.type]
  · intro hlen
    match args, hlen with
    | [], _ => simp [eval_expr, eval_expr_call]
    | [_], h => simp at h
    | _ :: _ :: _, _ => simp [eval_expr, eval_expr_call]
  · intro f e' body hb
    refine ⟨fun e0 h0 => ⟨?_, ?_⟩, fun e0 e1 step h0 hr h1 => ?_, fun e0 e1 h0 he => ?_,
      fun s i ht hd => ?_⟩
    · cases n with
      | zero => simp [eval] at hb
      | succ n => simp [eval_stmt_if, h0, eval_expr, hb, res.bind]
    · cases n with
      | zero => simp [eval] at hb
      | succ n => simp [eval_stmt_while, eval_stmt_while_loop, h0, eval_expr, hb, res.bind]
    · cases n with
      | zero => simp [eval] at hb
      | succ n =>
        simp [eval_stmt_for, eval_stmt_for_loop, h0, eval, hr, eval_expr, h1, hb, res.bind]
    · subst he
      simp [eval_expr_do, eval_with_return, h0, hb, res.bind]
    · simp [env_scope_end_loop, ht, hd, hb, res.bind]

/-- `C12_exit` at `exit(2)`, and the run of
`defer println("top")  do { defer println("A")  exit(2)  println("B") }`: it
ends with the status 2 and has written nothing, while the program without the
call writes `B`, `A`, `top`. -/
theorem C12_exit_witness :
    eval_expr 1 (env_zero 4 [] : env_t Int) (.val (.num 2)) = .ok (.num 2) (env_zero 4 []) ∧
    eval_expr 3 (env_zero 4 [] : env_t Int) (.call "exit" [.val (.num 2)])
      = .halt (.exit 2) (env_zero 4 []) ∧
    (run_program 4 20 [] exit_program).fatal? = some (.exit 2) ∧
    (run_program 4 20 [] exit_program).halt_env?.map (fun e => e.stdout) = some "" ∧
    (run_program 4 20 [] no_exit_program).env?.map (fun e => e.stdout) = some "B\nA\ntop\n" :=
  ⟨rfl,
    ((C12_exit 1 (env_zero 4 [] : env_t Int) [.val (.num 2)]).1 (.val (.num 2)) 2 (env_zero 4 [])
      rfl rfl).1,
    by decide!, by decide!, by decide!⟩

/-- The store through a variable pointer leaves every other variable what it
was. -/
theorem var_at_set_var_val_ne {D : Type} (e : env_t D) (p q : Nat × Nat) (v : value_t D)
    (h : q ≠ p) : (e.set_var_val p v).var_at q = e.var_at q := by
  by_cases h1 : q.1 = p.1
  · by_cases h2 : q.2 = p.2
    · exact absurd (Prod.ext h1 h2) h
    · exact var_at_set_var_val_slot e p q v h2
  · exact var_at_set_var_val_frame e p q v h1

/-- What a successful assigning operator did: the variable the name resolves
to held a value, and a value of the same variant was stored in it. -/
theorem bin_op_assigning_spec {D : Type} [double_ops D] (t : bin_op_type_t)
    (e e' : env_t D) (name : String) (val v : value_t D)
    (h : bin_op_assigning t e name val = .ok v e') :
    ∃ q w var old, env_get_var e name = some q ∧ e.var_at q = some var ∧ var.val = some old ∧
      w.type = old.type ∧ v = val ∧ e' = e.set_var_val q w := by
  have hu : ∀ (op : String) (f : D → D → D),
      eval_expr_bin_op_update op f e name val = .ok v e' →
      ∃ q w var old, env_get_var e name = some q ∧ e.var_at q = some var ∧
        var.val = some old ∧ w.type = old.type ∧ v = val ∧ e' = e.set_var_val q w := by
    intro op f h
    unfold eval_expr_bin_op_update at h
    split at h
    · cases h
    · rename_i q hq
      split at h
      · cases h
      · rename_i var hv
        split at h
        · cases h
        · rename_i old ho
          split at h
          · cases h
          · cases old <;> cases val <;> simp at h
            obtain ⟨h1, h2⟩ := h
            refine ⟨q, _, var, _, hq, hv, ho, ?_, h1.symm, h2.symm⟩
            rfl
  unfold bin_op_assigning at h
  split at h
  · unfold eval_expr_bin_op_assign at h
    split at h
    · cases h
    · rename_i q hq
      split at h
      · cases h
      · rename_i var hv
        split at h
        · cases h
        · rename_i old ho
          split at h
          · cases h
          · rename_i hne
            injection h with h1 h2
            exact ⟨q, val, var, old, hq, hv, ho, by simpa using hne, h1.symm, h2.symm⟩
  · exact hu _ _ h
  · exact hu _ _ h
  · exact hu _ _ h
  · unfold eval_expr_bin_op_xdec at h
    split at h
    · cases h
    · rename_i q hq
      split at h
      · cases h
      · rename_i var hv
        split at h
        · cases h
        · rename_i old ho
          cases old with
          | num a =>
            cases val with
            | num b =>
              by_cases hz : double_ops.eq b (double_ops.of_nat 0) = true
              · simp [value_t.type, hz] at h
              · simp [value_t.type, hz] at h
                obtain ⟨h1, h2⟩ := h
                refine ⟨q, _, var, _, hq, hv, ho, ?_, h1.symm, h2.symm⟩
                rfl
            | _ => simp [value_t.type] at h
          | _ => cases val <;> simp [value_t.type] at h

/-- C18. Assignment `x = right`, the right operand having the value `val`.
When `x` resolves to a variable whose value has the variant of `val`, the
value is stored in that variable, the first match of the scan from the
innermost frame outwards; the expression evaluates to `val`, `x` reads `val`
afterwards, every other variable is what it was and every name resolves as
before.  When `x` is not found the evaluation ends with the `undefined` error,
when the variants differ with a type error, both in the environment the right
operand left.  An assignment that succeeded was of the first kind.  After
every assignment and compound assignment that succeeded each variable has its
name and a value of the variant it had, so that a variable holding Nil holds
Nil. -/
theorem C18_assignment {D : Type} [double_ops D] (n : Nat) (e e1 : env_t D) (x : String)
    (right : expr_t D) (val : value_t D) (hr : eval_expr n e right = .ok val e1) :
    (∀ p var old, env_get_var e1 x = some p → e1.var_at p = some var → var.val = some old →
      val.type = old.type →
      eval_expr (n + 2) e (.bin_op BIN_OP_ASSIGN (.id x) right) = .ok val (e1.set_var_val p val) ∧
      eval_expr_id (e1.set_var_val p val) x = .ok val (e1.set_var_val p val) ∧
      (e1.set_var_val p val).var_at p = some { var with val := some val } ∧
      (∀ q, q ≠ p → (e1.set_var_val p val).var_at q = e1.var_at q) ∧
      (∀ name, env_get_var (e1.set_var_val p val) name = env_get_var e1 name)) ∧
    (env_get_var e1 x = none →
      eval_expr (n + 2) e (.bin_op BIN_OP_ASSIGN (.id x) right) = .halt (.undefined x) e1) ∧
    (∀ p var old, env_get_var e1 x = some p → e1.var_at p = some var → var.val = some old →
      val.type ≠ old.type →
      eval_expr (n + 2) e (.bin_op BIN_OP_ASSIGN (.id x) right)
        = .halt (.wrong_type val.type "assignment") e1) ∧
    (∀ v e2, eval_expr (n + 2) e (.bin_op BIN_OP_ASSIGN (.id x) right) = .ok v e2 →
      ∃ p var old, env_get_var e1 x = some p ∧ e1.var_at p = some var ∧ var.val = some old ∧
        val.type = old.type ∧ v = val ∧ e2 = e1.set_var_val p val) ∧
    (∀ t v e2, t.assigns = true → eval_expr (n + 2) e (.bin_op t (.id x) right) = .ok v e2 →
      ∀ q var old, e1.var_at q = some var → var.val = some old →
        ∃ var' new, e2.var_at q = some var' ∧ var'.name = var.name ∧ var'.val = some new ∧
          new.type = old.type ∧ (old = .nil → new = .nil)) := by
  have hasg := eval_expr_bin_op_of_assigning n e e1 BIN_OP_ASSIGN x right val rfl hr
  refine ⟨?_, ?_, ?_, ?_, ?_⟩
  · intro p var old hp hv ho ht
    refine ⟨?_, eval_expr_id_set_var_val e1 x p var val hp hv,
      var_at_set_var_val_self e1 p val var hv,
      fun q hq => var_at_set_var_val_ne e1 p q val hq,
      fun name => env_get_var_set_var_val e1 p val name⟩
    rw [hasg]
    exact eval_expr_bin_op_assign_ok e1 x p var old val hp hv ho ht
  · intro hp
    rw [hasg]
    simp [bin_op_assigning, eval_expr_bin_op_assign, hp]
  · intro p var old hp hv ho ht
    rw [hasg]
    simp [bin_op_assigning, eval_expr_bin_op_assign, hp, hv, ho, ht]
  · intro v e2 h
    rw [hasg] at h
    unfold bin_op_assigning at h
    simp only at h
    unfold eval_expr_bin_op_assign at h
    split at h
    · cases h
    · rename_i q hq
      split at h
      · cases h
      · rename_i var hv
        split at h
        · cases h
        · rename_i old ho
          split at h
          · cases h
          · rename_i hne
            injection h with h1 h2
            exact ⟨q, var, old, hq, hv, ho, by simpa using hne, h1.symm, h2.symm⟩
  · intro t v e2 ht h q var old hv ho
    rw [eval_expr_bin_op_of_assigning n e e1 t x right val ht hr] at h
    obtain ⟨p, w, var0, old0, hp, hv0, ho0, hty, _, rfl⟩ :=
      bin_op_assigning_spec t e1 e2 x val v h
    by_cases hqp : q = p
    · subst hqp
      rw [hv0] at hv
      injection hv with hv
      subst hv
      rw [ho0] at ho
      injection ho with ho
      subst ho
      refine ⟨_, w, var_at_set_var_val_self e1 q w var0 hv0, rfl, rfl, hty, fun h0 => ?_⟩
      subst h0
      cases w <;> simp_all [value_t.type]
    · refine ⟨var, old, ?_, rfl, ho, rfl, fun h0 => h0⟩
      rw [var_at_set_var_val_ne e1 p q w hqp]
      exact hv

/-- `C18_assignment` at `env_x`, where `x` holds 6, with `x = 7`. -/
theorem C18_assignment_witness :
    eval_expr 1 env_x (.val (.num 7)) = .ok (.num 7) env_x ∧
    env_get_var env_x "x" = some (0, 0) ∧
    eval_expr 3 env_x (.bin_op BIN_OP_ASSIGN (.id "x") (.val (.num 7)))
      = .ok (.num 7) (env_x.set_var_val (0, 0) (.num 7)) ∧
    eval_expr_id (env_x.set_var_val (0, 0) (.num 7)) "x"
      = .ok (.num 7) (env_x.set_var_val (0, 0) (.num 7)) ∧
    eval_expr 3 env_x (.bin_op BIN_OP_ASSIGN (.id "x") (.val (.str "a")))
      = .halt (.wrong_type VALUE_TYPE_STR "assignment") env_x ∧
    eval_expr 3 env_x (.bin_op BIN_OP_ASSIGN (.id "y") (.val (.num 7)))
      = .halt (.undefined "y") env_x :=
  ⟨rfl, by decide,
    ((C18_assignment 1 env_x env_x "x" (.val (.num 7)) (.num 7) rfl).1 (0, 0)
      { name := some "x", val := some (.num 6) } (.num 6) (by decide) rfl rfl rfl).1,
    ((C18_assignment 1 env_x env_x "x" (.val (.num 7)) (.num 7) rfl).1 (0, 0)
      { name := some "x", val := some (.num 6) } (.num 6) (by decide) rfl rfl rfl).2.1,
    rfl, rfl⟩

open value_type_t bin_op_type_t

/-- The slot a let claims, and the count after it. -/
theorem let_scan_slot {D : Type} (s : scope_t D) (name : String) (idx : Option Nat)
    (hwf : s.vars_count ≤ s.vars.length)
    (hscan : let_scan name (s.vars.take s.vars_count) 0 none = some idx) :
    (idx = none ∨ ∃ m v, idx = some m ∧ m < s.vars_count ∧ s.vars[m]? = some v ∧ v.name = none) ∧
    idx.getD s.vars_count ≤ s.vars.length := by
  rcases let_scan_spec name _ 0 none idx hscan with h | ⟨j, v, hj, hv, hn⟩
  · subst h
    exact ⟨Or.inl rfl, hwf⟩
  · subst hj
    have hlt : j < (s.vars.take s.vars_count).length := (List.getElem?_eq_some.mp hv).1
    simp only [List.length_take] at hlt
    have hj' : j < s.vars_count := by omega
    rw [List.getElem?_take_of_lt hj'] at hv
    refine ⟨Or.inr ⟨j, v, by simp, hj', hv, hn⟩, ?_⟩
    simp only [zero_add, Option.getD_some]
    omega

/-- The first stores of a let of `name` leave the scan of the frame for any
other name what it was. -/
theorem let_claim_find_ne {D : Type} (s : scope_t D) (name a : String) (idx : Option Nat)
    (hwf : s.vars_count ≤ s.vars.length)
    (hscan : let_scan name (s.vars.take s.vars_count) 0 none = some idx) (ha : a ≠ name) :
    scope_find_var { s with
      vars := scope_set_name s (idx.getD s.vars_count) name,
      vars_count := if idx = none then s.vars_count + 1 else s.vars_count } a
      = scope_find_var s a := by
  obtain ⟨hcase, hk⟩ := let_scan_slot s name idx hwf hscan
  obtain ⟨slot, hslot⟩ : ∃ slot : var_t D,
      slot = ⟨some name, (s.vars[idx.getD s.vars_count]?).bind fun v => v.val⟩ := ⟨_, rfl⟩
  have hget := fun j => buf_write_getElem? s.vars (idx.getD s.vars_count) slot hk j
  have hnew : var_t.has_name slot a = false := by
    rw [has_name_eq_false, hslot]
    intro h
    injection h with h
    exact ha h.symm
  unfold scope_find_var scope_set_name
  rw [← hslot]
  rcases hcase with h | ⟨m, v, h, hm, hv, hn⟩
  · subst h
    simp only [Option.getD_none, if_true] at hget ⊢
    rw [List.take_succ, hget s.vars_count, if_pos rfl]
    have htake : List.take s.vars_count (buf_write s.vars s.vars_count slot)
        = List.take s.vars_count s.vars := by
      apply List.ext_getElem?
      intro i
      simp only [List.getElem?_take]
      split
      · rename_i hi
        rw [hget i, if_neg (by omega)]
      · rfl
    rw [htake, List.findIdx?_append]
    simp [List.findIdx?_cons, hnew]
  · subst h
    simp only [Option.getD_some, reduceCtorEq, if_false] at hget ⊢
    apply findIdx?_congr_map
    apply List.ext_getElem?
    intro i
    simp only [List.getElem?_map, List.getElem?_take]
    split
    · rw [hget i]
      split
      · rename_i him
        subst him
        rw [hv]
        simp only [Option.map_some', hnew]
        congr 1
        exact ((has_name_eq_false v a).mpr (by rw [hn]; simp)).symm
      · rfl
    · rfl

/-- While the initializer of a let of `name` is evaluated, every other name
resolves to the variable it resolved to before the let, and that variable is
what it was. -/
theorem let_claim_other_names {D : Type} (e : env_t D) (s : scope_t D) (name a : String)
    (idx : Option Nat) (ht : e.top = some s) (hwf : s.vars_count ≤ s.vars.length)
    (hscan : let_scan name (s.vars.take s.vars_count) 0 none = some idx) (ha : a ≠ name) :
    env_get_var (let_claim e s idx name) a = env_get_var e a ∧
    (∀ p, env_get_var e a = some p → (let_claim e s idx name).var_at p = e.var_at p) ∧
    (∀ v, eval_expr_id e a = .ok v e →
      eval_expr_id (let_claim e s idx name) a = .ok v (let_claim e s idx name)) := by
  obtain ⟨hne, hts⟩ := (top_eq_some e s).mp ht
  have hlt : e.scope - 1 < e.scopes.length := (List.getElem?_eq_some.mp hts).1
  have hg : env_get_var (let_claim e s idx name) a = env_get_var e a := by
    unfold env_get_var
    show env_get_var_from (let_claim e s idx name).scopes a e.scope = _
    apply env_get_var_from_congr_find
    intro j _
    by_cases hj : j = e.scope - 1
    · subst hj
      simp only [let_claim, env_t.set_top, List.getElem?_set, hlt, if_true, hts, Option.map_some']
      rw [let_claim_find_ne s name a idx hwf hscan ha]
    · rw [show (let_claim e s idx name).scopes[j]? = e.scopes[j]? from
        set_top_scopes_ne e _ j hj]
  have hv : ∀ p, env_get_var e a = some p → (let_claim e s idx name).var_at p = e.var_at p := by
    intro p hp
    obtain ⟨p1, p2⟩ := p
    obtain ⟨_, ⟨sp, hsp, hfp⟩, _⟩ := env_get_var_from_spec e.scopes a e.scope p1 p2 hp
    by_cases hj : p1 = e.scope - 1
    · subst hj
      rw [hts] at hsp
      injection hsp with hsp
      subst hsp
      obtain ⟨hcase, hk⟩ := let_scan_slot s name idx hwf hscan
      obtain ⟨hp2, v, hv, hn⟩ := scope_find_var_slot s a p2 hfp
      have hne2 : ¬ p2 = idx.getD s.vars_count := by
        rcases hcase with h | ⟨m, v', h, hm, hv', hn'⟩
        · subst h
          simp only [Option.getD_none]
          omega
        · subst h
          simp only [Option.getD_some]
          intro h
          subst h
          rw [hv] at hv'
          injection hv' with hv'
          subst hv'
          rw [hn] at hn'
          cases hn'
      simp only [env_t.var_at, let_claim, env_t.set_top, List.getElem?_set, hlt, if_true, hts,
        scope_set_name]
      rw [buf_write_getElem? _ _ _ hk p2, if_neg hne2]
    · simp only [env_t.var_at]
      rw [show (let_claim e s idx name).scopes[p1]? = e.scopes[p1]? from
        set_top_scopes_ne e _ p1 hj]
  refine ⟨hg, hv, fun v h => ?_⟩
  unfold eval_expr_id at h ⊢
  rw [hg]
  cases hp : env_get_var e a with
  | none => simp [hp] at h
  | some p =>
    simp only [hp] at h
    simp only [hv p hp]
    cases hva : e.var_at p with
    | none => simp [hva] at h
    | some var =>
      simp only [hva] at h
      cases hvl : var.val with
      | none => simp [hvl] at h
      | some v' =>
        simp only [hvl] at h
        injection h with h1 _
        simp only [hvl, h1]

/-- C16 fails as stated: the program `let a = 1, b = a  println(b)` runs
without an error and writes `1`.  No outer variable `a` exists, so the `a` in
the initializer of `b` is the sibling binding of the same chain. -/
theorem C16_initializer_sees_earlier_sibling :
    (run_program 8 40 [] chain_program).fatal? = none ∧
    (run_program 8 40 [] chain_program).env?.map (fun e => e.stdout) = some "1\n" := by
  decide!

/-- C16, amended.  A chain of let declarations is the let of its first binding
followed by the let of the rest of the chain, so that the initializer of a
binding is evaluated when the earlier bindings are declared and the later ones
are not.  The initializer of the binding `name` is evaluated in the
environment `let_claim` makes; when it ends the evaluation, so does the let.
In that environment every name other than `name` resolves to the variable it
resolved to before the binding, which is what it was, and reads the value it
read. -/
theorem C16_let_chain_in_order {D : Type} [double_ops D] (n : Nat) (e : env_t D)
    (s : scope_t D) (name : String) (idx : Option Nat) (ht : e.top = some s)
    (hwf : s.vars_count ≤ s.vars.length)
    (hscan : let_scan name (s.vars.take s.vars_count) 0 none = some idx) :
    (∀ val l, eval_stmt_let (n + 1) e (.mk name val (some l))
      = (eval_stmt_let (n + 1) e (.mk name val none)).bind fun _ e1 => eval_stmt_let n e1 l) ∧
    (∀ x next f e', eval_expr n (let_claim e s idx name) x = .halt f e' →
      eval_stmt_let (n + 1) e (.mk name (some x) next) = .halt f e') ∧
    (∀ x v e2 s2, eval_expr n (let_claim e s idx name) x = .ok v e2 → e2.scope = e.scope →
      e2.top = some s2 →
      eval_stmt_let (n + 1) e (.mk name (some x) none)
        = .ok () (e2.set_top { s2 with vars := scope_set_val s2 (idx.getD s.vars_count) v })) ∧
    (∀ a, a ≠ name →
      env_get_var (let_claim e s idx name) a = env_get_var e a ∧
      (∀ p, env_get_var e a = some p → (let_claim e s idx name).var_at p = e.var_at p) ∧
      (∀ v, eval_expr_id e a = .ok v e →
        eval_expr_id (let_claim e s idx name) a = .ok v (let_claim e s idx name))) := by
  refine ⟨?_, ?_, ?_, fun a ha => let_claim_other_names e s name a idx ht hwf hscan ha⟩
  · intro val l
    have key : ∀ r : res D (value_t D),
        (r.bind fun v e2 =>
          if e2.scope ≠ e.scope then
            res.halt (.unspecified "initializer moved e->scope: the store to the slot is unsequenced") e2
          else
            match e2.top with
            | none => res.halt (.undefined_behaviour "e->scope outside e->scopes") e2
            | some s2 =>
              eval_stmt_let n
                (e2.set_top { s2 with vars := scope_set_val s2 (idx.getD s.vars_count) v }) l)
        = (r.bind fun v e2 =>
          if e2.scope ≠ e.scope then
            res.halt (.unspecified "initializer moved e->scope: the store to the slot is unsequenced") e2
          else
            match e2.top with
            | none => res.halt (.undefined_behaviour "e->scope outside e->scopes") e2
            | some s2 =>
              res.ok () (e2.set_top
                { s2 with vars := scope_set_val s2 (idx.getD s.vars_count) v })).bind
            fun _ e1 => eval_stmt_let n e1 l := by
      intro r
      cases r with
      | out_of_fuel => rfl
      | halt f e' => rfl
      | ok v e2 =>
        simp only [res.bind_ok]
        split
        · rfl
        · split
          · rfl
          · rfl
    cases val with
    | none => simpa only [eval_stmt_let, ht, hscan] using key _
    | some x => simpa only [eval_stmt_let, ht, hscan] using key _
  · intro x next f e' hx
    simp only [eval_stmt_let, ht, hscan, hx, res.bind_halt]
  · intro x v e2 s2 hx hsc ht2
    simp [eval_stmt_let, ht, hscan, hx, hsc, ht2, res.bind]

/-- `C16_let_chain_in_order` at `env_x`, where `x` holds 6, with a let of `y`:
while the initializer of `y` is evaluated `x` reads 6, and `let y = x` leaves
`y` with the value 6. -/
theorem C16_let_chain_in_order_witness :
    env_x.top = some frame_x ∧
    let_scan "y" (frame_x.vars.take frame_x.vars_count) 0 none = some none ∧
    eval_expr_id env_x "x" = .ok (.num 6) env_x ∧
    eval_expr_id (let_claim env_x frame_x none "y") "x"
      = .ok (.num 6) (let_claim env_x frame_x none "y") ∧
    ((eval_stmt_let 2 env_x (.mk "y" (some (.id "x")) none)).bind fun _ e =>
      eval_expr_id e "y").val? = some (.num 6) ∧
    (run_program 8 40 [] chain_program_later).fatal? = some (.undefined "a") :=
  ⟨rfl, by decide, rfl,
    ((C16_let_chain_in_order 0 env_x frame_x "y" none rfl (by decide) (by decide)).2.2.2
      "x" (by decide)).2.2 (.num 6) rfl,
    by decide!, by decide!⟩

/-- Environments with the same control state are balanced. -/
theorem balanced_of_same {D : Type} (e e' : env_t D) (h : same_control e e') :
    balanced 0 e e' := by
  obtain ⟨h1, h2, _, _, _, _, h7⟩ := h
  exact ⟨by omega, fun _ hr _ => ⟨h1, by rw [h2]; exact hr⟩⟩

/-- Composition of balanced steps. -/
theorem balanced_trans {D : Type} (d : Nat) (e1 e2 e3 : env_t D) (h1 : balanced 0 e1 e2)
    (h2 : balanced d e2 e3) : balanced d e1 e3 := by
  obtain ⟨m1, k1⟩ := h1
  obtain ⟨m2, k2⟩ := h2
  refine ⟨by omega, fun hd hr he => ?_⟩
  obtain ⟨a1, b1⟩ := k1 (Nat.zero_le _) hr (by omega)
  obtain ⟨a2, b2⟩ := k2 (by omega) b1 (by omega)
  exact ⟨by omega, b2⟩

/-- `env_scope_begin` keeps the control state but for `e->scope`, which it
moves up by one frame. -/
theorem balanced_begin {D : Type} (d : Nat) (e e1 e2 : env_t D)
    (hb : env_scope_begin e = .ok () e1) (h : balanced (d + 1) e1 e2) : balanced d e e2 := by
  obtain ⟨s, _, rfl⟩ := env_scope_begin_eq e e1 hb
  obtain ⟨m, k⟩ := h
  refine ⟨m, fun hd hr he => ?_⟩
  obtain ⟨a, b⟩ := k (by show d + 1 ≤ e.scope + 1; omega) hr he
  have a' : e2.scope + (d + 1) = e.scope + 1 := a
  exact ⟨by omega, b⟩

/-- Every step of the evaluator is balanced: as long as no return statement is
executed and none was in flight, every scope that is begun is ended. -/
theorem balanced_step_closed {D : Type} [double_ops D] :
    step_closed (fun (e e' : env_t D) => balanced 0 e e')
      (fun (e e' : env_t D) => balanced 1 e e') where
  refl e := ⟨Nat.le_refl _, fun _ h _ => ⟨rfl, h⟩⟩
  trans := balanced_trans 0
  print e s := ⟨Nat.le_refl _, fun _ h _ => ⟨rfl, h⟩⟩
  read e rest := ⟨Nat.le_refl _, fun _ h _ => ⟨rfl, h⟩⟩
  for_break e e1 e2 hb h hret := by
    obtain ⟨s, _, rfl⟩ := env_scope_begin_eq e e1 hb
    obtain ⟨m, k⟩ := h
    refine ⟨m, fun _ hr he => ?_⟩
    obtain ⟨_, b⟩ := k (Nat.zero_le _) hr he
    rw [hret] at b
    cases b
  scope_pop e := by
    refine ⟨Nat.le_refl _, fun hd hr _ => ⟨?_, hr⟩⟩
    show e.scope - 1 + 1 = e.scope
    omega
  pop_trans := balanced_trans 1
  block e e1 e2 e3 hb h1 h2 := balanced_begin 0 e e1 e3 hb (balanced_trans 1 e1 e2 e3 h1 h2)
  defer e s e' h := balanced_of_same _ _ (eval_stmt_defer_same_control e e' s h)
  assigning t e name val v e' h :=
    balanced_of_same _ _ (bin_op_assigning_same_control t e e' name val v h)
  let_claim e s idx name _ _ := ⟨Nat.le_refl _, fun _ h _ => ⟨rfl, h⟩⟩
  let_store e s idx v _ := ⟨Nat.le_refl _, fun _ h _ => ⟨rfl, h⟩⟩
  set_return e e1 v _ h := by
    obtain ⟨m, _⟩ := h
    refine ⟨?_, fun _ _ he => ?_⟩
    · show e.returned ≤ e1.returned + 1
      omega
    · have he' : e1.returned + 1 = e.returned := he
      omega
  with_return e e1 h := by
    obtain ⟨m, k⟩ := h
    refine ⟨m, fun hd hr he => ?_⟩
    obtain ⟨a, b⟩ := k hd hr he
    refine ⟨a, ?_⟩
    show (if e1.returning = true then false else e1.returning) = false
    rw [b]
    rfl

/-- Every step of the evaluator leaves the names of the frames below a live
frame what they were. -/
theorem names_below_step_closed {D : Type} [double_ops D] (j : Nat) :
    step_closed (fun (e e' : env_t D) => names_below j 0 e e')
      (fun (e e' : env_t D) => names_below j 1 e e') where
  refl e := fun _ => ⟨fun _ _ _ => rfl, Nat.le_refl _⟩
  trans e1 e2 e3 h1 h2 := fun hj => by
    obtain ⟨a1, b1⟩ := h1 hj
    obtain ⟨a2, b2⟩ := h2 (by omega)
    exact ⟨fun k hk name => (a2 k hk name).trans (a1 k hk name), by omega⟩
  print e s := fun _ => ⟨fun _ _ _ => rfl, Nat.le_refl _⟩
  read e rest := fun _ => ⟨fun _ _ _ => rfl, Nat.le_refl _⟩
  for_break e e1 e2 hb h _ := fun hj => by
    obtain ⟨s, _, rfl⟩ := env_scope_begin_eq e e1 hb
    obtain ⟨a, b⟩ := h (Nat.lt_succ_of_lt hj)
    have b' : e.scope + 1 ≤ e2.scope := b
    refine ⟨fun k hk name => ?_, by omega⟩
    rw [a k hk name]
    have : ¬ e.scope = k := by omega
    simp [List.getElem?_set, this]
  scope_pop e := fun _ => by
    refine ⟨fun _ _ _ => rfl, ?_⟩
    show e.scope ≤ e.scope - 1 + 1
    omega
  pop_trans e1 e2 e3 h1 h2 := fun hj => by
    obtain ⟨a1, b1⟩ := h1 hj
    obtain ⟨a2, b2⟩ := h2 (by omega)
    exact ⟨fun k hk name => (a2 k hk name).trans (a1 k hk name), by omega⟩
  block e e1 e2 e3 hb h1 h2 := fun hj => by
    obtain ⟨s, _, rfl⟩ := env_scope_begin_eq e e1 hb
    obtain ⟨a1, b1⟩ := h1 (Nat.lt_succ_of_lt hj)
    have b1' : e.scope + 1 ≤ e2.scope := b1
    obtain ⟨a2, b2⟩ := h2 (by omega)
    refine ⟨fun k hk name => ?_, by omega⟩
    rw [a2 k hk name, a1 k hk name]
    have : ¬ e.scope = k := by omega
    simp [List.getElem?_set, this]
  defer e st e' h := fun hj => by
    unfold eval_stmt_defer at h
    split at h
    · cases h
    · cases h
      exact ⟨fun k hk name => by rw [set_top_scopes_ne e _ k (by omega)], Nat.le_refl _⟩
  assigning t e name val v e' h := fun hj => by
    obtain ⟨q, w, hq, rfl⟩ := bin_op_assigning_eq t e e' name val v h
    refine ⟨fun k _ name' => set_var_val_find e q w name' k, ?_⟩
    have := (set_var_val_bound e q w).1
    omega
  let_claim e s idx name _ _ := fun hj =>
    ⟨fun k hk name' => by
      rw [show (let_claim e s idx name).scopes[k]? = e.scopes[k]? from
        set_top_scopes_ne e _ k (by omega)], Nat.le_refl _⟩
  let_store e s idx v _ := fun hj =>
    ⟨fun k hk name' => by rw [set_top_scopes_ne e _ k (by omega)], Nat.le_refl _⟩
  set_return e e1 v _ h := fun hj => h hj
  with_return e e1 h := fun hj => h hj

/-- A scope just begun: `e->scope` is one frame up, the control state is the
same, and the new top frame holds no variable and no defer. -/
theorem env_scope_begin_top {D : Type} (e e1 : env_t D) (h : env_scope_begin e = .ok () e1) :
    e1.scope = e.scope + 1 ∧ e1.scope ≤ e1.scopes.length ∧ e1.returning = e.returning ∧
    e1.returned = e.returned ∧
    (∃ s, e1.top = some s ∧ s.vars_count = 0 ∧ s.defer_count = 0) ∧
    ∀ k, k < e.scope → e1.scopes[k]? = e.scopes[k]? := by
  obtain ⟨s, hs, rfl⟩ := env_scope_begin_eq e e1 h
  have hlt : e.scope < e.scopes.length := (List.getElem?_eq_some.mp hs).1
  refine ⟨rfl, ?_, rfl, rfl, ⟨{ s with vars_count := 0, defer_count := 0 }, ?_, rfl, rfl⟩, ?_⟩
  · simp only [List.length_set]
    omega
  · rw [top_eq_some]
    simp [List.getElem?_set, hlt]
  · intro k hk
    have : ¬ e.scope = k := by omega
    simp [List.getElem?_set, this]

/-- The for statement entered with no return in flight.  (1) After `env_scope_begin` the init is executed,
once; then the loop runs in the scope begun, and `env_scope_end` ends that
scope after the loop.  A `let i = a` as init leaves `i` readable in that scope.
(2) When the condition evaluates to `false` the loop is over.  When it
evaluates to `true`, a scope is begun, which holds no variable, so that a let
of any name succeeds in it; the body is executed in it, then the step, then
the scope is ended and the loop goes on; when no return was in flight and none
was executed, `e->scope` is then where it was at the start of the iteration.
(3) After a for statement that was entered with no return in flight and
executed no return statement, `e->scope` is where it was and every name
resolves to the variable it resolved to before the statement: what the init and
the body declared is not found.  (4) The program
`for (let i = 0; i < 3; i ++ 1) { println(i) }  println(i)` writes `0`, `1`,
`2`, each on a line, and ends at the second `println(i)`, where `i` is
undefined; with the body `let y = i  println(y)` the loop writes the same. -/
theorem for_loop_no_return_in_flight {D : Type} [double_ops D] (m : Nat) (e : env_t D)
    (init : List (stmt_t D)) (cond : expr_t D) (step body : List (stmt_t D))
    (hret : e.returning = false) :
    (∀ e1 e2, env_scope_begin e = .ok () e1 → eval m e1 init = .ok () e2 →
      e2.returned = e.returned →
      eval_stmt_for (m + 1) e init cond step body
        = (eval_stmt_for_loop m e2 cond step body).bind fun _ e3 => env_scope_end m e3) ∧
    (∀ e1 i a, env_scope_begin e = .ok () e1 →
      ∃ e2, eval (m + 3) e1 [.let_ (.mk i (some (.val a)) none)] = .ok () e2 ∧
        eval_expr_id e2 i = .ok a e2 ∧ e2.scope = e.scope + 1 ∧ e2.returned = e.returned) ∧
    (∀ e1, eval_expr m e cond = .ok (.bool false) e1 →
      eval_stmt_for_loop (m + 1) e cond step body = .ok () e1) ∧
    (∀ e1 e2 e3 e4 e5, eval_expr m e cond = .ok (.bool true) e1 →
      env_scope_begin e1 = .ok () e2 → eval m e2 body = .ok () e3 →
      eval m e3 step = .ok () e4 → env_scope_end m e4 = .ok () e5 →
      e5.returned = e.returned →
      eval_stmt_for_loop (m + 1) e cond step body = eval_stmt_for_loop m e5 cond step body ∧
      (∀ x w, ∃ e', eval_stmt_let 2 e2 (.mk x (some (.val w)) none) = .ok () e' ∧
        eval_expr_id e' x = .ok w e') ∧
      e5.scope = e.scope ∧ e5.returning = false ∧ e5.returned = e.returned) ∧
    (∀ e', eval_stmt_for m e init cond step body = .ok () e' → e'.returned = e.returned →
      e'.scope = e.scope ∧ e'.returning = false ∧
      ∀ name, env_get_var e' name = env_get_var e name) ∧
    ((run_program 8 40 [] for_program).fatal? = some (.undefined "i") ∧
      (run_program 8 40 [] for_program).halt_env?.map (fun e => e.stdout) = some "0\n1\n2\n" ∧
      (run_program 8 40 [] for_let_program).env?.map (fun e => e.stdout)
        = some "0\n1\n2\nend\n") := by
  have hbal := fun n => evaluator_sat_all _ _ (@balanced_step_closed D _) n
  have fresh : ∀ (e1 e2 : env_t D) (x : String) (w : value_t D) (n : Nat),
      env_scope_begin e1 = .ok () e2 →
      ∃ e', eval_stmt_let (n + 2) e2 (.mk x (some (.val w)) none) = .ok () e' ∧
        eval_expr_id e' x = .ok w e' ∧ e'.scope = e2.scope ∧ e'.returned = e2.returned := by
    intro e1 e2 x w n hb
    obtain ⟨_, _, _, _, ⟨s, hs, hc, _⟩, _⟩ := env_scope_begin_top e1 e2 hb
    have hscan : let_scan x (s.vars.take s.vars_count) 0 none = some none := by
      simp [hc, let_scan]
    exact ⟨_, eval_stmt_let_literal n e2 s x w none hs hscan,
      (let_declares e2 s none x w hs (by omega) hscan).2.2, rfl, rfl⟩
  refine ⟨?_, ?_, ?_, ?_, ?_, by decide!⟩
  · intro e1 e2 hb hi he
    have h1 := env_scope_begin_top e e1 hb
    have h2 := (hbal m).stmts e1 init () e2 hi
    have hr2 : e2.returning = false :=
      (h2.kept (Nat.zero_le _) (by rw [h1.2.2.1]; exact hret) (by rw [he, h1.2.2.2.1])).2
    simp [eval_stmt_for, hb, hi, hr2, res.bind]
  · intro e1 i a hb
    obtain ⟨e', h1, h2, h3, h4⟩ := fresh e e1 i a m hb
    have hb' := env_scope_begin_top e e1 hb
    refine ⟨e', ?_, h2, by rw [h3, hb'.1], by rw [h4, hb'.2.2.2.1]⟩
    simp [eval, h1, res.bind]
  · intro e1 hc
    simp [eval_stmt_for_loop, hc, res.bind]
  · intro e1 e2 e3 e4 e5 hc hb hbody hstep hend he
    have c1 := (hbal m).expr e cond _ e1 hc
    have b1 := env_scope_begin_top e1 e2 hb
    have c3 := (hbal m).stmts e2 body () e3 hbody
    have c4 := (hbal m).stmts e3 step () e4 hstep
    have c5 := (hbal m).scope_end e4 () e5 hend
    have m1 := c1.mono
    have m3 := c3.mono
    have m4 := c4.mono
    have m5 := c5.mono
    have hb12 : e2.returned = e1.returned := b1.2.2.2.1
    obtain ⟨s1, r1⟩ := c1.kept (Nat.zero_le _) hret (by omega)
    have r2 : e2.returning = false := by rw [b1.2.2.1]; exact r1
    obtain ⟨s3, r3⟩ := c3.kept (Nat.zero_le _) r2 (by omega)
    obtain ⟨s4, r4⟩ := c4.kept (Nat.zero_le _) r3 (by omega)
    have hsc2 := b1.1
    obtain ⟨s5, r5⟩ := c5.kept (by omega) r4 (by omega)
    refine ⟨?_, fun x w => ?_, by omega, r5, he⟩
    · simp [eval_stmt_for_loop, hc, hb, hbody, r3, hstep, r4, hend, res.bind]
    · obtain ⟨e', h1, h2, _⟩ := fresh e1 e2 x w 0 hb
      exact ⟨e', h1, h2⟩
  · intro e' h he
    have hk := ((hbal m).for_ e init cond step body () e' h).kept (Nat.zero_le _) hret he
    refine ⟨by simpa using hk.1, hk.2, fun name => ?_⟩
    cases m with
    | zero => simp [eval_stmt_for] at h
    | succ k =>
      have nb := evaluator_sat_all _ _ (@names_below_step_closed D _ e.scope) k
      simp only [eval_stmt_for, res.bind_eq_ok] at h
      obtain ⟨_, e1, hb, h⟩ := h
      obtain ⟨_, e2, hi, h⟩ := h
      split at h
      · cases h
      · rw [res.bind_eq_ok] at h
        obtain ⟨_, e3, hl, hend⟩ := h
        have b1 := env_scope_begin_top e e1 hb
        obtain ⟨a1, l1⟩ := nb.stmts e1 init () e2 hi (by omega)
        obtain ⟨a2, l2⟩ := nb.for_loop e2 cond step body () e3 hl (by omega)
        obtain ⟨a3, _⟩ := nb.scope_end e3 () e' hend (by omega)
        unfold env_get_var
        rw [show e'.scope = e.scope by simpa using hk.1]
        apply env_get_var_from_congr_find
        intro k hk'
        rw [a3 k hk' name, a2 k hk' name, a1 k hk' name, b1.2.2.2.2.2 k hk']

/-- The while statement, one scope for all iterations.  The loop runs between
one `env_scope_begin` and one `env_scope_end`.  When the condition evaluates
to `false` the loop is over; when it evaluates to a value that is not a Bool
the evaluation ends with a type error; when it evaluates to `true` the body is
executed, and the loop is over if `returning` is set after it and goes on
otherwise, in the environment the body left: no scope is begun or ended
between two iterations.  A body that starts with a let of `x`, executed when
the top frame holds `x`, ends the evaluation with the `redeclared` error. -/
theorem while_one_scope {D : Type} [double_ops D] (m : Nat) (e : env_t D) (cond : expr_t D)
    (body : List (stmt_t D)) :
    (eval_stmt_while (m + 1) e cond body
      = (env_scope_begin e).bind fun _ e1 =>
        (eval_stmt_while_loop m e1 cond body).bind fun _ e2 => env_scope_end m e2) ∧
    (∀ e1, eval_expr m e cond = .ok (.bool false) e1 →
      eval_stmt_while_loop (m + 1) e cond body = .ok () e1) ∧
    (∀ c e1, eval_expr m e cond = .ok c e1 → c.type ≠ VALUE_TYPE_BOOL →
      eval_stmt_while_loop (m + 1) e cond body
        = .halt (.wrong_type c.type "while statement condition") e1) ∧
    (∀ e1 e2, eval_expr m e cond = .ok (.bool true) e1 → eval m e1 body = .ok () e2 →
      (e2.returning = true → eval_stmt_while_loop (m + 1) e cond body = .ok () e2) ∧
      (e2.returning = false →
        eval_stmt_while_loop (m + 1) e cond body = eval_stmt_while_loop m e2 cond body)) ∧
    (∀ e1 s x init next rest, eval_expr (m + 2) e cond = .ok (.bool true) e1 →
      e1.top = some s → s.holds x →
      eval_stmt_while_loop (m + 3) e cond (.let_ (.mk x init next) :: rest)
        = .halt (.error ("Variable '" ++ x ++ "' redeclared")) e1) := by
  refine ⟨by simp only [eval_stmt_while], ?_, ?_, ?_, ?_⟩
  · intro e1 hc
    simp [eval_stmt_while_loop, hc, res.bind]
  · intro c e1 hc ht
    cases c <;> simp_all [eval_stmt_while_loop, res.bind, value_t.type]
  · intro e1 e2 hc hb
    constructor
    · intro hr
      simp [eval_stmt_while_loop, hc, hb, hr, res.bind]
    · intro hr
      simp [eval_stmt_while_loop, hc, hb, hr, res.bind]
  · intro e1 s x init next rest hc ht hh
    obtain ⟨k, v, hk, hv, hn⟩ := hh
    have hmem : ∃ v ∈ s.vars.take s.vars_count, v.name = some x :=
      ⟨v, List.mem_iff_getElem?.mpr ⟨k, by rw [List.getElem?_take_of_lt hk]; exact hv⟩, hn⟩
    have hlet := (redeclaration_by_frame m e1 s x ht).1 hmem init next
    simp [eval_stmt_while_loop, hc, eval, hlet, res.bind]

/-- C20. The program
`let n = 0  while n < 2 { let x = 1  n ++ 1  do { for (; true; ) { return 1 } } }  println("done")`
runs without an error and writes `done`: the let of `x` is executed twice and
is not rejected.  With `while true { return 1 }` in place of the for statement,
and without the do-block, the second iteration ends with the `redeclared`
error.  The defers a body without returns registers are executed when the loop
is over, the last registered first. -/
theorem C20_while_let_after_for_return :
    (run_program 8 40 [] while_let_leak_program).fatal? = none ∧
    (run_program 8 40 [] while_let_leak_program).env?.map (fun e => e.stdout) = some "done\n" ∧
    (run_program 8 40 [] while_let_sibling_program).fatal?
      = some (.error "Variable 'x' redeclared") ∧
    (run_program 8 40 [] while_let_program).fatal? = some (.error "Variable 'x' redeclared") ∧
    (run_program 8 40 [] while_defer_program).env?.map (fun e => e.stdout)
      = some "1\n2\nB\nA\nB\nA\ndone\n" := by
  decide!

/-- With every frame of the array live, `env_scope_begin` moves `e->scope`
past the array, whatever the number of frames is. -/
theorem env_scope_begin_full {D : Type} (e : env_t D) (h : e.scope = e.scopes.length) :
    env_scope_begin e
      = .halt (.undefined_behaviour "env_scope_begin: e->scope past e->scopes") e := by
  unfold env_scope_begin
  rw [h, List.getElem?_eq_none (Nat.le_refl _)]

/-- A store to the top frame of a frame with its slots written keeps
`frames_wf`. -/
theorem frames_wf_set_top {D : Type} (e : env_t D) (s' : scope_t D)
    (h : frames_wf e) (hs : s'.vars_count ≤ s'.vars.length) : frames_wf (e.set_top s') := by
  unfold frames_wf
  intro k s hk
  simp only [env_t.set_top, List.getElem?_set] at hk
  split at hk
  · split at hk
    · injection hk with hk
      subst hk
      exact hs
    · cases hk
  · exact h k s hk

/-- The store through a variable pointer keeps `frames_wf`. -/
theorem frames_wf_set_var_val {D : Type} (e : env_t D) (q : Nat × Nat) (w : value_t D)
    (h : frames_wf e) : frames_wf (e.set_var_val q w) := by
  unfold env_t.set_var_val
  split
  · exact h
  · rename_i sq hsq
    split
    · exact h
    · intro k s hk
      simp only [List.getElem?_set] at hk
      split at hk
      · split at hk
        · injection hk with hk
          subst hk
          simpa only [List.length_set] using h q.1 sq hsq
        · cases hk
      · exact h k s hk

/-- Every step of the evaluator keeps `frames_wf`. -/
theorem frames_wf_step_closed {D : Type} [double_ops D] :
    step_closed (fun (e e' : env_t D) => frames_wf e → frames_wf e')
      (fun (e e' : env_t D) => frames_wf e → frames_wf e') where
  refl _ := id
  trans _ _ _ h1 h2 := fun h => h2 (h1 h)
  print _ _ := id
  read _ _ := id
  for_break e e1 e2 hb h _ := fun hw => by
    obtain ⟨s, hs, rfl⟩ := env_scope_begin_eq e e1 hb
    refine h ?_
    unfold frames_wf
    intro k s' hk
    simp only [List.getElem?_set] at hk
    split at hk
    · split at hk
      · injection hk with hk
        subst hk
        exact Nat.zero_le _
      · cases hk
    · exact hw k s' hk
  scope_pop _ := id
  pop_trans _ _ _ h1 h2 := fun h => h2 (h1 h)
  block e e1 e2 e3 hb h1 h2 := fun hw => by
    obtain ⟨s, hs, rfl⟩ := env_scope_begin_eq e e1 hb
    refine h2 (h1 ?_)
    unfold frames_wf
    intro k s' hk
    simp only [List.getElem?_set] at hk
    split at hk
    · split at hk
      · injection hk with hk
        subst hk
        exact Nat.zero_le _
      · cases hk
    · exact hw k s' hk
  defer e st e' h := fun hw => by
    unfold eval_stmt_defer at h
    split at h
    · cases h
    · rename_i s ht
      cases h
      exact frames_wf_set_top e _ hw (hw _ s ((top_eq_some e s).mp ht).2)
  assigning t e name val v e' h := fun hw => by
    obtain ⟨q, w, _, rfl⟩ := bin_op_assigning_eq t e e' name val v h
    exact frames_wf_set_var_val e q w hw
  let_claim e s idx name ht hscan := fun hw => by
    have hwf := hw _ s ((top_eq_some e s).mp ht).2
    obtain ⟨hcase, hk⟩ := let_scan_slot s name idx hwf hscan
    refine frames_wf_set_top e _ hw ?_
    show (if idx = none then s.vars_count + 1 else s.vars_count)
      ≤ (scope_set_name s (idx.getD s.vars_count) name).length
    unfold scope_set_name buf_write
    rcases hcase with h | ⟨m, v, h, hm, hv, hn⟩
    · subst h
      simp only [Option.getD_none, if_true]
      split
      · simp only [List.length_set]
        omega
      · simp only [List.length_append, List.length_singleton]
        omega
    · subst h
      simp only [Option.getD_some, reduceCtorEq, if_false]
      split
      · simpa only [List.length_set] using hwf
      · simp only [List.length_append, List.length_singleton]
        omega
  let_store e s idx v ht := fun hw => by
    have hwf := hw _ s ((top_eq_some e s).mp ht).2
    refine frames_wf_set_top e _ hw ?_
    show s.vars_count ≤ (scope_set_val s idx v).length
    unfold scope_set_val
    split
    · exact hwf
    · simpa only [List.length_set] using hwf
  set_return _ _ _ _ h := fun hw => h hw
  with_return _ _ h := fun hw => h hw

/-- The environment of `env_init` has its slots written, and so has every
environment a statement list leaves from it. -/
theorem frames_wf_reachable {D : Type} [double_ops D] ( MAX_NEST n : Nat) (stdin : List Char)
    (e0 e' : env_t D) (program : List (stmt_t D)) (h0 : env_init MAX_NEST stdin = .ok () e0)
    (h : eval n e0 program = .ok () e') : frames_wf e0 ∧ frames_wf e' := by
  have hz : frames_wf (env_zero MAX_NEST stdin : env_t D) := by
    unfold frames_wf
    intro k s hk
    simp only [env_zero, List.getElem?_replicate] at hk
    split at hk
    · injection hk with hk
      subst hk
      exact Nat.le_refl _
    · cases hk
  have h0' : frames_wf e0 := by
    unfold env_init at h0
    obtain ⟨s, hs, rfl⟩ := env_scope_begin_eq _ e0 h0
    unfold frames_wf
    intro k s' hk
    simp only [List.getElem?_set] at hk
    split at hk
    · split at hk
      · injection hk with hk
        subst hk
        exact Nat.zero_le _
      · cases hk
    · exact hz k s' hk
  exact ⟨h0', (evaluator_sat_all _ _ (@frames_wf_step_closed D _) n).stmts e0 program () e' h h0'⟩

/-- A store to the top frame that keeps the names it holds keeps the names
frame `j` holds. -/
theorem frame_holds_set_top {D : Type} (j : Nat) (x : String) (e : env_t D) (s s' : scope_t D)
    (_hj : j < e.scope) (ht : e.top = some s) (hh : s.holds x → s'.holds x)
    (hs : frame_holds j x e) : frame_holds j x (e.set_top s') := by
  obtain ⟨s0, hs1, hs2⟩ := hs
  have htop := (top_eq_some e s).mp ht
  by_cases hc : j = e.scope - 1
  · have hlt : e.scope - 1 < e.scopes.length := (List.getElem?_eq_some.mp htop.2).1
    rw [← hc] at htop hlt
    rw [hs1] at htop
    have hss : s0 = s := by
      have := htop.2
      injection this
    subst hss
    refine ⟨s', ?_, hh hs2⟩
    simp only [env_t.set_top, ← hc, List.getElem?_set, hlt, if_true]
  · exact ⟨s0, by rw [set_top_scopes_ne e s' j hc]; exact hs1, hs2⟩

/-- `env_scope_begin` above frame `j` leaves frame `j` what it was. -/
theorem frame_holds_begin {D : Type} (j : Nat) (x : String) (e e1 : env_t D) (hj : j < e.scope)
    (hb : env_scope_begin e = .ok () e1) (hs : frame_holds j x e) : frame_holds j x e1 := by
  obtain ⟨s, _, rfl⟩ := env_scope_begin_eq e e1 hb
  obtain ⟨s0, hs1, hs2⟩ := hs
  refine ⟨s0, ?_, hs2⟩
  have : ¬ e.scope = j := by omega
  simpa [List.getElem?_set, this] using hs1

/-- Every step of the evaluator leaves a variable of a live frame live: only
`env_scope_begin` on that frame resets its count. -/
theorem holds_step_closed {D : Type} [double_ops D] (j : Nat) (x : String) :
    step_closed (fun (e e' : env_t D) => holds_kept j x 0 e e')
      (fun (e e' : env_t D) => holds_kept j x 1 e e') where
  refl e := fun _ h => ⟨h, Nat.le_refl _⟩
  trans e1 e2 e3 h1 h2 := fun hj hs => by
    obtain ⟨a1, b1⟩ := h1 hj hs
    obtain ⟨a2, b2⟩ := h2 (by omega) a1
    exact ⟨a2, by omega⟩
  print e s := fun _ h => ⟨h, Nat.le_refl _⟩
  read e rest := fun _ h => ⟨h, Nat.le_refl _⟩
  for_break e e1 e2 hb h _ := fun hj hs => by
    have h1 := frame_holds_begin j x e e1 hj hb hs
    have hsc := (env_scope_begin_top e e1 hb).1
    obtain ⟨a, b⟩ := h (by omega) h1
    exact ⟨a, by omega⟩
  scope_pop e := fun _ h => by
    refine ⟨h, ?_⟩
    show e.scope ≤ e.scope - 1 + 1
    omega
  pop_trans e1 e2 e3 h1 h2 := fun hj hs => by
    obtain ⟨a1, b1⟩ := h1 hj hs
    obtain ⟨a2, b2⟩ := h2 (by omega) a1
    exact ⟨a2, by omega⟩
  block e e1 e2 e3 hb h1 h2 := fun hj hs => by
    have hb1 := frame_holds_begin j x e e1 hj hb hs
    have hsc := (env_scope_begin_top e e1 hb).1
    obtain ⟨a1, b1⟩ := h1 (by omega) hb1
    obtain ⟨a2, b2⟩ := h2 (by omega) a1
    exact ⟨a2, by omega⟩
  defer e st e' h := fun hj hs => by
    unfold eval_stmt_defer at h
    split at h
    · cases h
    · rename_i s ht
      cases h
      exact ⟨frame_holds_set_top j x e s _ hj ht (fun hh => hh) hs, Nat.le_refl _⟩
  assigning t e name val v e' h := fun hj hs => by
    obtain ⟨q, w, hq, rfl⟩ := bin_op_assigning_eq t e e' name val v h
    obtain ⟨s, hs1, hs2⟩ := hs
    refine ⟨set_var_val_holds e q w x j s hs1 hs2, ?_⟩
    have := (set_var_val_bound e q w).1
    omega
  let_claim e s idx name ht hscan := fun hj hs =>
    ⟨frame_holds_set_top j x e s _ hj ht (let_claim_holds s idx name x hscan) hs, Nat.le_refl _⟩
  let_store e s idx v ht := fun hj hs =>
    ⟨frame_holds_set_top j x e s _ hj ht (let_store_holds s idx v x) hs, Nat.le_refl _⟩
  set_return e e1 v _ h := fun hj hs => h hj hs
  with_return e e1 h := fun hj hs => h hj hs

/-- A let of `x` that returns leaves `x` live in the frame that was on top,
whatever its initializer and the rest of its chain do. -/
theorem let_holds {D : Type} [double_ops D] (m : Nat) (x : String) (e1 e2 : env_t D)
    (s : scope_t D) (init : Option (expr_t D)) (next : Option (stmt_let_t D))
    (ht : e1.top = some s) (hwf : s.vars_count ≤ s.vars.length)
    (h : eval_stmt_let m e1 (.mk x init next) = .ok () e2) :
    frame_holds (e1.scope - 1) x e2 ∧ e1.scope ≤ e2.scope := by
  obtain ⟨hne, hts⟩ := (top_eq_some e1 s).mp ht
  have hjl : e1.scope - 1 < e1.scopes.length := (List.getElem?_eq_some.mp hts).1
  cases m with
  | zero => simp [eval_stmt_let] at h
  | succ n =>
    have hall := evaluator_sat_all _ _ (@holds_step_closed D _ (e1.scope - 1) x) n
    simp only [eval_stmt_let, ht] at h
    split at h
    · cases h
    · rename_i idx hscan
      rw [res.bind_eq_ok] at h
      obtain ⟨v, e2', h1, h2⟩ := h
      obtain ⟨hcase, hk⟩ := let_scan_slot s x idx hwf hscan
      have hlt2 : idx.getD s.vars_count
          < (if idx = none then s.vars_count + 1 else s.vars_count) := by
        rcases hcase with h | ⟨m', v', h, hm, _, _⟩
        · subst h; simp
        · subst h; simpa using hm
      have hc : frame_holds (e1.scope - 1) x (let_claim e1 s idx x) := by
        refine ⟨{ s with
            vars := scope_set_name s (idx.getD s.vars_count) x,
            vars_count := if idx = none then s.vars_count + 1 else s.vars_count },
          ?_, ⟨idx.getD s.vars_count,
          ⟨some x, (s.vars[idx.getD s.vars_count]?).bind fun v => v.val⟩, hlt2, ?_, rfl⟩⟩
        · simp only [let_claim, env_t.set_top, List.getElem?_set, hjl, if_true]
        · show (scope_set_name s (idx.getD s.vars_count) x)[idx.getD s.vars_count]? = _
          unfold scope_set_name
          rw [buf_write_getElem? _ _ _ hk, if_pos rfl]
      have hcs : e1.scope - 1 < (let_claim e1 s idx x).scope := by
        show e1.scope - 1 < e1.scope
        omega
      have h1' : frame_holds (e1.scope - 1) x e2' ∧ e1.scope ≤ e2'.scope := by
        cases init with
        | none =>
          injection h1 with _ he
          subst he
          exact ⟨hc, Nat.le_refl _⟩
        | some ex =>
          obtain ⟨ha, hb'⟩ := hall.expr _ ex v e2' h1 hcs hc
          exact ⟨ha, hb'⟩
      split at h2
      · cases h2
      · split at h2
        · cases h2
        · rename_i s2 ht2
          have hst := (@holds_step_closed D _ (e1.scope - 1) x).let_store e2' s2
            (idx.getD s.vars_count) v ht2 (by omega) h1'.1
          split at h2
          · injection h2 with _ he
            subst he
            exact ⟨hst.1, h1'.2⟩
          · rename_i l
            obtain ⟨ha, hb'⟩ := hall.let_ _ l () e2 h2 (by show e1.scope - 1 < e2'.scope; omega)
              hst.1
            have hb'' : e2'.scope ≤ e2.scope := hb'
            exact ⟨ha, by omega⟩

/-- The second iteration of a while loop whose body starts with a let of `x`.
When the condition evaluated to `true`, the body was executed, the condition
evaluated to `true` again, and no return was in flight or executed in
between, then the body is executed in the frame of the first iteration, which
still holds `x`, and the evaluation ends with the `redeclared` error. -/
theorem while_redeclares {D : Type} [double_ops D] (m : Nat) (e e1 e2 e3 : env_t D)
    (s : scope_t D) (cond : expr_t D) (x : String) (init : Option (expr_t D))
    (next : Option (stmt_let_t D)) (rest : List (stmt_t D))
    (hret : e.returning = false)
    (hc1 : eval_expr (m + 2) e cond = .ok (.bool true) e1)
    (ht : e1.top = some s) (hwf : s.vars_count ≤ s.vars.length)
    (hb : eval (m + 2) e1 (.let_ (.mk x init next) :: rest) = .ok () e2)
    (hc2 : eval_expr (m + 2) e2 cond = .ok (.bool true) e3)
    (hno : e3.returned = e.returned) :
    eval_stmt_while_loop (m + 4) e cond (.let_ (.mk x init next) :: rest)
      = .halt (.error ("Variable '" ++ x ++ "' redeclared")) e3 := by
  have hbal := evaluator_sat_all _ _ (@balanced_step_closed D _) (m + 2)
  have hh := evaluator_sat_all _ _ (@holds_step_closed D _ (e1.scope - 1) x)
  obtain ⟨hne, _⟩ := (top_eq_some e1 s).mp ht
  -- no return was executed: the control state is what it was
  have c1 := hbal.expr e cond _ e1 hc1
  have c2 := hbal.stmts e1 _ () e2 hb
  have c3 := hbal.expr e2 cond _ e3 hc2
  have m1 := c1.mono
  have m2 := c2.mono
  have m3 := c3.mono
  obtain ⟨_, r1⟩ := c1.kept (Nat.zero_le _) hret (by omega)
  obtain ⟨s2, r2⟩ := c2.kept (Nat.zero_le _) r1 (by omega)
  obtain ⟨s3, _⟩ := c3.kept (Nat.zero_le _) r2 (by omega)
  -- the frame of the loop holds `x` after the body and the condition
  have hb' := hb
  simp only [eval, res.bind_eq_ok] at hb'
  obtain ⟨_, e1', hlet, hrest⟩ := hb'
  obtain ⟨f1, l1⟩ := let_holds (m + 1) x e1 e1' s init next ht hwf hlet
  obtain ⟨f2, l2⟩ := (hh (m + 1)).stmts e1' rest () e2 hrest (by omega) f1
  obtain ⟨⟨s3', hs3, hx3⟩, _⟩ := (hh (m + 2)).expr e2 cond _ e3 hc2 (by omega) f2
  have ht3 : e3.top = some s3' := by
    rw [top_eq_some]
    have : e3.scope = e1.scope := by omega
    rw [this]
    exact ⟨hne, hs3⟩
  -- the two iterations
  have it2 := (while_one_scope m e2 cond (.let_ (.mk x init next) :: rest)).2.2.2.2
    e3 s3' x init next rest hc2 ht3 hx3
  have hc1' := eval_expr_fuel (m + 2) 1 e e1 cond _ hc1
  have hb1' := eval_fuel (m + 2) 1 e1 e2 _ hb
  rw [((while_one_scope (m + 3) e cond (.let_ (.mk x init next) :: rest)).2.2.2.1
    e1 e2 hc1' hb1').2 r2]
  exact it2

/-- Every step of the evaluator leaves the counter `returns` what it was and
keeps `returning_inside`. -/
theorem returning_step_closed {D : Type} [double_ops D] :
    step_closed
      (fun (e e' : env_t D) => e'.returns = e.returns ∧ (returning_inside e → returning_inside e'))
      (fun (e e' : env_t D) => e'.returns = e.returns ∧ (returning_inside e → returning_inside e'))
    where
  refl _ := ⟨rfl, id⟩
  trans _ _ _ h1 h2 := ⟨h2.1.trans h1.1, fun h => h2.2 (h1.2 h)⟩
  print _ _ := ⟨rfl, id⟩
  read _ _ := ⟨rfl, id⟩
  for_break e e1 e2 hb h _ := by
    obtain ⟨s, _, rfl⟩ := env_scope_begin_eq e e1 hb
    exact ⟨h.1, fun hi => h.2 hi⟩
  scope_pop _ := ⟨rfl, id⟩
  pop_trans _ _ _ h1 h2 := ⟨h2.1.trans h1.1, fun h => h2.2 (h1.2 h)⟩
  block e e1 e2 e3 hb h1 h2 := by
    obtain ⟨s, _, rfl⟩ := env_scope_begin_eq e e1 hb
    exact ⟨h2.1.trans h1.1, fun hi => h2.2 (h1.2 hi)⟩
  defer e s e' h := by
    obtain ⟨_, h2, _, h4, _⟩ := eval_stmt_defer_same_control e e' s h
    refine ⟨h4, fun hi hr => ?_⟩
    rw [h4]
    exact hi (by rw [← h2]; exact hr)
  assigning t e name val v e' h := by
    obtain ⟨_, h2, _, h4, _⟩ := bin_op_assigning_same_control t e e' name val v h
    refine ⟨h4, fun hi hr => ?_⟩
    rw [h4]
    exact hi (by rw [← h2]; exact hr)
  let_claim _ _ _ _ _ _ := ⟨rfl, id⟩
  let_store _ _ _ _ _ := ⟨rfl, id⟩
  set_return e e1 v h0 h := by
    refine ⟨h.1, fun _ _ => ?_⟩
    show e1.returns ≠ 0
    rw [h.1]
    exact h0
  with_return e e1 h := by
    obtain ⟨h1, _⟩ := h
    refine ⟨?_, fun _ hr => ?_⟩
    · show e1.returns - 1 = e.returns
      have h1' : e1.returns = e.returns + 1 := h1
      omega
    · exfalso
      have hr' : (if e1.returning = true then false else e1.returning) = true := hr
      split at hr'
      · cases hr'
      · contradiction

/-- C23. In the environment of `env_init` no return is in flight and `returns`
is 0.  Every statement list and every expression leaves the counter `returns`
what it was, a do-block in particular, and keeps the invariant that
`returning` is set only while `returns > 0`; so does every deferred statement
at the end of a scope.  Hence after every statement list executed from the
environment of `env_init`, and from any environment with `returns == 0` and no
return in flight, `returning` is false and `returns` is 0. -/
theorem C23_returning_inside_boundary {D : Type} [double_ops D] (n : Nat) (e e' : env_t D)
    (hinv : returning_inside e) :
    (∀ ( MAX_NEST : Nat) (stdin : List Char) (e0 : env_t D),
      env_init MAX_NEST stdin = .ok () e0 →
      e0.returning = false ∧ e0.returns = 0 ∧ returning_inside e0 ∧
      ∀ m program e1, eval m e0 program = .ok () e1 → e1.returning = false ∧ e1.returns = 0) ∧
    (∀ program, eval n e program = .ok () e' → e'.returns = e.returns ∧ returning_inside e') ∧
    (∀ x v, eval_expr n e x = .ok v e' → e'.returns = e.returns ∧ returning_inside e') ∧
    (∀ body v, eval_expr n e (.do_ body) = .ok v e' →
      e'.returns = e.returns ∧ returning_inside e') ∧
    (env_scope_end n e = .ok () e' → e'.returns = e.returns ∧ returning_inside e') ∧
    (∀ program, e.returns = 0 → eval n e program = .ok () e' →
      e'.returning = false ∧ e'.returns = 0) := by
  have hall := fun m => evaluator_sat_all _ _ (@returning_step_closed D _) m
  have top : ∀ (m : Nat) (e0 e1 : env_t D) program, returning_inside e0 → e0.returns = 0 →
      eval m e0 program = .ok () e1 → e1.returning = false ∧ e1.returns = 0 := by
    intro m e0 e1 program hi h0 h
    obtain ⟨h1, h2⟩ := (hall m).stmts e0 program () e1 h
    have hr : e1.returns = 0 := by rw [h1, h0]
    refine ⟨?_, hr⟩
    cases hret : e1.returning with
    | false => rfl
    | true => exact absurd hr (h2 hi hret)
  refine ⟨?_, ?_, ?_, ?_, ?_, ?_⟩
  · intro MAX_NEST stdin e0 h0
    unfold env_init at h0
    obtain ⟨s, _, rfl⟩ := env_scope_begin_eq _ e0 h0
    have hi : returning_inside ({ (env_zero MAX_NEST stdin : env_t D) with
        scopes := (env_zero MAX_NEST stdin : env_t D).scopes.set
          (env_zero MAX_NEST stdin : env_t D).scope { s with vars_count := 0, defer_count := 0 },
        scope := (env_zero MAX_NEST stdin : env_t D).scope + 1 } : env_t D) := by
      intro h
      cases h
    exact ⟨rfl, rfl, hi, fun m program e1 h => top m _ e1 program hi rfl h⟩
  · intro program h
    obtain ⟨h1, h2⟩ := (hall n).stmts e program () e' h
    exact ⟨h1, h2 hinv⟩
  · intro x v h
    obtain ⟨h1, h2⟩ := (hall n).expr e x v e' h
    exact ⟨h1, h2 hinv⟩
  · intro body v h
    obtain ⟨h1, h2⟩ := (hall n).expr e (.do_ body) v e' h
    exact ⟨h1, h2 hinv⟩
  · intro h
    obtain ⟨h1, h2⟩ := (hall n).scope_end e () e' h
    exact ⟨h1, h2 hinv⟩
  · intro program h0 h
    exact top n e e' program hinv h0 h

/-- `C23_returning_inside_boundary` at the zeroed environment with the empty
statement list, and the run of `do { if true { return 1 }  println("x")
return 2 }` from the environment of `env_init`: afterwards no return is in
flight and `returns` is 0. -/
theorem C23_returning_inside_boundary_witness :
    returning_inside (env_zero 8 [] : env_t Int) ∧
    (env_zero 8 [] : env_t Int).returns = 0 ∧
    eval 1 (env_zero 8 [] : env_t Int) [] = .ok () (env_zero 8 []) ∧
    ((env_zero 8 [] : env_t Int).returning = false ∧ (env_zero 8 [] : env_t Int).returns = 0) ∧
    ((env_init 8 [] : res Int Unit).bind fun _ e =>
      eval 40 e [.expr return_in_if]).env?.map (fun e => (e.returning, e.returns))
        = some (false, 0) :=
  ⟨(fun h => by cases h), rfl, rfl,
    (C23_returning_inside_boundary 1 (env_zero 8 [] : env_t Int) (env_zero 8 [])
      (fun h => by cases h)).2.2.2.2.2 [] rfl rfl,
    by decide!⟩

/-- C21. The program
`do { if true { defer for (let i = 0; i < 3; i ++ 1) { println(i) }  return 1 } }`
ends with the error `Unexpected return in for loop` and has written nothing,
although neither the init nor the step of the loop contains a return
statement; so does a deferred `for (; false; ) { }`, whose init and step are
empty.  The same loop deferred in the do-block itself, whose deferred
statements are executed after `returning` is cleared, writes `0`, `1`, `2`,
and a deferred if statement is executed during the unwinding. -/
theorem C21_deferred_for_rejected :
    (run_program 8 40 [] deferred_for_program).fatal?
      = some (.error "Unexpected return in for loop") ∧
    (run_program 8 40 [] deferred_for_program).halt_env?.map (fun e => e.stdout) = some "" ∧
    (run_program 8 40 [] deferred_empty_for_program).fatal?
      = some (.error "Unexpected return in for loop") ∧
    (run_program 8 40 [] deferred_for_in_do_program).env?.map (fun e => e.stdout)
      = some "0\n1\n2\n" ∧
    (run_program 8 40 [] deferred_if_program).env?.map (fun e => e.stdout) = some "d\n" := by
  decide!

/-- C22. The program
`do { do { defer println("X") }  defer println("A")  defer do { for (; true; ) { return 1 } } }  println("end")`
runs without an error and writes `X`, `X`, `end`, `X`: at the end of the outer
do-block the deferred `println("A")` is not executed, and `println("X")`, which
was registered in another scope and executed when that scope ended, is
executed again.  With `while true { return 1 }` in place of the for statement
the program writes `X`, `A`, `end`.  In
`do { defer println("A")  defer defer println("S")  defer println("B") }  println("end")`
the statement `println("S")`, registered while the scope is ending, is not
executed. -/
theorem C22_scope_end_after_for_return :
    (run_program 8 40 [] defer_leak_program).fatal? = none ∧
    (run_program 8 40 [] defer_leak_program).env?.map (fun e => e.stdout)
      = some "X\nX\nend\nX\n" ∧
    (run_program 8 40 [] defer_leak_sibling_program).env?.map (fun e => e.stdout)
      = some "X\nA\nend\n" ∧
    (run_program 8 40 [] defer_defer_program).env?.map (fun e => e.stdout)
      = some "B\nA\nend\n" := by
  decide!

/-- With fewer than `d + 1` frames left, the do-blocks nested `d` deep end at
an `env_scope_begin` that moves `e->scope` past the array. -/
theorem nest_overflows {D : Type} [double_ops D] :
    ∀ (d n : Nat) (e : env_t D), e.scope ≤ e.scopes.length →
      e.scopes.length < e.scope + d + 1 →
      (eval_expr (n + 4 * d + 2) e (nest d)).fatal?
        = some (.undefined_behaviour "env_scope_begin: e->scope past e->scopes")
  | 0, n, e, h1, h2 => by
    have h : e.scope = e.scopes.length := by omega
    simp [nest, eval_expr, eval_expr_do, env_scope_begin_full e h, res.bind, res.fatal?]
  | d + 1, n, e, h1, h2 => by
    by_cases h : e.scope = e.scopes.length
    · simp [nest, eval_expr, eval_expr_do, env_scope_begin_full e h, res.bind, res.fatal?]
    · cases hb : env_scope_begin e with
      | out_of_fuel => simp [env_scope_begin] at hb; split at hb <;> cases hb
      | halt f e' =>
        unfold env_scope_begin at hb
        split at hb
        · rename_i hnone
          rw [List.getElem?_eq_none_iff] at hnone
          omega
        · cases hb
      | ok u e1 =>
        obtain ⟨hs, hl, _⟩ := env_scope_begin_top e e1 hb
        have hlen : e1.scopes.length = e.scopes.length := by
          obtain ⟨s, _, rfl⟩ := env_scope_begin_eq e e1 hb
          simp only [List.length_set]
        have ih := nest_overflows d n
          ({ e1 with returns := e1.returns + 1, return_ := .nil } : env_t D)
          (by show e1.scope ≤ e1.scopes.length; exact hl)
          (by show e1.scopes.length < e1.scope + d + 1; omega)
        have hf : n + 4 * (d + 1) + 2 = (n + 4 * d + 2) + 4 := by omega
        rw [hf]
        show (eval_expr (n + 4 * d + 2 + 4) e (.do_ [.expr (nest d)])).fatal? = _
        generalize n + 4 * d + 2 = k at ih ⊢
        generalize (nest d : expr_t D) = x at ih ⊢
        cases hx : eval_expr k
            ({ e1 with returns := e1.returns + 1, return_ := .nil } : env_t D) x with
        | out_of_fuel => rw [hx] at ih; simp [res.fatal?] at ih
        | ok v e2 => rw [hx] at ih; simp [res.fatal?] at ih
        | halt f e2 =>
          rw [hx] at ih
          simp only [res.fatal?, Option.some.injEq] at ih
          subst ih
          simp [eval_expr, eval_expr_do, hb, eval_with_return, eval, hx, res.bind,
            res.fatal?]

/-- A program of `MAX_NEST` nested do-blocks ends at an `env_scope_begin` that
moves `e->scope` past the array, whatever `MAX_NEST` is. -/
theorem nest_run_overflows {D : Type} [double_ops D] ( MAX_NEST : Nat) :
    (run_program MAX_NEST (4 * MAX_NEST + 3) []
        ([.expr (nest (MAX_NEST - 1))] : List (stmt_t D))).fatal?
      = some (.undefined_behaviour "env_scope_begin: e->scope past e->scopes") := by
  cases hb : (env_init MAX_NEST [] : res D Unit) with
  | out_of_fuel =>
    unfold env_init env_scope_begin at hb
    split at hb <;> cases hb
  | halt f e' =>
    have hf : f = .undefined_behaviour "env_scope_begin: e->scope past e->scopes" := by
      unfold env_init env_scope_begin at hb
      split at hb
      · injection hb with hf _
        exact hf.symm
      · cases hb
    subst hf
    simp [run_program, hb, res.bind, res.fatal?]
  | ok u e0 =>
    have hb0 := hb
    unfold env_init at hb
    obtain ⟨hs, hl, _⟩ := env_scope_begin_top _ e0 hb
    have hlen : e0.scopes.length = MAX_NEST := by
      obtain ⟨s, _, rfl⟩ := env_scope_begin_eq _ e0 hb
      simp [env_zero]
    have hs' : e0.scope = 1 := hs
    have hov := nest_overflows (MAX_NEST - 1) (4 * MAX_NEST - 4 * (MAX_NEST - 1)) e0 hl (by omega)
    have hf : 4 * MAX_NEST - 4 * (MAX_NEST - 1) + 4 * (MAX_NEST - 1) + 2 = 4 * MAX_NEST + 2 := by
      omega
    rw [hf] at hov
    generalize (nest (MAX_NEST - 1) : expr_t D) = x at hov ⊢
    cases hx : eval_expr (4 * MAX_NEST + 2) e0 x with
    | out_of_fuel => rw [hx] at hov; simp [res.fatal?] at hov
    | ok v e2 => rw [hx] at hov; simp [res.fatal?] at hov
    | halt f e2 =>
      rw [hx] at hov
      simp only [res.fatal?, Option.some.injEq] at hov
      subst hov
      simp [run_program, hb0, eval, hx, res.bind, res.fatal?]

/-- C17. With room for two frames (`MAX_NEST` 2) the program `do { do { } }`
ends at the third `env_scope_begin`, which moves `e->scope` past the array
`e->scopes` and writes there: no test precedes the increment and no diagnostic
is reported.  With room for three frames the program runs to its end.
Whatever `MAX_NEST` is, the program of `MAX_NEST` nested do-blocks ends in
that way. -/
theorem C17_scope_begin_unchecked :
    (run_program 2 20 [] nest_program).fatal?
      = some (.undefined_behaviour "env_scope_begin: e->scope past e->scopes") ∧
    (run_program 2 20 [] nest_program).halt_env?.map (fun e => (e.scope, e.scopes.length))
      = some (2, 2) ∧
    (run_program 3 20 [] nest_program).fatal? = none ∧
    (run_program 3 20 [] nest_program).env?.map (fun e => e.scope) = some 0 ∧
    ∀ MAX_NEST : Nat,
      (run_program MAX_NEST (4 * MAX_NEST + 3) []
          ([.expr (nest (MAX_NEST - 1))] : List (stmt_t Int))).fatal?
        = some (.undefined_behaviour "env_scope_begin: e->scope past e->scopes") :=
  ⟨by decide!, by decide!, by decide!, by decide!, fun MAX_NEST => nest_run_overflows MAX_NEST⟩

/-- A for statement entered while a return is in flight: when its init is
empty, and so contains no return statement, the test after the init finds
`returning` set and the evaluation ends with `Unexpected return in for loop`,
whatever the condition, the step and the body are. -/
theorem for_in_flight {D : Type} [double_ops D] (m : Nat) (e e1 : env_t D) (cond : expr_t D)
    (step body : List (stmt_t D)) (hret : e.returning = true)
    (hb : env_scope_begin e = .ok () e1) :
    eval_stmt_for (m + 2) e [] cond step body
      = .halt (.error "Unexpected return in for loop") e1 := by
  have h1 : e1.returning = true := by
    rw [(env_scope_begin_top e e1 hb).2.2.1]
    exact hret
  simp [eval_stmt_for, hb, eval, h1, res.bind]

/-- A defer statement executed as a deferred statement while its scope is
ending.  The statement it registers is stored at `defer[defer_count]`, above
the entries of the frame, which stay what they were; the loop of
`env_scope_end` goes on with the index below the one it was at, and so does
not reach it. -/
theorem defer_while_ending {D : Type} [double_ops D] (n : Nat) (e : env_t D) (s : scope_t D)
    (i : Nat) (st : List (stmt_t D)) (ht : e.top = some s)
    (hd : s.defer[i]? = some [.defer st]) (hwf : s.defer_count ≤ s.defer.length) :
    env_scope_end_loop (n + 3) e (i + 1)
      = env_scope_end_loop (n + 2)
          (e.set_top { s with defer := buf_write s.defer s.defer_count st,
                              defer_count := s.defer_count + 1 }) i ∧
    (buf_write s.defer s.defer_count st)[s.defer_count]? = some st ∧
    ∀ j, j < s.defer_count → (buf_write s.defer s.defer_count st)[j]? = s.defer[j]? := by
  refine ⟨?_, ?_, fun j hj => ?_⟩
  · simp [env_scope_end_loop, ht, hd, eval, eval_stmt_defer, res.bind]
  · rw [buf_write_getElem? _ _ _ hwf, if_pos rfl]
  · rw [buf_write_getElem? _ _ _ hwf, if_neg (by omega)]

theorem defers_kept_same {D : Type} (j d : Nat) (e e' : env_t D)
    (hs : e'.scopes[j]? = e.scopes[j]?) (hc : e.scope ≤ e'.scope + d) : defers_kept j d e e' :=
  fun _ s h hw => ⟨⟨s, hs.trans h, Nat.le_refl _, hw, fun _ _ => rfl⟩, hc⟩

theorem defers_kept_trans {D : Type} (j d : Nat) (e1 e2 e3 : env_t D)
    (h1 : defers_kept j 0 e1 e2) (h2 : defers_kept j d e2 e3) : defers_kept j d e1 e3 := by
  intro hj s hs hw
  obtain ⟨⟨s2, a1, b1, c1, d1⟩, x1⟩ := h1 hj s hs hw
  obtain ⟨⟨s3, a2, b2, c2, d2⟩, x2⟩ := h2 (by omega) s2 a1 c1
  refine ⟨⟨s3, a2, by omega, c2, fun i hi => ?_⟩, by omega⟩
  rw [d2 i (by omega), d1 i hi]

/-- A store through `e->scope` of a frame with the defers of the top frame, or
with one more. -/
theorem defers_kept_set_top {D : Type} (j : Nat) (e : env_t D) (t t' : scope_t D)
    (ht : e.top = some t) (hc : t.defer_count ≤ t'.defer_count)
    (hwf : t.defer_count ≤ t.defer.length → t'.defer_count ≤ t'.defer.length)
    (hk : t.defer_count ≤ t.defer.length → ∀ i, i < t.defer_count → t'.defer[i]? = t.defer[i]?) :
    defers_kept j 0 e (e.set_top t') := by
  intro hj s hs hw
  refine ⟨?_, Nat.le_refl _⟩
  by_cases hjt : j = e.scope - 1
  · subst hjt
    rw [top_eq_some] at ht
    have hst : s = t := Option.some.inj (hs.symm.trans ht.2)
    subst hst
    have hlt : e.scope - 1 < e.scopes.length := (List.getElem?_eq_some.mp hs).1
    refine ⟨t', ?_, hc, hwf hw, hk hw⟩
    simp [env_t.set_top, List.getElem?_set, hlt]
  · exact ⟨s, (set_top_scopes_ne e _ j hjt).trans hs, Nat.le_refl _, hw, fun _ _ => rfl⟩

theorem defers_kept_begin {D : Type} (j d : Nat) (e e1 e2 : env_t D)
    (hb : env_scope_begin e = .ok () e1) (h : defers_kept j (d + 1) e1 e2)
    : defers_kept j d e e2 := by
  intro hj s hs hw
  obtain ⟨t, _, rfl⟩ := env_scope_begin_eq e e1 hb
  have hne : ¬ e.scope = j := by omega
  obtain ⟨a, b⟩ := h (Nat.lt_succ_of_lt hj) s (by simp [List.getElem?_set, hne, hs]) hw
  have b' : e.scope + 1 ≤ e2.scope + (d + 1) := b
  exact ⟨a, by omega⟩

/-- Every step of the evaluator leaves the defers of a live frame where they
are. -/
theorem defers_step_closed {D : Type} [double_ops D] (j : Nat) :
    step_closed (fun (e e' : env_t D) => defers_kept j 0 e e')
      (fun (e e' : env_t D) => defers_kept j 1 e e') where
  refl e := defers_kept_same j 0 e e rfl (Nat.le_refl _)
  trans := defers_kept_trans j 0
  print e s := defers_kept_same j 0 e _ rfl (Nat.le_refl _)
  read e rest := defers_kept_same j 0 e _ rfl (Nat.le_refl _)
  for_break e e1 e2 hb h _ := by
    refine defers_kept_begin j 0 e e1 e2 hb ?_
    intro hj s hs hw
    obtain ⟨a, b⟩ := h hj s hs hw
    exact ⟨a, by omega⟩
  scope_pop e := by
    refine defers_kept_same j 1 e _ rfl ?_
    show e.scope ≤ e.scope - 1 + 1
    omega
  pop_trans := defers_kept_trans j 1
  block e e1 e2 e3 hb h1 h2 :=
    defers_kept_begin j 0 e e1 e3 hb (defers_kept_trans j 1 e1 e2 e3 h1 h2)
  defer e st e' h := by
    unfold eval_stmt_defer at h
    split at h
    · cases h
    · rename_i t ht
      cases h
      refine defers_kept_set_top j e t _ ht (Nat.le_succ _) (fun hw => ?_) (fun hw i hi => ?_)
      · show t.defer_count + 1 ≤ (buf_write t.defer t.defer_count st).length
        unfold buf_write
        split
        · rw [List.length_set]
          omega
        · rw [List.length_append]
          simp
          omega
      · show (buf_write t.defer t.defer_count st)[i]? = t.defer[i]?
        rw [buf_write_getElem? _ _ _ hw, if_neg (by omega)]
  assigning t e name val v e' h := by
    obtain ⟨q, w, hq, rfl⟩ := bin_op_assigning_eq t e e' name val v h
    intro hj s hs hw
    have hd := frames_same_defers_set_var_val e q w j
    rw [hs] at hd
    refine ⟨?_, by rw [(set_var_val_bound e q w).1]; omega⟩
    cases hx : (e.set_var_val q w).scopes[j]? with
    | none => rw [hx] at hd; cases hd
    | some s' =>
      rw [hx] at hd
      simp only [Option.map_some', Option.some.injEq, Prod.mk.injEq] at hd
      exact ⟨s', rfl, by omega, by rw [hd.1, hd.2]; exact hw, fun i _ => by rw [hd.1]⟩
  let_claim e s idx name ht _ :=
    defers_kept_set_top j e s _ ht (Nat.le_refl _) (fun hw => hw) (fun _ _ _ => rfl)
  let_store e s idx v ht :=
    defers_kept_set_top j e s _ ht (Nat.le_refl _) (fun hw => hw) (fun _ _ _ => rfl)
  set_return e e1 v _ h := fun hj s hs hw => h hj s hs hw
  with_return e e1 h := fun hj s hs hw => h hj s hs hw

/-- The end of a scope when no return statement is executed in it and none was
in flight: from `i` on down, the loop of `env_scope_end` executes the
statements that the slots below `i` of the frame held when the loop began, the
last one first, and ends as the run of these statements in that order does.
A defer registered by one of them goes to a slot above and is not executed. -/
theorem scope_end_loop_runs_registered {D : Type} [double_ops D] (i n : Nat) (e e' : env_t D)
    (s : scope_t D) (ht : e.top = some s) (hwf : s.defer_count ≤ s.defer.length)
    (hi : i ≤ s.defer_count) (hret : e.returning = false)
    (h : env_scope_end_loop n e i = .ok () e') (hc : e'.returned = e.returned) :
    run_defers n e (s.defer.take i).reverse = .ok () e' := by
  induction i generalizing n e e' s with
  | zero =>
    cases n with
    | zero => simp [env_scope_end_loop] at h
    | succ n =>
      simp only [env_scope_end_loop] at h
      simpa [run_defers] using h
  | succ i ih =>
    cases n with
    | zero => simp [env_scope_end_loop] at h
    | succ n =>
      have hlt : i < s.defer.length := by omega
      have hd : s.defer[i]? = some (s.defer[i]) := List.getElem?_eq_getElem hlt
      simp only [env_scope_end_loop, ht, hd, res.bind_eq_ok] at h
      obtain ⟨u, e1, h1, h2⟩ := h
      have hb1 := (evaluator_sat_all _ _ balanced_step_closed n).stmts _ _ u e1 h1
      have hb2 := (evaluator_sat_all _ _ balanced_step_closed n).scope_end_loop _ _ () e' h2
      have hr1 : e1.returned = e.returned := by
        have := hb1.mono
        have := hb2.mono
        omega
      obtain ⟨hs1, hret1⟩ := hb1.kept (Nat.zero_le _) hret hr1
      have htop := (top_eq_some e s).mp ht
      obtain ⟨⟨s1, a1, b1, c1, d1⟩, _⟩ :=
        (evaluator_sat_all _ _ (defers_step_closed (e.scope - 1)) n).stmts _ _ u e1 h1
          (by omega) s htop.2 hwf
      have ht1 : e1.top = some s1 := by
        rw [top_eq_some]
        have : e1.scope = e.scope := by omega
        rw [this]
        exact ⟨htop.1, a1⟩
      have hrec := ih n e1 e' s1 ht1 c1 (by omega) hret1 h2 (by omega)
      have htake : s1.defer.take i = s.defer.take i := by
        apply List.ext_getElem?
        intro k
        rw [List.getElem?_take, List.getElem?_take]
        split
        · exact d1 k (by omega)
        · rfl
      rw [htake] at hrec
      have hsplit : (s.defer.take (i + 1)).reverse = s.defer[i] :: (s.defer.take i).reverse := by
        rw [List.take_succ, hd]
        simp
      rw [hsplit]
      simp only [run_defers, h1, res.bind]
      exact hrec

/-- `env_scope_end` when no return statement is executed in it and none was in
flight: it ends as the run of the defers registered in the scope, the last
registered one first, followed by `-- e->scope`. -/
theorem scope_end_runs_registered {D : Type} [double_ops D] (n : Nat) (e e' : env_t D)
    (s : scope_t D) (ht : e.top = some s) (hwf : s.defer_count ≤ s.defer.length)
    (hret : e.returning = false)
    (h : env_scope_end (n + 1) e = .ok () e') (hc : e'.returned = e.returned) :
    run_defers n e (s.defer.take s.defer_count).reverse = .ok () e' ∧
    e'.scope + 1 = e.scope := by
  simp only [env_scope_end, ht] at h
  refine ⟨scope_end_loop_runs_registered _ n e e' s ht hwf (Nat.le_refl _) hret h hc, ?_⟩
  have hb := (evaluator_sat_all _ _ balanced_step_closed n).scope_end_loop _ _ () e' h
  have htop := (top_eq_some e s).mp ht
  exact (hb.kept (by omega) hret hc).1

/-- `scope_end_runs_registered` at `env_two_defers`: the end of the scope writes
`B` and then `A`, as the run of the two statements in that order does. -/
theorem scope_end_runs_registered_witness :
    ∃ e', env_scope_end 8 env_two_defers = .ok () e' ∧ e'.stdout = "B\nA\n" ∧
      run_defers 7 env_two_defers
        [[println_stmt (.val (.str "B"))], [println_stmt (.val (.str "A"))]] = .ok () e' ∧
      e'.scope + 1 = env_two_defers.scope :=
  ⟨_, rfl, by decide,
    scope_end_runs_registered 7 env_two_defers _ _ rfl (by decide) rfl rfl rfl⟩

/-- A for statement `for (let i = a; cond; step) { body }` entered while a
return is in flight: the init is executed, so that `i` reads `a`, and the test
after the init finds `returning` set; the evaluation ends with
`Unexpected return in for loop` before the condition is evaluated, whatever
the condition, the step and the body are, and nothing is written. -/
theorem for_let_in_flight {D : Type} [double_ops D] (m : Nat) (e e1 : env_t D) (i : String)
    (a : value_t D) (cond : expr_t D) (step body : List (stmt_t D))
    (hret : e.returning = true) (hb : env_scope_begin e = .ok () e1) :
    ∃ e2, eval_stmt_for (m + 4) e [.let_ (.mk i (some (.val a)) none)] cond step body
        = .halt (.error "Unexpected return in for loop") e2 ∧
      eval_expr_id e2 i = .ok a e2 ∧ e2.stdout = e.stdout := by
  obtain ⟨_, _, h1, _, ⟨s, hs, hc, _⟩, _⟩ := env_scope_begin_top e e1 hb
  have hscan : let_scan i (s.vars.take s.vars_count) 0 none = some none := by
    simp [hc, let_scan]
  have hlet := eval_stmt_let_literal m e1 s i a none hs hscan
  have hr : (e1.set_top (let_frame s none i a)).returning = true := by
    show e1.returning = true
    rw [h1]
    exact hret
  refine ⟨e1.set_top (let_frame s none i a), ?_,
    (let_declares e1 s none i a hs (by omega) hscan).2.2, ?_⟩
  · simp [eval_stmt_for, hb, eval, hlet, hr, res.bind]
  · obtain ⟨t, _, rfl⟩ := env_scope_begin_eq e e1 hb
    rfl

/-- `for_let_in_flight` at `pending_env`, in which the return value 1 is
pending, and the loop `for (let i = 0; i < 3; i ++ 1) { println(i) }`. -/
theorem for_let_in_flight_witness :
    pending_env.returning = true ∧
    ∃ e2, eval_stmt_for 4 pending_env [.let_ (.mk "i" (some (.val (.num 0))) none)]
          (.bin_op BIN_OP_LESS (.id "i") (.val (.num 3)))
          [.expr (.bin_op BIN_OP_INC (.id "i") (.val (.num 1)))] [println_stmt (.id "i")]
        = .halt (.error "Unexpected return in for loop") e2 ∧
      eval_expr_id e2 "i" = .ok (.num 0) e2 ∧ e2.stdout = pending_env.stdout :=
  ⟨rfl, for_let_in_flight 0 pending_env _ "i" (.num 0) _ _ _ rfl rfl⟩

/-- C11. The program
`do { if true { defer for (let i = 0; i < 3; i ++ 1) { println(i) }  return 1 } }`,
in which the body of the loop executes no return, ends with the error
`Unexpected return in for loop` and has written nothing: the init has run, `i`
reads 0, and the body has not been executed.  So does the same loop deferred
in the body of a while statement.  Entered with no return in flight, the loop
writes `0`, `1`, `2`, each on a line, and `i` is not found after it. -/
theorem C11_for_loop_in_flight_aborts :
    (run_program 8 40 [] deferred_for_program).fatal?
      = some (.error "Unexpected return in for loop") ∧
    (run_program 8 40 [] deferred_for_program).halt_env?.map
        (fun e => (e.stdout, (eval_expr_id e "i").val?)) = some ("", some (.num 0)) ∧
    (run_program 8 40 [] deferred_for_in_while_program).fatal?
      = some (.error "Unexpected return in for loop") ∧
    (run_program 8 40 [] deferred_for_in_while_program).halt_env?.map
        (fun e => (e.stdout, (eval_expr_id e "i").val?)) = some ("", some (.num 0)) ∧
    (run_program 8 40 [] for_only_program).fatal? = none ∧
    (run_program 8 40 [] for_only_program).env?.map
        (fun e => (e.stdout, env_get_var e "i")) = some ("0\n1\n2\n", none) := by
  decide!

/-- A call that returned, returned with the environment `env?` gives. -/
theorem res.eq_ok_of_env? {D : Type} (r : res D Unit) (h : r.env?.isSome = true) :
    r = .ok () (r.env?.get h) := by
  cases r with
  | ok u e => rfl
  | halt f e => cases h
  | out_of_fuel => cases h

/-- `for_loop_no_return_in_flight` at the environment of `env_init` and the
loop `for (let i = 0; i < 3; i ++ 1) { let y = i  println(y) }`, which runs
three iterations: the let of the body succeeds in each, the loop writes `0`,
`1`, `2`, and after it `e->scope` is where it was and neither `i` nor `y` is
found. -/
theorem for_loop_no_return_in_flight_witness :
    (env_init 8 [] : res Int Unit) = .ok () env_started ∧
    env_started.returning = false ∧
    ∃ e', for_let_run = .ok () e' ∧
      e'.returned = env_started.returned ∧ e'.stdout = "0\n1\n2\n" ∧
      env_get_var e' "i" = none ∧ env_get_var e' "y" = none ∧
      e'.scope = env_started.scope ∧ e'.returning = false ∧
      ∀ name, env_get_var e' name = env_get_var env_started name :=
  ⟨rfl, rfl, for_let_run.env?.get (by decide!), res.eq_ok_of_env? _ _, by decide!, by decide!,
    by decide!, by decide!,
    (for_loop_no_return_in_flight 30 env_started _ _ _ _ rfl).2.2.2.2.1 _
      (res.eq_ok_of_env? for_let_run (by decide!)) (by decide!)⟩

end Nopscript
